import Mathlib

/-!
# ElevationColorMap

A shallow embedding of `ElevationColorMap.cpp` / `ElevationColorMap.h` of the
Augmented Reality Sandbox: the colour ramp loader, the texture plane
projector, the per-context texture cache and the colour cycling animator.

Conventions of the embedding.

* `GLfloat`, `GLdouble`, `float` and `Scalar` values are exact rationals (`ℚ`);
  `Math::floor` is `Int.floor` and the conversion `int(x)` truncates toward zero.
  The methods are embedded with exact arithmetic. Where the value held in a
  `float` is itself the subject, the method is given a second time with an
  explicit rounding function at each place where a result is stored in a
  `float` (`updateColorCycleWith`, `calcTexturePlaneWith`); `roundF32` is the
  rounding of IEEE 754 binary32, without overflow.
* The cycle update and the two parse loops are also given in the arithmetic of
  the source (`updateColorCycleF32`, `cptLoopF32`, `defaultLoopF32`): every
  value stored in a `float` is rounded to binary32, a result beyond the finite
  range is an infinity (`F32.ofRat`), the quotient by `255.0` is rounded to
  binary64 first, and a call that converts NaN with `int(...)`, which is
  undefined in C++, has no result (`none`).
* `int` loop counters, entry counts and line numbers are natural numbers, and
  the inherited `textureVersion` counter is an unbounded natural number.
* A C++ method that mutates the object is a function returning the new object;
  `load`, which can throw after it has already written to the object, returns
  the object as the exception leaves it together with the exception, if any.
* Collaborators whose code is not part of the sources (`IO::ValueSource`,
  `IO::openFile`, `Misc::hasCaseExtension`, `GLColorMap::setColors`,
  `CONFIG_CONFIGDIR`) are either parameters (`Env`) or small models that are
  marked as such.
-/

namespace SARndbox

/-! ## Data model -/

/-- One entry of the colour map, `GLColorMap::Color`: the four `GLfloat`
channels `rgba[0..3]`. -/
structure Color where
  r : ℚ
  g : ℚ
  b : ℚ
  a : ℚ
deriving DecidableEq, Repr

instance : Inhabited Color := ⟨⟨0, 0, 0, 0⟩⟩

/-- Channel `j` of a colour, `color[j]`. -/
def Color.get (c : Color) (j : Nat) : ℚ :=
  match j with
  | 0 => c.r
  | 1 => c.g
  | 2 => c.b
  | _ => c.a

/-- Assignment `color[j]=v`. -/
def Color.set (c : Color) (j : Nat) (v : ℚ) : Color :=
  match j with
  | 0 => { c with r := v }
  | 1 => { c with g := v }
  | 2 => { c with b := v }
  | _ => { c with a := v }

/-- The inherited `GLColorMap` part of the object: the resampled entries
(`getNumEntries()` is their number, `getColors()` the array itself) and the
scalar range. -/
structure GLColorMap where
  entries : List Color
  scalarRangeMin : ℚ
  scalarRangeMax : ℚ
deriving DecidableEq, Repr

/-- Modelled from the spec: the inherited `GLTextureObject` part, whose
declaration is not part of the sources; the spec describes `textureVersion`
as a monotonically increasing integer counter. -/
structure GLTextureObject where
  textureVersion : Nat
deriving DecidableEq, Repr

/-- The object state of `class ElevationColorMap`. A null `originalColors`
pointer is `none`; an allocated backup is the list of its `GLfloat`s. -/
structure ElevationColorMap extends GLColorMap, GLTextureObject where
  texturePlaneEq : List ℚ
  colorCyclingEnabled : Bool
  colorCycleSpeed : ℚ
  colorCyclePhase : ℚ
  originalColors : Option (List ℚ)
deriving DecidableEq, Repr

/-- The call `getNumEntries()`. -/
def ElevationColorMap.getNumEntries (m : ElevationColorMap) : Nat :=
  m.entries.length

/-- The inline accessor `isColorCycling()`. -/
def ElevationColorMap.isColorCycling (m : ElevationColorMap) : Bool :=
  m.colorCyclingEnabled

/-! ## Raw buffer access and loops -/

/-- The loop `for(int i=0;i<n;++i) body` acting on a state `σ`. -/
def forLoop {σ : Type} (n : Nat) (body : Nat → σ → σ) (s : σ) : σ :=
  (List.range n).foldl (fun acc i => body i acc) s

/-- Read of `colorData[k]`, where
`colorData=reinterpret_cast<GLfloat*>(colors)` views the entry array as a flat
array of floats: float `k` is channel `k%4` of entry `k/4`. -/
def colorDataRead (colors : List Color) (k : Nat) : ℚ :=
  (colors.getD (k / 4) default).get (k % 4)

/-- Assignment `colorData[k]=v` through the same flat view. -/
def colorDataWrite (colors : List Color) (k : Nat) (v : ℚ) : List Color :=
  colors.set (k / 4) ((colors.getD (k / 4) default).set (k % 4) v)

/-- Read of `originalColors[k]` for an `int` index `k`. An index outside the
allocation (undefined in C++) reads as `0`. -/
def arrayRead (buf : List ℚ) (k : Int) : ℚ :=
  if 0 ≤ k then buf.getD k.toNat 0 else 0

/-- The conversion `int(x)` of a floating-point value: truncation toward
zero. -/
def truncToInt (x : ℚ) : Int :=
  if 0 ≤ x then ⌊x⌋ else ⌈x⌉

/-! ## Colour cycling -/

/-- The method `ElevationColorMap::setColorCycling(bool enabled,float speed)`. -/
def ElevationColorMap.setColorCycling (m : ElevationColorMap) (enabled : Bool)
    (speed : ℚ) : ElevationColorMap :=
  let m1 : ElevationColorMap :=
    if enabled && !m.colorCyclingEnabled then
      -- Starting color cycling - backup the original colors
      let numEntries := m.getNumEntries
      match m.originalColors with
      | none =>
        let colorData := m.entries
        { m with
          originalColors := some
            (forLoop (numEntries * 4)
              (fun i originalColors => originalColors.set i (colorDataRead colorData i))
              (List.replicate (numEntries * 4) 0)) }
      | some _ => m
    else if !enabled && m.colorCyclingEnabled then
      -- Stopping color cycling - restore the original colors
      match m.originalColors with
      | some originalColors =>
        let numEntries := m.getNumEntries
        { m with
          entries :=
            forLoop (numEntries * 4)
              (fun i colorData => colorDataWrite colorData i (originalColors.getD i 0))
              m.entries
          textureVersion := m.textureVersion + 1 }
      | none => m
    else m
  let m2 : ElevationColorMap :=
    { m1 with colorCyclingEnabled := enabled, colorCycleSpeed := speed }
  -- Reset phase when enabling
  if enabled then { m2 with colorCyclePhase := 0 } else m2

/-- The source index `(i+shiftAmount)%numEntries` of `updateColorCycle`, with
the truncated remainder of C++ `int` arithmetic. -/
def srcIndex (i : Nat) (shiftAmount : Int) (numEntries : Nat) : Int :=
  Int.tmod ((i : Int) + shiftAmount) (numEntries : Int)

/-- The phase computed by `updateColorCycle` in exact arithmetic:
`animationTime*colorCycleSpeed` minus its floor. The phase in binary32
arithmetic is `cyclePhaseF32`. -/
def cyclePhase (animationTime speed : ℚ) : ℚ :=
  animationTime * speed - ((⌊animationTime * speed⌋ : Int) : ℚ)

/-- The method `ElevationColorMap::updateColorCycle(float animationTime)` in
exact arithmetic: no `float` result is rounded. The method in binary32
arithmetic is `updateColorCycleF32`; the two agree in everything but the
phase and the colours. -/
def ElevationColorMap.updateColorCycle (m : ElevationColorMap)
    (animationTime : ℚ) : ElevationColorMap :=
  match m.originalColors with
  | none => m
  | some originalColors =>
    if !m.colorCyclingEnabled then m
    else
      -- Update the phase based on animation time and speed
      let colorCyclePhase := cyclePhase animationTime m.colorCycleSpeed
      -- Calculate the shift amount in color entries
      let numEntries := m.getNumEntries
      let shiftAmount : Int := truncToInt (colorCyclePhase * (numEntries : ℚ))
      -- Update the color map with cycled colors
      let colors :=
        forLoop numEntries
          (fun i colorData =>
            forLoop 4
              (fun j colorData =>
                colorDataWrite colorData (i * 4 + j)
                  (arrayRead originalColors
                    (srcIndex i shiftAmount numEntries * 4 + (j : Int))))
              colorData)
          m.entries
      -- Invalidate the texture to force re-upload
      { m with
        colorCyclePhase := colorCyclePhase
        entries := colors
        textureVersion := m.textureVersion + 1 }

/-! ## Reading the height map file -/

/-- The exceptions `load` can leave with. -/
inductive LoadError where
  /-- The exception of `IO::openFile`: the file cannot be opened. -/
  | openError (fileName : String)
  /-- The exception of `IO::ValueSource::readNumber`: no number at the read
  position. -/
  | numberError
  /-- The exception made by `Misc::makeStdErr` with the message
  `Color map format error in line %d of file %s`. -/
  | formatError (line : Nat) (fileName : String)
deriving DecidableEq, Repr

/-- Modelled from the spec: what an `IO::ValueSource` (not part of the
sources) delivers, one item per read: a number, a punctuation character, or a
character that is neither. -/
inductive Token where
  | number (value : ℚ)
  | punct (c : Char)
  | other (c : Char)
deriving DecidableEq, Repr

/-- Modelled from the spec: the digits of the permissive numeric scanner of
`IO::ValueSource`. Returns the value read so far, the number of digits and the
remaining characters. -/
def scanDigits : List Char → Nat → Nat → Nat × Nat × List Char
  | [], acc, n => (acc, n, [])
  | c :: cs, acc, n =>
    if c.isDigit then scanDigits cs (acc * 10 + (c.toNat - 48)) (n + 1)
    else (acc, n, c :: cs)

/-- Modelled from the spec: the numeric scanner of `IO::ValueSource`
(not part of the sources): optional sign, digits with an optional decimal
point, optional exponent. `none` when there is no digit. -/
def scanNumber (cs : List Char) : Option (ℚ × List Char) :=
  let signed : Bool × List Char :=
    match cs with
    | '-' :: rest => (true, rest)
    | '+' :: rest => (false, rest)
    | _ => (false, cs)
  let intPart := scanDigits signed.2 0 0
  let fracPart : Nat × Nat × List Char :=
    match intPart.2.2 with
    | '.' :: rest => scanDigits rest 0 0
    | rest => (0, 0, rest)
  if intPart.2.1 + fracPart.2.1 = 0 then none
  else
    let mantissa : ℚ := (intPart.1 : ℚ) + (fracPart.1 : ℚ) / (10 : ℚ) ^ fracPart.2.1
    let value : ℚ := if signed.1 then -mantissa else mantissa
    let expPart : Int × List Char :=
      match fracPart.2.2 with
      | 'e' :: '-' :: rest =>
        let d := scanDigits rest 0 0
        if d.2.1 = 0 then (0, fracPart.2.2) else (-(d.1 : Int), d.2.2)
      | 'e' :: '+' :: rest =>
        let d := scanDigits rest 0 0
        if d.2.1 = 0 then (0, fracPart.2.2) else ((d.1 : Int), d.2.2)
      | 'e' :: rest =>
        let d := scanDigits rest 0 0
        if d.2.1 = 0 then (0, fracPart.2.2) else ((d.1 : Int), d.2.2)
      | 'E' :: '-' :: rest =>
        let d := scanDigits rest 0 0
        if d.2.1 = 0 then (0, fracPart.2.2) else (-(d.1 : Int), d.2.2)
      | 'E' :: '+' :: rest =>
        let d := scanDigits rest 0 0
        if d.2.1 = 0 then (0, fracPart.2.2) else ((d.1 : Int), d.2.2)
      | 'E' :: rest =>
        let d := scanDigits rest 0 0
        if d.2.1 = 0 then (0, fracPart.2.2) else ((d.1 : Int), d.2.2)
      | _ => (0, fracPart.2.2)
    some (value * (10 : ℚ) ^ expPart.1, expPart.2)

/-- Modelled from the spec: the items an `IO::ValueSource` with the given
punctuation characters delivers for a text. White space that is not
punctuation separates items and is skipped. -/
def scanAux (punctuation : List Char) : Nat → List Char → List Token
  | 0, _ => []
  | _ + 1, [] => []
  | fuel + 1, c :: cs =>
    if punctuation.contains c then Token.punct c :: scanAux punctuation fuel cs
    else if c.isWhitespace then scanAux punctuation fuel cs
    else
      match scanNumber (c :: cs) with
      | some (q, rest) => Token.number q :: scanAux punctuation fuel rest
      | none => Token.other c :: scanAux punctuation fuel cs

/-- Modelled from the spec: see `scanAux`; every step consumes a character. -/
def scan (punctuation : List Char) (text : List Char) : List Token :=
  scanAux punctuation text.length text

/-- Modelled from the spec: `IO::ValueSource` (not part of the sources),
positioned in front of the items still to be read. -/
structure ValueSource where
  items : List Token
deriving DecidableEq, Repr

/-- Modelled from the spec: `heightMapSource.eof()`. -/
def ValueSource.eof (src : ValueSource) : Bool :=
  src.items.isEmpty

/-- Modelled from the spec: `heightMapSource.readNumber()`; throws when the
next item is not a number, in particular at the end of the file. -/
def ValueSource.readNumber (src : ValueSource) : Except LoadError (ℚ × ValueSource) :=
  match src.items with
  | Token.number q :: rest => Except.ok (q, ⟨rest⟩)
  | _ => Except.error LoadError.numberError

/-- Modelled from the spec: `heightMapSource.isLiteral(c)`; consumes the
next item exactly when it is the punctuation character `c`. -/
def ValueSource.isLiteral (src : ValueSource) (c : Char) : Bool × ValueSource :=
  match src.items with
  | Token.punct d :: rest => if d = c then (true, ⟨rest⟩) else (false, src)
  | _ => (false, src)

/-- The loop `while(!heightMapSource.eof())` of the `.cpt` branch of `load`,
with the colour components as exact quotients; `cptLoopF32` is the loop with
the conversion to `GLfloat`, which reads the same items. `fuel` bounds the
number of iterations. -/
def cptLoop (fullHeightMapName : String) :
    Nat → ValueSource → Nat → List ℚ → List Color →
      Except LoadError (List ℚ × List Color)
  | 0, _, _, heightMapKeys, heightMapColors => Except.ok (heightMapKeys, heightMapColors)
  | fuel + 1, src, line, heightMapKeys, heightMapColors =>
    if src.eof then Except.ok (heightMapKeys, heightMapColors)
    else do
      -- Read the next color map key value
      let (key, src) ← src.readNumber
      let heightMapKeys := heightMapKeys ++ [key]
      -- Read the next color map color value
      let (c0, src) ← src.readNumber
      let (c1, src) ← src.readNumber
      let (c2, src) ← src.readNumber
      let color : Color := ⟨c0 / 255, c1 / 255, c2 / 255, 1⟩
      let heightMapColors := heightMapColors ++ [color]
      let (isNewline, src) := src.isLiteral '\n'
      if !isNewline then
        throw (LoadError.formatError line fullHeightMapName)
      else
        cptLoop fullHeightMapName fuel src (line + 1) heightMapKeys heightMapColors

/-- The loop `while(!heightMapSource.eof())` of the default branch of `load`,
with the colour components as the numbers read; `defaultLoopF32` is the loop
with the conversion to `GLfloat`, which reads the same items. `fuel` bounds
the number of iterations. -/
def defaultLoop (fullHeightMapName : String) :
    Nat → ValueSource → Nat → List ℚ → List Color →
      Except LoadError (List ℚ × List Color)
  | 0, _, _, heightMapKeys, heightMapColors => Except.ok (heightMapKeys, heightMapColors)
  | fuel + 1, src, line, heightMapKeys, heightMapColors =>
    if src.eof then Except.ok (heightMapKeys, heightMapColors)
    else do
      -- Read the next color map key value
      let (key, src) ← src.readNumber
      let heightMapKeys := heightMapKeys ++ [key]
      let (isComma, src) := src.isLiteral ','
      if !isComma then
        throw (LoadError.formatError line fullHeightMapName)
      else do
        -- Read the next color map color value
        let (c0, src) ← src.readNumber
        let (c1, src) ← src.readNumber
        let (c2, src) ← src.readNumber
        let color : Color := ⟨c0, c1, c2, 1⟩
        let heightMapColors := heightMapColors ++ [color]
        let (isNewline, src) := src.isLiteral '\n'
        if !isNewline then
          throw (LoadError.formatError line fullHeightMapName)
        else
          defaultLoop fullHeightMapName fuel src (line + 1) heightMapKeys heightMapColors

/-- The `.cpt` branch of `load` on an opened source: the loop from line 1 with
empty key and colour vectors. Every iteration that continues consumes an item,
so `items.length + 1` iterations reach the end of the source. -/
def parseCpt (fullHeightMapName : String) (src : ValueSource) :
    Except LoadError (List ℚ × List Color) :=
  cptLoop fullHeightMapName (src.items.length + 1) src 1 [] []

/-- The default branch of `load` on an opened source. -/
def parseDefault (fullHeightMapName : String) (src : ValueSource) :
    Except LoadError (List ℚ × List Color) :=
  defaultLoop fullHeightMapName (src.items.length + 1) src 1 [] []

/-- Modelled from the spec: `Misc::hasCaseExtension` (not part of the
sources); the format is selected by the suffix of the file name, compared
without regard to case. -/
def hasCaseExtension (fileName : String) (extension : String) : Bool :=
  (extension.toLower.toList).isSuffixOf (fileName.toLower.toList)

/-- The collaborators of `load` that are not part of the sources. -/
structure Env where
  /-- The macro `CONFIG_CONFIGDIR` of `Config.h`. -/
  configDir : String
  /-- The call `IO::openFile(name)`: the text of the file, `none` when it
  cannot be opened. -/
  openFile : String → Option (List Char)
  /-- The inherited `GLColorMap::setColors(numKeys,colors,keys,numEntries)`:
  the entries and scalar range it leaves in the object. -/
  setColors : Nat → List Color → List ℚ → Nat → GLColorMap

/-- The file name `load` opens: an absolute name as it is, any other name
below the configuration directory. -/
def fullName (env : Env) (heightMapName : String) : String :=
  if heightMapName.toList.head? = some '/' then heightMapName
  else (env.configDir.push '/').append heightMapName

/-- The method `ElevationColorMap::load(const char* heightMapName)`. The
result is the object after the call and the exception the call left with, if
any. -/
def ElevationColorMap.load (m : ElevationColorMap) (env : Env)
    (heightMapName : String) : ElevationColorMap × Option LoadError :=
  -- Save the current color cycling state
  let wasCycling := m.colorCyclingEnabled
  let savedSpeed := m.colorCycleSpeed
  -- Clean up any existing original colors backup
  let m : ElevationColorMap := { m with originalColors := none }
  -- Temporarily disable color cycling during load
  let m : ElevationColorMap := { m with colorCyclingEnabled := false }
  -- Open the height map file
  let fullHeightMapName := fullName env heightMapName
  match env.openFile fullHeightMapName with
  | none => (m, some (LoadError.openError fullHeightMapName))
  | some text =>
    -- Load the height color map
    let parsed :=
      if hasCaseExtension heightMapName ".cpt" then
        parseCpt fullHeightMapName ⟨scan ['\n'] text⟩
      else
        parseDefault fullHeightMapName ⟨scan [',', '\n'] text⟩
    match parsed with
    | Except.error e => (m, some e)
    | Except.ok (heightMapKeys, heightMapColors) =>
      -- Create the color map
      let m : ElevationColorMap :=
        { m with toGLColorMap := env.setColors heightMapKeys.length heightMapColors heightMapKeys 256 }
      -- Invalidate the color map texture object
      let m : ElevationColorMap := { m with textureVersion := m.textureVersion + 1 }
      -- Restore color cycling if it was enabled
      let m : ElevationColorMap :=
        if wasCycling then m.setColorCycling true savedSpeed else m
      (m, none)

/-- The constructor `ElevationColorMap(const char* heightMapName)`. The
arguments `colorMap`, `textureObject` and `texturePlaneEq` are the state the
base class constructors and the uninitialised array start with. An exception
of `load` leaves no object. -/
def ElevationColorMap.construct (colorMap : GLColorMap) (textureObject : GLTextureObject)
    (texturePlaneEq : List ℚ) (env : Env) (heightMapName : String) :
    Option ElevationColorMap :=
  let m : ElevationColorMap :=
    { toGLColorMap := colorMap
      toGLTextureObject := textureObject
      texturePlaneEq := texturePlaneEq
      colorCyclingEnabled := false
      colorCycleSpeed := 1
      colorCyclePhase := 0
      originalColors := none }
  match m.load env heightMapName with
  | (m, none) => some m
  | (_, some _) => none

/-! ## Texture plane -/

/-- A plane `Plane`: normal vector and offset. -/
structure Plane where
  normal : Fin 3 → ℚ
  offset : ℚ

/-- The method `ElevationColorMap::calcTexturePlane(const Plane& basePlane)`. -/
def ElevationColorMap.calcTexturePlane (m : ElevationColorMap) (basePlane : Plane) :
    ElevationColorMap :=
  let bpn := basePlane.normal
  let bpo := basePlane.offset
  let hms : ℚ :=
    ((((m.getNumEntries : Int) - 1 : Int) : ℚ)) /
      ((m.scalarRangeMax - m.scalarRangeMin) * (m.getNumEntries : ℚ))
  let hmo : ℚ := (1 / 2 : ℚ) / (m.getNumEntries : ℚ) - hms * m.scalarRangeMin
  { m with texturePlaneEq := [bpn 0 * hms, bpn 1 * hms, bpn 2 * hms, -bpo * hms + hmo] }

/-! ## Texture cache -/

/-- The per-context `DataItem`, together with what the GL context holds for
its texture object: the image of the last `glTexImage1D` call and the number
of such calls. -/
structure DataItem where
  textureObjectId : Nat
  textureObjectVersion : Nat
  texImage : List Color
  numUploads : Nat
deriving DecidableEq, Repr

/-- The method `ElevationColorMap::bindTexture`, a `const` method: it acts on
the context's data item only. The texture unit it returns comes from the
texture tracker and is left out. -/
def ElevationColorMap.bindTexture (m : ElevationColorMap) (dataItem : DataItem) : DataItem :=
  -- Check if the color map texture is outdated
  if dataItem.textureObjectVersion ≠ m.textureVersion then
    -- Upload the new color map into the texture
    { dataItem with
      texImage := m.entries
      numUploads := dataItem.numUploads + 1
      textureObjectVersion := m.textureVersion }
  else dataItem

/-- An object together with the data item of one GL context. -/
structure World where
  map : ElevationColorMap
  dataItem : DataItem

/-- A `bindTexture` call in a world: the object is `const`. -/
def World.bindTexture (w : World) : World :=
  { w with dataItem := w.map.bindTexture w.dataItem }

/-! ## Reachable states -/

/-- The object states reachable through the constructor, `load` (whether it
returns or throws), `setColorCycling` and `updateColorCycle`. -/
inductive Reachable : ElevationColorMap → Prop where
  | construct (colorMap : GLColorMap) (textureObject : GLTextureObject)
      (texturePlaneEq : List ℚ) (env : Env) (heightMapName : String)
      (m : ElevationColorMap)
      (h : ElevationColorMap.construct colorMap textureObject texturePlaneEq env heightMapName
        = some m) : Reachable m
  | load (m : ElevationColorMap) (env : Env) (heightMapName : String)
      (h : Reachable m) : Reachable (m.load env heightMapName).1
  | setColorCycling (m : ElevationColorMap) (enabled : Bool) (speed : ℚ)
      (h : Reachable m) : Reachable (m.setColorCycling enabled speed)
  | updateColorCycle (m : ElevationColorMap) (animationTime : ℚ)
      (h : Reachable m) : Reachable (m.updateColorCycle animationTime)

/-- The float array seen through `colorData`: all channels of all entries in
memory order. -/
def colorDataList (colors : List Color) : List ℚ :=
  (List.range (colors.length * 4)).map (colorDataRead colors)

/-- The invariant of the cycling state: (i) cycling enabled only with a
backup, (ii) a backup has four floats per entry, (iii) while cycling is off a
backup equals the live colours. -/
def CycleInv (m : ElevationColorMap) : Prop :=
  match m.originalColors with
  | none => m.colorCyclingEnabled = false
  | some backup =>
    backup.length = m.getNumEntries * 4 ∧
      (m.colorCyclingEnabled = false → backup = colorDataList m.entries)

instance (m : ElevationColorMap) : Decidable (CycleInv m) := by
  unfold CycleInv
  split <;> infer_instance

/-! ## Sample objects and collaborators -/

/-- A sample environment: every file opens with the given text, and
`setColors` stores the colours of the file as the entries, unresampled, with
the scalar range `[0,1]`. -/
def sampleEnv (text : String) : Env where
  configDir := "/etc/SARndbox"
  openFile := fun _ => some text.toList
  setColors := fun _ colors _ _ => ⟨colors, 0, 1⟩

/-- A sample environment in which no file can be opened. -/
def noFileEnv : Env where
  configDir := "/etc/SARndbox"
  openFile := fun _ => none
  setColors := fun _ colors _ _ => ⟨colors, 0, 1⟩

/-- A sample object with three entries, cycling off, no backup. -/
def sampleMap : ElevationColorMap where
  entries := [⟨1, 0, 0, 1⟩, ⟨0, 1, 0, 1⟩, ⟨0, 0, 1, 1⟩]
  scalarRangeMin := 0
  scalarRangeMax := 100
  textureVersion := 1
  texturePlaneEq := [0, 0, 0, 0]
  colorCyclingEnabled := false
  colorCycleSpeed := 1
  colorCyclePhase := 0
  originalColors := none

/-- The sample object while cycling at speed 2 with its backup in place. -/
def sampleCycling : ElevationColorMap :=
  { sampleMap with
    colorCyclingEnabled := true
    colorCycleSpeed := 2
    originalColors := some [1, 0, 0, 1, 0, 1, 0, 1, 0, 0, 1, 1] }

/-- A sample data item of a context that has not uploaded yet: its stamp `0`
is older than every version of a loaded map. -/
def freshItem : DataItem where
  textureObjectId := 7
  textureObjectVersion := 0
  texImage := []
  numUploads := 0

/-! ## Records of a height map file -/

/-- The four numbers of one record of a height map file. -/
structure Record where
  key : ℚ
  r : ℚ
  g : ℚ
  b : ℚ
deriving DecidableEq, Repr

/-- What the source delivers for the fields `key r g b` of a `.cpt` record:
four numbers, nothing in between but white space. -/
def Record.cptFields (rec : Record) : List Token :=
  [Token.number rec.key, Token.number rec.r, Token.number rec.g, Token.number rec.b]

/-- A `.cpt` record with its newline. -/
def Record.cptItems (rec : Record) : List Token :=
  rec.cptFields ++ [Token.punct '\n']

/-- What the source delivers for the fields `key, r g b` of a record of the
default format: the key, a comma, and three numbers with nothing in between
but white space. -/
def Record.defaultFields (rec : Record) : List Token :=
  [Token.number rec.key, Token.punct ',', Token.number rec.r, Token.number rec.g,
    Token.number rec.b]

/-- A record of the default format with its newline. -/
def Record.defaultItems (rec : Record) : List Token :=
  rec.defaultFields ++ [Token.punct '\n']

/-- What the source delivers for a record `key,r,g,b` with all four fields
separated by commas, and its newline. -/
def Record.commaItems (rec : Record) : List Token :=
  [Token.number rec.key, Token.punct ',', Token.number rec.r, Token.punct ',',
    Token.number rec.g, Token.punct ',', Token.number rec.b, Token.punct '\n']

/-- The colour `load` makes of a `.cpt` record: components divided by 255,
alpha 1. -/
def Record.cptColor (rec : Record) : Color :=
  ⟨rec.r / 255, rec.g / 255, rec.b / 255, 1⟩

/-- The colour `load` makes of a record of the default format: components as
they are, alpha 1. -/
def Record.defaultColor (rec : Record) : Color :=
  ⟨rec.r, rec.g, rec.b, 1⟩

/-- The sample cycling object after `updateColorCycle(1/5)`: phase 2/5. -/
def sampleShifted : ElevationColorMap :=
  sampleCycling.updateColorCycle (1 / 5)

/-- A float array read as entries: entry `i` is made of floats `4i .. 4i+3`. -/
def backupColors (buf : List ℚ) : List Color :=
  (List.range (buf.length / 4)).map
    (fun i => ⟨buf.getD (i * 4) 0, buf.getD (i * 4 + 1) 0, buf.getD (i * 4 + 2) 0,
      buf.getD (i * 4 + 3) 0⟩)

/-- The object the constructor builds from the three line file
`"0 255 0 0\n1 0 255 0\n2 0 0 255\n"` in the sample environment. -/
def sampleLoaded : ElevationColorMap :=
  { sampleMap with scalarRangeMax := 1, texturePlaneEq := [] }

/-- The object `sampleLoaded` after `setColorCycling(true, 2)`. -/
def sampleEnabled : ElevationColorMap :=
  sampleLoaded.setColorCycling true 2

/-- The worlds (an object and the data item of one GL context) reachable
through the constructor, `load`, `setColorCycling`, `updateColorCycle` and
`bindTexture`, for a context whose data item starts with the stamp `stamp0`,
a value that the live `textureVersion` never takes. An upload copies the
live colour buffer into the context's texture image. -/
inductive WorldReachable (stamp0 : Nat) : World → Prop where
  | construct (colorMap : GLColorMap) (textureObject : GLTextureObject)
      (texturePlaneEq : List ℚ) (env : Env) (heightMapName : String)
      (m : ElevationColorMap) (dataItem : DataItem)
      (h : ElevationColorMap.construct colorMap textureObject texturePlaneEq env heightMapName
        = some m)
      (hstamp : dataItem.textureObjectVersion = stamp0)
      (hne : stamp0 ≠ m.textureVersion) : WorldReachable stamp0 ⟨m, dataItem⟩
  | load (w : World) (env : Env) (heightMapName : String) (h : WorldReachable stamp0 w)
      (hne : stamp0 ≠ (w.map.load env heightMapName).1.textureVersion) :
      WorldReachable stamp0 ⟨(w.map.load env heightMapName).1, w.dataItem⟩
  | setColorCycling (w : World) (enabled : Bool) (speed : ℚ) (h : WorldReachable stamp0 w)
      (hne : stamp0 ≠ (w.map.setColorCycling enabled speed).textureVersion) :
      WorldReachable stamp0 ⟨w.map.setColorCycling enabled speed, w.dataItem⟩
  | updateColorCycle (w : World) (animationTime : ℚ) (h : WorldReachable stamp0 w)
      (hne : stamp0 ≠ (w.map.updateColorCycle animationTime).textureVersion) :
      WorldReachable stamp0 ⟨w.map.updateColorCycle animationTime, w.dataItem⟩
  | bindTexture (w : World) (h : WorldReachable stamp0 w) : WorldReachable stamp0 w.bindTexture

/-- A sample world: the constructor, a bind in a fresh context, an enable at
speed 2, an update at time 1/5 and another bind. -/
def sampleWorld : World :=
  World.bindTexture
    ⟨sampleEnabled.updateColorCycle (1 / 5), (World.bindTexture ⟨sampleLoaded, freshItem⟩).dataItem⟩

/-! ## Binary32 rounding -/

/-- Number of doublings that bring a positive `x` up to at least 1, at most
`fuel`. -/
def binadeDown : Nat → ℚ → Nat
  | 0, _ => 0
  | fuel + 1, x => if 1 ≤ x then 0 else binadeDown fuel (2 * x) + 1

/-- Number of halvings that bring `x` below 2, at most `fuel`. -/
def binadeUp : Nat → ℚ → Nat
  | 0, _ => 0
  | fuel + 1, x => if x < 2 then 0 else binadeUp fuel (x / 2) + 1

/-- The exponent `e` of the binary32 binade of `x ≠ 0`: `2^e ≤ |x| < 2^(e+1)`,
but not below `-126`, the exponent of the subnormal numbers, and not above
`127`. -/
def binade32 (x : ℚ) : Int :=
  if 1 ≤ |x| then (binadeUp 127 |x| : Int) else -(binadeDown 126 |x| : Int)

/-- Rounding of a rational to the nearest integer, ties to the even one. -/
def roundHalfEven (q : ℚ) : Int :=
  if q - (⌊q⌋ : ℚ) < 1 / 2 then ⌊q⌋
  else if 1 / 2 < q - (⌊q⌋ : ℚ) then ⌊q⌋ + 1
  else if ⌊q⌋ % 2 = 0 then ⌊q⌋ else ⌊q⌋ + 1

/-- The value a C++ `float` (`GLfloat`) takes when it is assigned the exact
result `x`: IEEE 754 binary32, 24 significant bits, round to nearest, ties to
even. Overflow to infinity is not modelled. -/
def roundF32 (x : ℚ) : ℚ :=
  if x = 0 then 0
  else (roundHalfEven (x / (2 : ℚ) ^ (binade32 x - 23)) : ℚ) * (2 : ℚ) ^ (binade32 x - 23)

/-- The method `ElevationColorMap::updateColorCycle(float animationTime)` with
the rounding `fl` applied wherever a result is held in a `float`: the product
and the difference assigned to `colorCyclePhase`, the conversion
`float(numEntries)` and the product converted by `int(...)`. With `fl` the
identity this is `updateColorCycle`; with `roundF32` it is the method in
binary32 arithmetic. -/
def ElevationColorMap.updateColorCycleWith (fl : ℚ → ℚ) (m : ElevationColorMap)
    (animationTime : ℚ) : ElevationColorMap :=
  match m.originalColors with
  | none => m
  | some originalColors =>
    if !m.colorCyclingEnabled then m
    else
      -- Update the phase based on animation time and speed
      let product := fl (animationTime * m.colorCycleSpeed)
      let colorCyclePhase := fl (product - ((⌊product⌋ : Int) : ℚ))
      -- Calculate the shift amount in color entries
      let numEntries := m.getNumEntries
      let shiftAmount : Int := truncToInt (fl (colorCyclePhase * fl (numEntries : ℚ)))
      -- Update the color map with cycled colors
      let colors :=
        forLoop numEntries
          (fun i colorData =>
            forLoop 4
              (fun j colorData =>
                colorDataWrite colorData (i * 4 + j)
                  (arrayRead originalColors
                    (srcIndex i shiftAmount numEntries * 4 + (j : Int))))
              colorData)
          m.entries
      -- Invalidate the texture to force re-upload
      { m with
        colorCyclePhase := colorCyclePhase
        entries := colors
        textureVersion := m.textureVersion + 1 }

/-- The method `calcTexturePlane` with the rounding `fl` applied at the four
conversions `GLfloat(...)`; the `Scalar` arithmetic is exact. With `fl` the
identity this is `calcTexturePlane`. -/
def ElevationColorMap.calcTexturePlaneWith (fl : ℚ → ℚ) (m : ElevationColorMap)
    (basePlane : Plane) : ElevationColorMap :=
  let bpn := basePlane.normal
  let bpo := basePlane.offset
  let hms : ℚ :=
    ((((m.getNumEntries : Int) - 1 : Int) : ℚ)) /
      ((m.scalarRangeMax - m.scalarRangeMin) * (m.getNumEntries : ℚ))
  let hmo : ℚ := (1 / 2 : ℚ) / (m.getNumEntries : ℚ) - hms * m.scalarRangeMin
  { m with
    texturePlaneEq :=
      [fl (bpn 0 * hms), fl (bpn 1 * hms), fl (bpn 2 * hms), fl (-bpo * hms + hmo)] }

/-- The scale factor `hms` of `calcTexturePlane`. -/
def ElevationColorMap.hms (m : ElevationColorMap) : ℚ :=
  ((((m.getNumEntries : Int) - 1 : Int) : ℚ)) /
    ((m.scalarRangeMax - m.scalarRangeMin) * (m.getNumEntries : ℚ))

/-- A sample object with 256 entries and the scalar range `[0,100]`. -/
def sampleRamp256 : ElevationColorMap :=
  { sampleMap with
    entries := List.replicate 256 ⟨0, 0, 0, 1⟩
    scalarRangeMin := 0
    scalarRangeMax := 100 }

/-- The sample object with 256 entries while cycling at speed 2 with its
backup in place. -/
def sampleCycling256 : ElevationColorMap :=
  { sampleRamp256 with
    colorCyclingEnabled := true
    colorCycleSpeed := 2
    originalColors := some (List.replicate 1024 1) }

/-! ## The methods in binary32 arithmetic -/

/-- The exact results that a `float` holds as a finite number: those of
magnitude below `2^128 - 2^103`, the midpoint between the largest finite
binary32 value `2^128 - 2^104` and `2^128`. Every other result overflows. -/
def finiteF32 (x : ℚ) : Prop :=
  |x| < 2 ^ 128 - 2 ^ 103

instance (x : ℚ) : Decidable (finiteF32 x) := by
  unfold finiteF32
  infer_instance

/-- A value of type `float` (`GLfloat`, `Color::Scalar`): a finite number or
an infinity. The sign of a zero is not recorded. -/
inductive F32 where
  | finite (value : ℚ)
  | infinity (negative : Bool)
deriving DecidableEq, Repr

/-- The `float` that holds the exact result `x`: `roundF32 x` when that is
finite, and the infinity of the sign of `x` on overflow. -/
def F32.ofRat (x : ℚ) : F32 :=
  if finiteF32 x then F32.finite (roundF32 x) else F32.infinity (decide (x < 0))

/-- The exponent of the binary64 binade of `x ≠ 0`, not below `-1022`, the
exponent of the subnormal numbers, and not above `1023`. -/
def binade64 (x : ℚ) : Int :=
  if 1 ≤ |x| then (binadeUp 1023 |x| : Int) else -(binadeDown 1022 |x| : Int)

/-- The value a C++ `double` takes when it is assigned the exact result `x`:
IEEE 754 binary64, 53 significant bits, round to nearest, ties to even.
Overflow is not modelled; it is used for the quotient
`readNumber()/255.0` of a `double`, which does not overflow. -/
def roundF64 (x : ℚ) : ℚ :=
  if x = 0 then 0
  else (roundHalfEven (x / (2 : ℚ) ^ (binade64 x - 52)) : ℚ) * (2 : ℚ) ^ (binade64 x - 52)

/-- The method `ElevationColorMap::updateColorCycle(float animationTime)` in
binary32 arithmetic, for a finite `animationTime` and a finite
`colorCycleSpeed`. Every result held in a `float` is rounded: the product and
the difference assigned to `colorCyclePhase`, the conversion
`float(numEntries)` and the product converted by `int(...)`; `Math::floor` of
a `float` is exact. The result `none` stands for undefined behaviour: when
the product `animationTime*colorCycleSpeed` overflows it is an infinity,
`Math::floor` returns the same infinity, their difference is NaN, so is its
product with `float(numEntries)`, and the conversion `int(NaN)` is undefined.
The difference lies in `[0,1]` and `numEntries` is an `int`, so no later
result overflows. -/
def ElevationColorMap.updateColorCycleF32 (m : ElevationColorMap)
    (animationTime : ℚ) : Option ElevationColorMap :=
  match m.originalColors with
  | none => some m
  | some originalColors =>
    if !m.colorCyclingEnabled then some m
    else
      -- Update the phase based on animation time and speed
      match F32.ofRat (animationTime * m.colorCycleSpeed) with
      | F32.infinity _ => none
      | F32.finite product =>
        let colorCyclePhase := roundF32 (product - ((⌊product⌋ : Int) : ℚ))
        -- Calculate the shift amount in color entries
        let numEntries := m.getNumEntries
        let shiftAmount : Int :=
          truncToInt (roundF32 (colorCyclePhase * roundF32 (numEntries : ℚ)))
        -- Update the color map with cycled colors
        let colors :=
          forLoop numEntries
            (fun i colorData =>
              forLoop 4
                (fun j colorData =>
                  colorDataWrite colorData (i * 4 + j)
                    (arrayRead originalColors
                      (srcIndex i shiftAmount numEntries * 4 + (j : Int))))
                colorData)
            m.entries
        -- Invalidate the texture to force re-upload
        some
          { m with
            colorCyclePhase := colorCyclePhase
            entries := colors
            textureVersion := m.textureVersion + 1 }

/-- The phase `updateColorCycle` stores in binary32 arithmetic when the
product `animationTime*colorCycleSpeed` does not overflow: the rounded
product minus its floor, rounded. -/
def cyclePhaseF32 (animationTime speed : ℚ) : ℚ :=
  roundF32 (roundF32 (animationTime * speed)
    - ((⌊roundF32 (animationTime * speed)⌋ : Int) : ℚ))

/-- The shift `int(colorCyclePhase*float(numEntries))` that
`updateColorCycle` computes from the stored phase, in binary32 arithmetic. -/
def shiftF32 (colorCyclePhase : ℚ) (numEntries : Nat) : Int :=
  truncToInt (roundF32 (colorCyclePhase * roundF32 (numEntries : ℚ)))

/-- One entry `GLColorMap::Color` as `load` stores it: four `GLfloat`
channels. -/
structure Color32 where
  r : F32
  g : F32
  b : F32
  a : F32
deriving DecidableEq, Repr

/-- The loop `while(!heightMapSource.eof())` of the `.cpt` branch of `load`
with the conversions of the source: the number a token carries is the
`double` that `readNumber` returns, the key is stored as that `GLdouble`,
and a colour component is the quotient `readNumber()/255.0`, rounded as a
`double`, converted to `Color::Scalar`, a `GLfloat`. `fuel` bounds the number
of iterations. -/
def cptLoopF32 (fullHeightMapName : String) :
    Nat → ValueSource → Nat → List ℚ → List Color32 →
      Except LoadError (List ℚ × List Color32)
  | 0, _, _, heightMapKeys, heightMapColors => Except.ok (heightMapKeys, heightMapColors)
  | fuel + 1, src, line, heightMapKeys, heightMapColors =>
    if src.eof then Except.ok (heightMapKeys, heightMapColors)
    else do
      -- Read the next color map key value
      let (key, src) ← src.readNumber
      let heightMapKeys := heightMapKeys ++ [key]
      -- Read the next color map color value
      let (c0, src) ← src.readNumber
      let (c1, src) ← src.readNumber
      let (c2, src) ← src.readNumber
      let color : Color32 :=
        ⟨F32.ofRat (roundF64 (c0 / 255)), F32.ofRat (roundF64 (c1 / 255)),
          F32.ofRat (roundF64 (c2 / 255)), F32.ofRat 1⟩
      let heightMapColors := heightMapColors ++ [color]
      let (isNewline, src) := src.isLiteral '\n'
      if !isNewline then
        throw (LoadError.formatError line fullHeightMapName)
      else
        cptLoopF32 fullHeightMapName fuel src (line + 1) heightMapKeys heightMapColors

/-- The loop `while(!heightMapSource.eof())` of the default branch of `load`
with the conversions of the source: a colour component is the `double` that
`readNumber` returns, converted to `Color::Scalar`, a `GLfloat`. `fuel` bounds
the number of iterations. -/
def defaultLoopF32 (fullHeightMapName : String) :
    Nat → ValueSource → Nat → List ℚ → List Color32 →
      Except LoadError (List ℚ × List Color32)
  | 0, _, _, heightMapKeys, heightMapColors => Except.ok (heightMapKeys, heightMapColors)
  | fuel + 1, src, line, heightMapKeys, heightMapColors =>
    if src.eof then Except.ok (heightMapKeys, heightMapColors)
    else do
      -- Read the next color map key value
      let (key, src) ← src.readNumber
      let heightMapKeys := heightMapKeys ++ [key]
      let (isComma, src) := src.isLiteral ','
      if !isComma then
        throw (LoadError.formatError line fullHeightMapName)
      else do
        -- Read the next color map color value
        let (c0, src) ← src.readNumber
        let (c1, src) ← src.readNumber
        let (c2, src) ← src.readNumber
        let color : Color32 := ⟨F32.ofRat c0, F32.ofRat c1, F32.ofRat c2, F32.ofRat 1⟩
        let heightMapColors := heightMapColors ++ [color]
        let (isNewline, src) := src.isLiteral '\n'
        if !isNewline then
          throw (LoadError.formatError line fullHeightMapName)
        else
          defaultLoopF32 fullHeightMapName fuel src (line + 1) heightMapKeys heightMapColors

/-- The `.cpt` branch of `load` on an opened source, with the conversions of
the source: the loop from line 1 with empty key and colour vectors. -/
def parseCptF32 (fullHeightMapName : String) (src : ValueSource) :
    Except LoadError (List ℚ × List Color32) :=
  cptLoopF32 fullHeightMapName (src.items.length + 1) src 1 [] []

/-- The default branch of `load` on an opened source, with the conversions of
the source. -/
def parseDefaultF32 (fullHeightMapName : String) (src : ValueSource) :
    Except LoadError (List ℚ × List Color32) :=
  defaultLoopF32 fullHeightMapName (src.items.length + 1) src 1 [] []

/-- The colour `load` stores for a `.cpt` record: each component divided by
255 in `double` arithmetic and converted to `GLfloat`, alpha 1. -/
def Record.cptColorF32 (rec : Record) : Color32 :=
  ⟨F32.ofRat (roundF64 (rec.r / 255)), F32.ofRat (roundF64 (rec.g / 255)),
    F32.ofRat (roundF64 (rec.b / 255)), F32.finite 1⟩

/-- The colour `load` stores for a record of the default format: each
component converted to `GLfloat`, alpha 1. -/
def Record.defaultColorF32 (rec : Record) : Color32 :=
  ⟨F32.ofRat rec.r, F32.ofRat rec.g, F32.ofRat rec.b, F32.finite 1⟩

/-- A sample object with eleven entries, entry `i` being the colour
`(i/16, 0, 0, 1)`, cycling off, no backup. -/
def sampleRamp11 : ElevationColorMap :=
  { sampleMap with
    entries := (List.range 11).map (fun i => ⟨(i : ℚ) / 16, 0, 0, 1⟩) }

/-- The object `sampleRamp11` after `setColorCycling(true, 1)`. -/
def sampleCycling11 : ElevationColorMap :=
  sampleRamp11.setColorCycling true 1

/-- The sample object with 256 entries after `setColorCycling(true, 2)`. -/
def sampleEnabled256 : ElevationColorMap :=
  sampleRamp256.setColorCycling true 2

/-! ## Loops and raw buffers -/

theorem forLoop_zero {σ : Type} (body : Nat → σ → σ) (s : σ) : forLoop 0 body s = s := rfl

theorem forLoop_succ {σ : Type} (n : Nat) (body : Nat → σ → σ) (s : σ) :
    forLoop (n + 1) body s = body n (forLoop n body s) := by
  simp [forLoop, List.range_succ, List.foldl_append]

theorem Color.get_set (c : Color) (j j2 : Nat) (v : ℚ) (hj : j < 4) (hj2 : j2 < 4) :
    (c.set j v).get j2 = if j2 = j then v else c.get j2 := by
  interval_cases j <;> interval_cases j2 <;> simp [Color.set, Color.get]

theorem Color.ext_get (c d : Color) (h : ∀ j, j < 4 → c.get j = d.get j) : c = d := by
  have h0 := h 0 (by omega)
  have h1 := h 1 (by omega)
  have h2 := h 2 (by omega)
  have h3 := h 3 (by omega)
  cases c; cases d
  simp [Color.get] at h0 h1 h2 h3
  simp [h0, h1, h2, h3]

theorem length_colorDataWrite (cs : List Color) (k : Nat) (v : ℚ) :
    (colorDataWrite cs k v).length = cs.length := by
  simp [colorDataWrite]

theorem colorDataRead_write (cs : List Color) (k k2 : Nat) (v : ℚ) (hk : k < cs.length * 4) :
    colorDataRead (colorDataWrite cs k v) k2 = if k2 = k then v else colorDataRead cs k2 := by
  have hk4 : k / 4 < cs.length := by omega
  unfold colorDataRead colorDataWrite
  by_cases he : k2 / 4 = k / 4
  · rw [he]
    have : (cs.set (k / 4) ((cs.getD (k / 4) default).set (k % 4) v)).getD (k / 4) default
        = (cs.getD (k / 4) default).set (k % 4) v := by
      simp [List.getD_eq_getElem?_getD, List.getElem?_set, hk4]
    rw [this, Color.get_set _ _ _ _ (Nat.mod_lt _ (by omega)) (Nat.mod_lt _ (by omega))]
    by_cases hm : k2 % 4 = k % 4
    · have : k2 = k := by omega
      simp [this]
    · have : k2 ≠ k := by intro h; exact hm (by rw [h])
      simp [hm, this, he]
  · have hne : k2 ≠ k := by intro h; exact he (by rw [h])
    have : (cs.set (k / 4) ((cs.getD (k / 4) default).set (k % 4) v)).getD (k2 / 4) default
        = cs.getD (k2 / 4) default := by
      simp [List.getD_eq_getElem?_getD, List.getElem?_set, Ne.symm he]
    rw [this]; simp [hne]

theorem colorData_ext (cs ds : List Color) (hlen : cs.length = ds.length)
    (h : ∀ k, k < cs.length * 4 → colorDataRead cs k = colorDataRead ds k) : cs = ds := by
  apply List.ext_getElem hlen
  intro i h1 h2
  apply Color.ext_get
  intro j hj
  have := h (i * 4 + j) (by omega)
  unfold colorDataRead at this
  have e1 : (i * 4 + j) / 4 = i := by omega
  have e2 : (i * 4 + j) % 4 = j := by omega
  rw [e1, e2] at this
  simpa [List.getD_eq_getElem?_getD, h1, h2] using this

theorem writeLoop_spec (f : Nat → ℚ) (cs : List Color) (n : Nat) (hn : n ≤ cs.length * 4) :
    (forLoop n (fun i colorData => colorDataWrite colorData i (f i)) cs).length = cs.length ∧
    ∀ k, colorDataRead (forLoop n (fun i colorData => colorDataWrite colorData i (f i)) cs) k
      = if k < n then f k else colorDataRead cs k := by
  induction n with
  | zero => simp [forLoop_zero]
  | succ n ih =>
    obtain ⟨hl, hr⟩ := ih (by omega)
    rw [forLoop_succ]
    refine ⟨by rw [length_colorDataWrite, hl], ?_⟩
    intro k
    rw [colorDataRead_write _ _ _ _ (by rw [hl]; omega), hr]
    by_cases hk : k = n
    · simp [hk]
    · by_cases hk2 : k < n
      · have : k < n + 1 := by omega
        simp [hk, hk2, this]
      · have : ¬ k < n + 1 := by omega
        simp [hk, hk2, this]

theorem copyLoop_spec (f : Nat → ℚ) (N n : Nat) (hn : n ≤ N) :
    (forLoop n (fun i (buf : List ℚ) => buf.set i (f i)) (List.replicate N 0)).length = N ∧
    ∀ k, (forLoop n (fun i (buf : List ℚ) => buf.set i (f i)) (List.replicate N 0))[k]?
      = if k < n then some (f k) else if k < N then some 0 else none := by
  induction n with
  | zero =>
    refine ⟨by simp [forLoop_zero], ?_⟩
    intro k
    by_cases hk : k < N <;> simp [forLoop_zero, List.getElem?_replicate, hk]
  | succ n ih =>
    obtain ⟨hl, hr⟩ := ih (by omega)
    rw [forLoop_succ]
    refine ⟨by rw [List.length_set, hl], ?_⟩
    intro k
    rw [List.getElem?_set, hr]
    by_cases hk : n = k
    · subst hk
      have : n < N := by omega
      simp [hl, this]
    · by_cases hk2 : k < n
      · have : k < n + 1 := by omega
        simp [hk, hk2, this]
      · have : ¬ k < n + 1 := by omega
        simp [hk, hk2, this]

theorem copyLoop_eq (cs : List Color) :
    forLoop (cs.length * 4) (fun i (buf : List ℚ) => buf.set i (colorDataRead cs i))
      (List.replicate (cs.length * 4) 0) = colorDataList cs := by
  obtain ⟨hl, hr⟩ := copyLoop_spec (colorDataRead cs) (cs.length * 4) (cs.length * 4) le_rfl
  apply List.ext_getElem?
  intro k
  rw [hr]
  unfold colorDataList
  by_cases hk : k < cs.length * 4
  · simp [hk, List.getElem?_map, List.getElem?_range]
  · have hk2 : cs.length * 4 ≤ k := by omega
    have hnone : (List.range (cs.length * 4))[k]? = none :=
      List.getElem?_eq_none (by simpa using hk2)
    simp [hk, List.getElem?_map, hnone]

theorem length_colorDataList (cs : List Color) : (colorDataList cs).length = cs.length * 4 := by
  simp [colorDataList]

theorem colorDataList_getD (cs : List Color) (k : Nat) (hk : k < cs.length * 4) :
    (colorDataList cs).getD k 0 = colorDataRead cs k := by
  simp [colorDataList, List.getD_eq_getElem?_getD, List.getElem?_map, List.getElem?_range, hk]

theorem restoreLoop_eq (cs ds : List Color) (hlen : cs.length = ds.length) :
    forLoop (cs.length * 4)
      (fun i colorData => colorDataWrite colorData i ((colorDataList ds).getD i 0)) cs = ds := by
  obtain ⟨hl, hr⟩ := writeLoop_spec (fun i => (colorDataList ds).getD i 0) cs (cs.length * 4) le_rfl
  apply colorData_ext _ _ (by rw [hl, hlen])
  intro k hk
  rw [hl] at hk
  rw [hr]
  simp only [hk, if_true]
  exact colorDataList_getD ds k (by omega)

theorem cycleLoop_spec (g : Nat → Nat → ℚ) (cs : List Color) (n : Nat) (hn : n ≤ cs.length) :
    (forLoop n (fun i colorData =>
        forLoop 4 (fun j colorData => colorDataWrite colorData (i * 4 + j) (g i j)) colorData)
      cs).length = cs.length ∧
    ∀ k, colorDataRead (forLoop n (fun i colorData =>
        forLoop 4 (fun j colorData => colorDataWrite colorData (i * 4 + j) (g i j)) colorData)
      cs) k = if k < n * 4 then g (k / 4) (k % 4) else colorDataRead cs k := by
  induction n with
  | zero => simp [forLoop_zero]
  | succ n ih =>
    obtain ⟨hl, hr⟩ := ih (by omega)
    rw [forLoop_succ]
    generalize forLoop n (fun i colorData =>
        forLoop 4 (fun j colorData => colorDataWrite colorData (i * 4 + j) (g i j)) colorData)
      cs = prev at hl hr
    have h4 : forLoop 4 (fun j colorData => colorDataWrite colorData (n * 4 + j) (g n j)) prev
        = colorDataWrite (colorDataWrite (colorDataWrite (colorDataWrite prev (n * 4 + 0) (g n 0))
            (n * 4 + 1) (g n 1)) (n * 4 + 2) (g n 2)) (n * 4 + 3) (g n 3) := by
      simp [forLoop, List.range_succ]
    rw [h4]
    refine ⟨by simp [length_colorDataWrite, hl], ?_⟩
    intro k
    rw [colorDataRead_write _ _ _ _ (by simp only [length_colorDataWrite, hl]; omega),
      colorDataRead_write _ _ _ _ (by simp only [length_colorDataWrite, hl]; omega),
      colorDataRead_write _ _ _ _ (by simp only [length_colorDataWrite, hl]; omega),
      colorDataRead_write _ _ _ _ (by simp only [hl]; omega), hr]
    by_cases h3 : k = n * 4 + 3
    · subst h3
      have e1 : (n * 4 + 3) / 4 = n := by omega
      have e2 : (n * 4 + 3) % 4 = 3 := by omega
      have e3 : n * 4 + 3 < (n + 1) * 4 := by omega
      simp [e1, e2, e3]
    by_cases h2 : k = n * 4 + 2
    · subst h2
      have e1 : (n * 4 + 2) / 4 = n := by omega
      have e2 : (n * 4 + 2) % 4 = 2 := by omega
      have e3 : n * 4 + 2 < (n + 1) * 4 := by omega
      simp [e1, e2, e3]
    by_cases h1 : k = n * 4 + 1
    · subst h1
      have e1 : (n * 4 + 1) / 4 = n := by omega
      have e2 : (n * 4 + 1) % 4 = 1 := by omega
      have e3 : n * 4 + 1 < (n + 1) * 4 := by omega
      simp [e1, e2, e3]
    by_cases h0 : k = n * 4
    · subst h0
      have e1 : (n * 4) / 4 = n := by omega
      have e2 : (n * 4) % 4 = 0 := by omega
      have e3 : n * 4 < (n + 1) * 4 := by omega
      simp [e1, e2, e3]
    by_cases hk : k < n * 4
    · have : k < (n + 1) * 4 := by omega
      simp [h3, h2, h1, h0, hk, this]
    · have : ¬ k < (n + 1) * 4 := by omega
      simp [h3, h2, h1, h0, hk, this]

/-! ## The cycling state machine -/

theorem setColorCycling_enable_idle_none (m : ElevationColorMap) (speed : ℚ)
    (hc : m.colorCyclingEnabled = false) (ho : m.originalColors = none) :
    m.setColorCycling true speed =
      { m with
        originalColors := some (colorDataList m.entries)
        colorCyclingEnabled := true
        colorCycleSpeed := speed
        colorCyclePhase := 0 } := by
  unfold ElevationColorMap.setColorCycling
  simp [hc, ho, ElevationColorMap.getNumEntries, copyLoop_eq]

theorem setColorCycling_enable_some (m : ElevationColorMap) (speed : ℚ) (backup : List ℚ)
    (ho : m.originalColors = some backup) :
    m.setColorCycling true speed =
      { m with
        colorCyclingEnabled := true
        colorCycleSpeed := speed
        colorCyclePhase := 0 } := by
  unfold ElevationColorMap.setColorCycling
  cases hc : m.colorCyclingEnabled <;> simp [hc, ho]

theorem setColorCycling_enable_cycling (m : ElevationColorMap) (speed : ℚ)
    (hc : m.colorCyclingEnabled = true) :
    m.setColorCycling true speed =
      { m with
        colorCyclingEnabled := true
        colorCycleSpeed := speed
        colorCyclePhase := 0 } := by
  unfold ElevationColorMap.setColorCycling
  simp [hc]

theorem setColorCycling_disable_cycling_some (m : ElevationColorMap) (speed : ℚ)
    (backup : List ℚ) (hc : m.colorCyclingEnabled = true) (ho : m.originalColors = some backup) :
    m.setColorCycling false speed =
      { m with
        entries :=
          forLoop (m.getNumEntries * 4)
            (fun i colorData => colorDataWrite colorData i (backup.getD i 0)) m.entries
        textureVersion := m.textureVersion + 1
        colorCyclingEnabled := false
        colorCycleSpeed := speed } := by
  unfold ElevationColorMap.setColorCycling
  simp [hc, ho]

theorem setColorCycling_disable_none (m : ElevationColorMap) (speed : ℚ)
    (ho : m.originalColors = none) :
    m.setColorCycling false speed =
      { m with colorCyclingEnabled := false, colorCycleSpeed := speed } := by
  unfold ElevationColorMap.setColorCycling
  cases hc : m.colorCyclingEnabled <;> simp [hc, ho]

theorem setColorCycling_disable_idle (m : ElevationColorMap) (speed : ℚ)
    (hc : m.colorCyclingEnabled = false) :
    m.setColorCycling false speed =
      { m with colorCyclingEnabled := false, colorCycleSpeed := speed } := by
  unfold ElevationColorMap.setColorCycling
  simp [hc]

theorem updateColorCycle_idle (m : ElevationColorMap) (t : ℚ)
    (h : m.colorCyclingEnabled = false ∨ m.originalColors = none) :
    m.updateColorCycle t = m := by
  unfold ElevationColorMap.updateColorCycle
  rcases h with h | h
  · cases ho : m.originalColors <;> simp [h]
  · simp [h]

theorem updateColorCycle_cycling (m : ElevationColorMap) (t : ℚ) (backup : List ℚ)
    (hc : m.colorCyclingEnabled = true) (ho : m.originalColors = some backup) :
    m.updateColorCycle t =
      { m with
        colorCyclePhase := cyclePhase t m.colorCycleSpeed
        entries :=
          forLoop m.getNumEntries
            (fun i colorData =>
              forLoop 4
                (fun j colorData =>
                  colorDataWrite colorData (i * 4 + j)
                    (arrayRead backup
                      (srcIndex i
                        (truncToInt (cyclePhase t m.colorCycleSpeed * (m.getNumEntries : ℚ)))
                        m.getNumEntries * 4 + (j : Int))))
                colorData)
            m.entries
        textureVersion := m.textureVersion + 1 } := by
  unfold ElevationColorMap.updateColorCycle
  simp [hc, ho]

theorem updateColorCycle_frame (m : ElevationColorMap) (t : ℚ) :
    (m.updateColorCycle t).originalColors = m.originalColors ∧
    (m.updateColorCycle t).colorCyclingEnabled = m.colorCyclingEnabled ∧
    (m.updateColorCycle t).colorCycleSpeed = m.colorCycleSpeed ∧
    (m.updateColorCycle t).entries.length = m.entries.length := by
  cases hc : m.colorCyclingEnabled
  · simp [updateColorCycle_idle m t (Or.inl hc), hc]
  · cases ho : m.originalColors with
    | none => simp [updateColorCycle_idle m t (Or.inr ho), hc, ho]
    | some backup =>
      rw [updateColorCycle_cycling m t backup hc ho]
      refine ⟨ho, hc, rfl, ?_⟩
      exact (cycleLoop_spec _ m.entries m.getNumEntries le_rfl).1

theorem cycleInv_setColorCycling (m : ElevationColorMap) (enabled : Bool) (speed : ℚ)
    (h : CycleInv m) : CycleInv (m.setColorCycling enabled speed) := by
  unfold CycleInv at h
  cases ho : m.originalColors with
  | none =>
    rw [ho] at h
    cases enabled
    · rw [setColorCycling_disable_none m speed ho]
      simp [CycleInv, ho]
    · rw [setColorCycling_enable_idle_none m speed h ho]
      simp [CycleInv, ElevationColorMap.getNumEntries, length_colorDataList]
  | some backup =>
    rw [ho] at h
    obtain ⟨hlen, heq⟩ := h
    cases enabled
    · cases hc : m.colorCyclingEnabled
      · rw [setColorCycling_disable_idle m speed hc]
        simp only [CycleInv, ho]
        exact ⟨hlen, fun _ => heq hc⟩
      · rw [setColorCycling_disable_cycling_some m speed backup hc ho]
        simp only [CycleInv, ho]
        have hw := writeLoop_spec (fun i => backup.getD i 0) m.entries (m.getNumEntries * 4) le_rfl
        refine ⟨?_, fun _ => ?_⟩
        · show backup.length = (forLoop (m.getNumEntries * 4)
              (fun i colorData => colorDataWrite colorData i (backup.getD i 0)) m.entries).length * 4
          rw [hw.1]
          exact hlen
        · apply List.ext_getElem
          · rw [length_colorDataList, hw.1]; exact hlen
          · intro k h1 h2
            have hk : k < m.getNumEntries * 4 := by omega
            have := hw.2 k
            simp only [hk, if_true] at this
            simp only [colorDataList, List.getElem_map, List.getElem_range]
            rw [this, List.getD_eq_getElem?_getD, List.getElem?_eq_getElem h1]
            rfl
    · rw [setColorCycling_enable_some m speed backup ho]
      simp only [CycleInv, ho]
      exact ⟨hlen, fun hf => by simp at hf⟩

theorem cycleInv_updateColorCycle (m : ElevationColorMap) (t : ℚ) (h : CycleInv m) :
    CycleInv (m.updateColorCycle t) := by
  cases hc : m.colorCyclingEnabled
  · rw [updateColorCycle_idle m t (Or.inl hc)]; exact h
  · cases ho : m.originalColors with
    | none => rw [updateColorCycle_idle m t (Or.inr ho)]; exact h
    | some backup =>
      obtain ⟨h1, h2, _, h4⟩ := updateColorCycle_frame m t
      unfold CycleInv at h ⊢
      rw [h1, ho]
      rw [ho] at h
      refine ⟨?_, fun hf => ?_⟩
      · simp only [ElevationColorMap.getNumEntries, h4]; exact h.1
      · rw [h2, hc] at hf; simp at hf

theorem load_fails (m : ElevationColorMap) (env : Env) (name : String) (e : LoadError)
    (h : (m.load env name).2 = some e) :
    (m.load env name).1 = { m with originalColors := none, colorCyclingEnabled := false } := by
  unfold ElevationColorMap.load at h ⊢
  cases hf : env.openFile (fullName env name) with
  | none => simp [hf]
  | some text =>
    simp only [hf] at h ⊢
    split at h
    · rfl
    · simp at h

theorem load_succeeds (m : ElevationColorMap) (env : Env) (name : String)
    (h : (m.load env name).2 = none) :
    ∃ keys colors,
      (m.load env name).1 =
        (if m.colorCyclingEnabled then
          ElevationColorMap.setColorCycling
            { m with
              originalColors := none
              colorCyclingEnabled := false
              toGLColorMap := env.setColors keys.length colors keys 256
              textureVersion := m.textureVersion + 1 } true m.colorCycleSpeed
        else
          { m with
            originalColors := none
            colorCyclingEnabled := false
            toGLColorMap := env.setColors keys.length colors keys 256
            textureVersion := m.textureVersion + 1 }) := by
  unfold ElevationColorMap.load at h ⊢
  cases hf : env.openFile (fullName env name) with
  | none => simp [hf] at h
  | some text =>
    simp only [hf] at h ⊢
    split at h
    · simp at h
    · rename_i keys colors hp
      refine ⟨keys, colors, ?_⟩
      cases m.colorCyclingEnabled <;> rfl

theorem cycleInv_load (m : ElevationColorMap) (env : Env) (name : String) :
    CycleInv (m.load env name).1 := by
  cases hr : (m.load env name).2 with
  | some e =>
    rw [load_fails m env name e hr]
    simp [CycleInv]
  | none =>
    obtain ⟨keys, colors, h⟩ := load_succeeds m env name hr
    rw [h]
    cases hc : m.colorCyclingEnabled
    · simp [CycleInv]
    · simp only [if_true]
      apply cycleInv_setColorCycling
      simp [CycleInv]

theorem cycleInv_of_reachable (m : ElevationColorMap) (h : Reachable m) : CycleInv m := by
  induction h with
  | construct colorMap textureObject texturePlaneEq env name m h =>
    unfold ElevationColorMap.construct at h
    simp only at h
    split at h
    · rename_i m2 hl
      have := cycleInv_load
        { toGLColorMap := colorMap, toGLTextureObject := textureObject,
          texturePlaneEq := texturePlaneEq, colorCyclingEnabled := false, colorCycleSpeed := 1,
          colorCyclePhase := 0, originalColors := none } env name
      rw [hl] at this
      simp at h
      rw [← h]; exact this
    · simp at h
  | load m env name _ ih => exact cycleInv_load m env name
  | setColorCycling m enabled speed _ ih => exact cycleInv_setColorCycling m enabled speed ih
  | updateColorCycle m t _ ih => exact cycleInv_updateColorCycle m t ih

theorem setColorCycling_disable_restores (m : ElevationColorMap) (speed : ℚ) (ds : List Color)
    (hc : m.colorCyclingEnabled = true) (ho : m.originalColors = some (colorDataList ds))
    (hlen : m.entries.length = ds.length) :
    (m.setColorCycling false speed).entries = ds := by
  rw [setColorCycling_disable_cycling_some m speed _ hc ho]
  exact restoreLoop_eq m.entries ds hlen

theorem enable_from_idle (m : ElevationColorMap) (speed : ℚ) (hinv : CycleInv m)
    (hc : m.colorCyclingEnabled = false) :
    (m.setColorCycling true speed).colorCyclingEnabled = true ∧
    (m.setColorCycling true speed).originalColors = some (colorDataList m.entries) ∧
    (m.setColorCycling true speed).entries = m.entries := by
  unfold CycleInv at hinv
  cases ho : m.originalColors with
  | none =>
    rw [setColorCycling_enable_idle_none m speed hc ho]
    exact ⟨rfl, rfl, rfl⟩
  | some backup =>
    rw [ho] at hinv
    rw [setColorCycling_enable_some m speed backup ho]
    exact ⟨rfl, by rw [← hinv.2 hc]; exact ho, rfl⟩

/-- C1: in every reachable state with cycling off (with or without a backup
left by an earlier session), enabling cycling at any speed, updating at any
two animation times and disabling again gives back exactly the live colour
buffer that was there before the enable call. -/
theorem C1_cycle_session_restores_colors (m : ElevationColorMap) (hreach : Reachable m)
    (hidle : m.colorCyclingEnabled = false) (s t1 t2 s2 : ℚ) :
    ((((m.setColorCycling true s).updateColorCycle t1).updateColorCycle t2).setColorCycling
        false s2).entries = m.entries := by
  obtain ⟨he, ho, hen⟩ := enable_from_idle m s (cycleInv_of_reachable m hreach) hidle
  obtain ⟨ho1, he1, _, hl1⟩ := updateColorCycle_frame (m.setColorCycling true s) t1
  obtain ⟨ho2, he2, _, hl2⟩ :=
    updateColorCycle_frame ((m.setColorCycling true s).updateColorCycle t1) t2
  apply setColorCycling_disable_restores
  · rw [he2, he1, he]
  · rw [ho2, ho1, ho]
  · rw [hl2, hl1, hen]

theorem sample_construct :
    ElevationColorMap.construct ⟨[], 0, 0⟩ ⟨0⟩ [] (sampleEnv "0 255 0 0\n1 0 255 0\n2 0 0 255\n")
      "heightmap.cpt" = some { sampleMap with scalarRangeMax := 1, texturePlaneEq := [] } := by
  decide!

/-- The state built by the constructor from a three line `.cpt` file is
reachable and idle, and a session with speed 2 and times 1/5 and 7/3 restores
its colours. -/
theorem C1_cycle_session_restores_colors_witness :
    ((((({ sampleMap with scalarRangeMax := 1, texturePlaneEq := [] } :
          ElevationColorMap).setColorCycling true 2).updateColorCycle (1 / 5)).updateColorCycle
          (7 / 3)).setColorCycling false 1).entries
      = [⟨1, 0, 0, 1⟩, ⟨0, 1, 0, 1⟩, ⟨0, 0, 1, 1⟩] :=
  C1_cycle_session_restores_colors _
    (Reachable.construct _ _ _ _ _ _ sample_construct) rfl 2 (1 / 5) (7 / 3) 1

/-! ## Phase and shift -/

theorem cyclePhase_eq_fract (t s : ℚ) : cyclePhase t s = Int.fract (t * s) := rfl

theorem cyclePhase_nonneg (t s : ℚ) : 0 ≤ cyclePhase t s := by
  rw [cyclePhase_eq_fract]; exact Int.fract_nonneg _

theorem cyclePhase_lt_one (t s : ℚ) : cyclePhase t s < 1 := by
  rw [cyclePhase_eq_fract]; exact Int.fract_lt_one _

theorem shift_eq_floor (t s : ℚ) (N : Nat) :
    truncToInt (cyclePhase t s * (N : ℚ)) = ⌊cyclePhase t s * (N : ℚ)⌋ := by
  unfold truncToInt
  have : 0 ≤ cyclePhase t s * (N : ℚ) := mul_nonneg (cyclePhase_nonneg t s) (by positivity)
  simp [this]

theorem shift_nonneg (t s : ℚ) (N : Nat) : 0 ≤ ⌊cyclePhase t s * (N : ℚ)⌋ := by
  apply Int.floor_nonneg.mpr
  exact mul_nonneg (cyclePhase_nonneg t s) (by positivity)

theorem shift_lt (t s : ℚ) (N : Nat) (hN : 1 ≤ N) : ⌊cyclePhase t s * (N : ℚ)⌋ < (N : Int) := by
  apply Int.floor_lt.mpr
  have hpos : (0 : ℚ) < (N : ℚ) := by exact_mod_cast hN
  have := mul_lt_mul_of_pos_right (cyclePhase_lt_one t s) hpos
  simpa using this

theorem srcIndex_eq_emod (i : Nat) (shift : Int) (N : Nat) (hs : 0 ≤ shift) :
    srcIndex i shift N = ((i : Int) + shift) % (N : Int) := by
  unfold srcIndex
  exact Int.tmod_eq_emod (by omega) (by omega)

theorem arrayRead_in_range (buf : List ℚ) (k : Nat) (j : Nat) (h : k * 4 + j < buf.length) :
    buf[k * 4 + j]? = some (arrayRead buf ((k : Int) * 4 + (j : Int))) := by
  unfold arrayRead
  have h0 : (0 : Int) ≤ (k : Int) * 4 + (j : Int) := by omega
  have h1 : ((k : Int) * 4 + (j : Int)).toNat = k * 4 + j := by omega
  simp [h0, h1, List.getD_eq_getElem?_getD, List.getElem?_eq_getElem h]

/-! ## The version counter and the texture cache -/

theorem version_setColorCycling_enable (m : ElevationColorMap) (speed : ℚ) :
    (m.setColorCycling true speed).textureVersion = m.textureVersion := by
  cases hc : m.colorCyclingEnabled
  · cases ho : m.originalColors with
    | none => rw [setColorCycling_enable_idle_none m speed hc ho]
    | some backup => rw [setColorCycling_enable_some m speed backup ho]
  · rw [setColorCycling_enable_cycling m speed hc]

theorem version_setColorCycling_disable_restore (m : ElevationColorMap) (speed : ℚ)
    (hc : m.colorCyclingEnabled = true) (ho : m.originalColors ≠ none) :
    (m.setColorCycling false speed).textureVersion = m.textureVersion + 1 := by
  cases hb : m.originalColors with
  | none => exact absurd hb ho
  | some backup => rw [setColorCycling_disable_cycling_some m speed backup hc hb]

theorem setColorCycling_disable_noRestore (m : ElevationColorMap) (speed : ℚ)
    (h : m.colorCyclingEnabled = false ∨ m.originalColors = none) :
    m.setColorCycling false speed =
      { m with colorCyclingEnabled := false, colorCycleSpeed := speed } := by
  rcases h with h | h
  · exact setColorCycling_disable_idle m speed h
  · exact setColorCycling_disable_none m speed h

theorem version_updateColorCycle_cycling (m : ElevationColorMap) (t : ℚ)
    (hc : m.colorCyclingEnabled = true) (ho : m.originalColors ≠ none) :
    (m.updateColorCycle t).textureVersion = m.textureVersion + 1 := by
  cases hb : m.originalColors with
  | none => exact absurd hb ho
  | some backup => rw [updateColorCycle_cycling m t backup hc hb]

theorem version_load_ok (m : ElevationColorMap) (env : Env) (name : String)
    (h : (m.load env name).2 = none) :
    (m.load env name).1.textureVersion = m.textureVersion + 1 := by
  obtain ⟨keys, colors, hl⟩ := load_succeeds m env name h
  rw [hl]
  cases m.colorCyclingEnabled
  · rfl
  · simp only [if_true]
    rw [version_setColorCycling_enable]

theorem version_load_error (m : ElevationColorMap) (env : Env) (name : String) (e : LoadError)
    (h : (m.load env name).2 = some e) :
    (m.load env name).1.textureVersion = m.textureVersion := by
  rw [load_fails m env name e h]

theorem version_le_setColorCycling (m : ElevationColorMap) (enabled : Bool) (speed : ℚ) :
    m.textureVersion ≤ (m.setColorCycling enabled speed).textureVersion := by
  cases enabled
  · by_cases h : m.colorCyclingEnabled = true ∧ m.originalColors ≠ none
    · rw [version_setColorCycling_disable_restore m speed h.1 h.2]; omega
    · rw [setColorCycling_disable_noRestore m speed]
      by_cases hc : m.colorCyclingEnabled = true
      · right
        by_contra ho
        exact h ⟨hc, ho⟩
      · left
        simpa using hc
  · rw [version_setColorCycling_enable]

theorem version_le_updateColorCycle (m : ElevationColorMap) (t : ℚ) :
    m.textureVersion ≤ (m.updateColorCycle t).textureVersion := by
  by_cases h : m.colorCyclingEnabled = true ∧ m.originalColors ≠ none
  · rw [version_updateColorCycle_cycling m t h.1 h.2]; omega
  · rw [updateColorCycle_idle m t]
    by_cases hc : m.colorCyclingEnabled = true
    · right
      by_contra ho
      exact h ⟨hc, ho⟩
    · left
      simpa using hc

theorem version_le_load (m : ElevationColorMap) (env : Env) (name : String) :
    m.textureVersion ≤ (m.load env name).1.textureVersion := by
  cases h : (m.load env name).2 with
  | none => rw [version_load_ok m env name h]; omega
  | some e => rw [version_load_error m env name e h]

theorem bindTexture_stale (m : ElevationColorMap) (d : DataItem)
    (h : d.textureObjectVersion ≠ m.textureVersion) :
    m.bindTexture d =
      { d with
        texImage := m.entries
        numUploads := d.numUploads + 1
        textureObjectVersion := m.textureVersion } := by
  unfold ElevationColorMap.bindTexture
  simp [h]

theorem bindTexture_current (m : ElevationColorMap) (d : DataItem)
    (h : d.textureObjectVersion = m.textureVersion) : m.bindTexture d = d := by
  unfold ElevationColorMap.bindTexture
  simp [h]

theorem bindTexture_stamp (m : ElevationColorMap) (d : DataItem) :
    (m.bindTexture d).textureObjectVersion = m.textureVersion := by
  by_cases h : d.textureObjectVersion = m.textureVersion
  · rw [bindTexture_current m d h, h]
  · rw [bindTexture_stale m d h]

/-- C3: `bindTexture` uploads exactly when the context's stamp differs from
the live `textureVersion` (one upload, otherwise none) and leaves the stamp
equal to the live version. So for a stale stamp two binds in a row upload
once in total, the second not at all; and after a bind, a successful `load`
or an `updateColorCycle` made while cycling with a backup makes the next bind
upload exactly once. -/
theorem C3_bind_cache_coherence (m : ElevationColorMap) (d : DataItem) :
    ((m.bindTexture d).numUploads = d.numUploads + 1 ↔
        d.textureObjectVersion ≠ m.textureVersion) ∧
    ((m.bindTexture d).numUploads = d.numUploads ↔
        d.textureObjectVersion = m.textureVersion) ∧
    (m.bindTexture d).textureObjectVersion = m.textureVersion ∧
    (d.textureObjectVersion ≠ m.textureVersion →
      (m.bindTexture (m.bindTexture d)).numUploads = d.numUploads + 1 ∧
      (m.bindTexture (m.bindTexture d)).numUploads = (m.bindTexture d).numUploads) ∧
    (∀ env name, (m.load env name).2 = none →
      ((m.load env name).1.bindTexture (m.bindTexture d)).numUploads
        = (m.bindTexture d).numUploads + 1) ∧
    (∀ t, m.colorCyclingEnabled = true → m.originalColors ≠ none →
      ((m.updateColorCycle t).bindTexture (m.bindTexture d)).numUploads
        = (m.bindTexture d).numUploads + 1) := by
  have hstamp := bindTexture_stamp m d
  refine ⟨?_, ?_, hstamp, ?_, ?_, ?_⟩
  · by_cases h : d.textureObjectVersion = m.textureVersion
    · rw [bindTexture_current m d h]; simp [h]
    · rw [bindTexture_stale m d h]; simp [h]
  · by_cases h : d.textureObjectVersion = m.textureVersion
    · rw [bindTexture_current m d h]; simp [h]
    · rw [bindTexture_stale m d h]; simp [h]
  · intro h
    rw [bindTexture_current m (m.bindTexture d) hstamp, bindTexture_stale m d h]
    exact ⟨rfl, rfl⟩
  · intro env name hok
    rw [bindTexture_stale (m.load env name).1 (m.bindTexture d)]
    rw [hstamp, version_load_ok m env name hok]; omega
  · intro t hc ho
    rw [bindTexture_stale (m.updateColorCycle t) (m.bindTexture d)]
    rw [hstamp, version_updateColorCycle_cycling m t hc ho]; omega

/-- For the fresh data item and the sample cycling object: two binds upload
once, and an update between two binds makes the second one upload again. -/
theorem C3_bind_cache_coherence_witness :
    ((sampleCycling.bindTexture (sampleCycling.bindTexture freshItem)).numUploads
        = freshItem.numUploads + 1 ∧
      (sampleCycling.bindTexture (sampleCycling.bindTexture freshItem)).numUploads
        = (sampleCycling.bindTexture freshItem).numUploads) ∧
    ((sampleCycling.updateColorCycle (1 / 5)).bindTexture
        (sampleCycling.bindTexture freshItem)).numUploads
      = (sampleCycling.bindTexture freshItem).numUploads + 1 ∧
    ((sampleCycling.load (sampleEnv "0 255 0 0\n") "ramp.cpt").1.bindTexture
        (sampleCycling.bindTexture freshItem)).numUploads
      = (sampleCycling.bindTexture freshItem).numUploads + 1 :=
  ⟨(C3_bind_cache_coherence sampleCycling freshItem).2.2.2.1 (by decide),
    (C3_bind_cache_coherence sampleCycling freshItem).2.2.2.2.2 (1 / 5) rfl (by decide),
    (C3_bind_cache_coherence sampleCycling freshItem).2.2.2.2.1 (sampleEnv "0 255 0 0\n")
      "ramp.cpt" (by decide!)⟩

/-- C4: `textureVersion` goes up by exactly one in a successful `load`
(re-arming cycling or not), in an `updateColorCycle` made while cycling with a
backup, and in a `setColorCycling(false)` that restores from a backup. It is
unchanged by an enable, by a disable without backup or while idle, by an
update while idle or without backup, by a failed `load`, by `bindTexture` and
by `calcTexturePlane`. No call decreases it. -/
theorem C4_textureVersion_steps (m : ElevationColorMap) :
    (∀ env name, (m.load env name).2 = none →
      (m.load env name).1.textureVersion = m.textureVersion + 1) ∧
    (∀ t, m.colorCyclingEnabled = true → m.originalColors ≠ none →
      (m.updateColorCycle t).textureVersion = m.textureVersion + 1) ∧
    (∀ speed, m.colorCyclingEnabled = true → m.originalColors ≠ none →
      (m.setColorCycling false speed).textureVersion = m.textureVersion + 1) ∧
    (∀ speed, (m.setColorCycling true speed).textureVersion = m.textureVersion) ∧
    (∀ speed, m.colorCyclingEnabled = false ∨ m.originalColors = none →
      (m.setColorCycling false speed).textureVersion = m.textureVersion) ∧
    (∀ t, m.colorCyclingEnabled = false ∨ m.originalColors = none →
      (m.updateColorCycle t).textureVersion = m.textureVersion) ∧
    (∀ env name e, (m.load env name).2 = some e →
      (m.load env name).1.textureVersion = m.textureVersion) ∧
    (∀ d, (World.bindTexture ⟨m, d⟩).map.textureVersion = m.textureVersion) ∧
    (∀ basePlane, (m.calcTexturePlane basePlane).textureVersion = m.textureVersion) ∧
    (∀ env name, m.textureVersion ≤ (m.load env name).1.textureVersion) ∧
    (∀ enabled speed, m.textureVersion ≤ (m.setColorCycling enabled speed).textureVersion) ∧
    (∀ t, m.textureVersion ≤ (m.updateColorCycle t).textureVersion) := by
  refine ⟨?_, ?_, ?_, ?_, ?_, ?_, ?_, ?_, ?_, ?_, ?_, ?_⟩
  · exact fun env name h => version_load_ok m env name h
  · exact fun t hc ho => version_updateColorCycle_cycling m t hc ho
  · exact fun speed hc ho => version_setColorCycling_disable_restore m speed hc ho
  · exact fun speed => version_setColorCycling_enable m speed
  · intro speed h
    rw [setColorCycling_disable_noRestore m speed h]
  · intro t h
    rw [updateColorCycle_idle m t h]
  · exact fun env name e h => version_load_error m env name e h
  · intro d; rfl
  · intro basePlane; rfl
  · exact fun env name => version_le_load m env name
  · exact fun enabled speed => version_le_setColorCycling m enabled speed
  · exact fun t => version_le_updateColorCycle m t

/-- On the sample cycling object (version 1): a successful reload, an update
and a restoring disable each give version 2; a load of a missing file keeps
version 1; on the idle sample object a disable and an update keep version 1. -/
theorem C4_textureVersion_steps_witness :
    (sampleCycling.load (sampleEnv "0 255 0 0\n") "ramp.cpt").1.textureVersion
        = sampleCycling.textureVersion + 1 ∧
    (sampleCycling.updateColorCycle (1 / 5)).textureVersion = sampleCycling.textureVersion + 1 ∧
    (sampleCycling.setColorCycling false 1).textureVersion = sampleCycling.textureVersion + 1 ∧
    (sampleMap.setColorCycling false 1).textureVersion = sampleMap.textureVersion ∧
    (sampleMap.updateColorCycle (1 / 5)).textureVersion = sampleMap.textureVersion ∧
    (sampleCycling.load noFileEnv "ramp.cpt").1.textureVersion = sampleCycling.textureVersion :=
  ⟨(C4_textureVersion_steps sampleCycling).1 (sampleEnv "0 255 0 0\n") "ramp.cpt" (by decide!),
    (C4_textureVersion_steps sampleCycling).2.1 (1 / 5) rfl (by decide),
    (C4_textureVersion_steps sampleCycling).2.2.1 1 rfl (by decide),
    (C4_textureVersion_steps sampleMap).2.2.2.2.1 1 (Or.inl rfl),
    (C4_textureVersion_steps sampleMap).2.2.2.2.2.1 (1 / 5) (Or.inl rfl),
    (C4_textureVersion_steps sampleCycling).2.2.2.2.2.2.1 noFileEnv "ramp.cpt"
      (LoadError.openError "/etc/SARndbox/ramp.cpt") (by decide!)⟩

/-! ## Failed and successful loads -/

/-- C5: when `load` throws, whatever the exception (the file cannot be opened,
a format error, a number that cannot be read), the live colour buffer, the
entry count, the scalar range and `textureVersion` are what they were before
the call; a context whose texture was up to date before the call therefore
uploads nothing at its next `bindTexture`. -/
theorem C5_failed_load_keeps_ramp (m : ElevationColorMap) (env : Env) (name : String)
    (e : LoadError) (h : (m.load env name).2 = some e) :
    (m.load env name).1.entries = m.entries ∧
    (m.load env name).1.getNumEntries = m.getNumEntries ∧
    (m.load env name).1.scalarRangeMin = m.scalarRangeMin ∧
    (m.load env name).1.scalarRangeMax = m.scalarRangeMax ∧
    (m.load env name).1.textureVersion = m.textureVersion ∧
    ∀ d : DataItem, d.textureObjectVersion = m.textureVersion →
      (m.load env name).1.bindTexture d = d := by
  rw [load_fails m env name e h]
  refine ⟨rfl, rfl, rfl, rfl, rfl, ?_⟩
  intro d hd
  exact bindTexture_current _ d hd

/-- A load of a file that cannot be opened, and a load of a `.cpt` file whose
second record lacks its newline, both leave the colours of the sample cycling
object in place. -/
theorem C5_failed_load_keeps_ramp_witness :
    (sampleCycling.load noFileEnv "ramp.cpt").1.entries = sampleCycling.entries ∧
    (sampleCycling.load (sampleEnv "0 255 0 0\n1 0 255 0") "ramp.cpt").1.entries
      = sampleCycling.entries :=
  ⟨(C5_failed_load_keeps_ramp sampleCycling noFileEnv "ramp.cpt"
      (LoadError.openError "/etc/SARndbox/ramp.cpt") (by decide!)).1,
    (C5_failed_load_keeps_ramp sampleCycling (sampleEnv "0 255 0 0\n1 0 255 0") "ramp.cpt"
      (LoadError.formatError 2 "/etc/SARndbox/ramp.cpt") (by decide!)).1⟩

/-- C6: evaluation of `load` on the sample cycling object and a file that
cannot be opened. The call throws, and the object it leaves has cycling
switched off although it was on before the call; speed, phase, version and
colours are unchanged and the backup is gone. -/
theorem C6_failed_load_switches_cycling_off :
    sampleCycling.colorCyclingEnabled = true ∧
    (sampleCycling.load noFileEnv "ramp.cpt").2
      = some (LoadError.openError "/etc/SARndbox/ramp.cpt") ∧
    (sampleCycling.load noFileEnv "ramp.cpt").1.colorCyclingEnabled = false ∧
    (sampleCycling.load noFileEnv "ramp.cpt").1.colorCycleSpeed = sampleCycling.colorCycleSpeed ∧
    (sampleCycling.load noFileEnv "ramp.cpt").1.colorCyclePhase = sampleCycling.colorCyclePhase ∧
    (sampleCycling.load noFileEnv "ramp.cpt").1.textureVersion = sampleCycling.textureVersion ∧
    (sampleCycling.load noFileEnv "ramp.cpt").1.entries = sampleCycling.entries ∧
    (sampleCycling.load noFileEnv "ramp.cpt").1.originalColors = none := by
  decide!

/-- C7: after a successful `load` the map holds what `setColors` made of the
parsed keys and colours. If cycling was enabled at speed `s` before the call,
it is enabled afterwards with speed `s` and phase `0`, and the backup is the
float image of the freshly loaded entries; if it was not enabled, it is not
enabled afterwards and there is no backup. -/
theorem C7_successful_load_rearms_cycling (m : ElevationColorMap) (env : Env) (name : String)
    (h : (m.load env name).2 = none) :
    (∃ keys colors,
      (m.load env name).1.toGLColorMap = env.setColors keys.length colors keys 256) ∧
    (m.colorCyclingEnabled = true →
      (m.load env name).1.colorCyclingEnabled = true ∧
      (m.load env name).1.colorCycleSpeed = m.colorCycleSpeed ∧
      (m.load env name).1.colorCyclePhase = 0 ∧
      (m.load env name).1.originalColors
        = some (colorDataList (m.load env name).1.entries)) ∧
    (m.colorCyclingEnabled = false →
      (m.load env name).1.colorCyclingEnabled = false ∧
      (m.load env name).1.originalColors = none) := by
  obtain ⟨keys, colors, hl⟩ := load_succeeds m env name h
  rcases Bool.eq_false_or_eq_true m.colorCyclingEnabled with hc | hc
  · rw [if_pos hc, setColorCycling_enable_idle_none _ _ rfl rfl] at hl
    rw [hl]
    exact ⟨⟨keys, colors, rfl⟩, fun _ => ⟨rfl, rfl, rfl, rfl⟩,
      fun hf => by rw [hc] at hf; simp at hf⟩
  · rw [if_neg (by simp [hc])] at hl
    rw [hl]
    exact ⟨⟨keys, colors, rfl⟩, fun hf => by rw [hc] at hf; simp at hf, fun _ => ⟨rfl, rfl⟩⟩

/-- Reloading the sample cycling object (speed 2) from a one line `.cpt` file:
cycling stays enabled at speed 2 with phase 0 and the backup is the new
(red) entry. Reloading the idle sample object leaves it idle without backup. -/
theorem C7_successful_load_rearms_cycling_witness :
    ((sampleCycling.load (sampleEnv "0 255 0 0\n") "ramp.cpt").1.colorCyclingEnabled = true ∧
      (sampleCycling.load (sampleEnv "0 255 0 0\n") "ramp.cpt").1.colorCycleSpeed
        = sampleCycling.colorCycleSpeed ∧
      (sampleCycling.load (sampleEnv "0 255 0 0\n") "ramp.cpt").1.colorCyclePhase = 0 ∧
      (sampleCycling.load (sampleEnv "0 255 0 0\n") "ramp.cpt").1.originalColors
        = some (colorDataList
            (sampleCycling.load (sampleEnv "0 255 0 0\n") "ramp.cpt").1.entries)) ∧
    ((sampleMap.load (sampleEnv "0 255 0 0\n") "ramp.cpt").1.colorCyclingEnabled = false ∧
      (sampleMap.load (sampleEnv "0 255 0 0\n") "ramp.cpt").1.originalColors = none) :=
  ⟨(C7_successful_load_rearms_cycling sampleCycling (sampleEnv "0 255 0 0\n") "ramp.cpt"
      (by decide!)).2.1 rfl,
    (C7_successful_load_rearms_cycling sampleMap (sampleEnv "0 255 0 0\n") "ramp.cpt"
      (by decide!)).2.2 rfl⟩

/-! ## The parse loops -/

theorem cptLoop_eof (file : String) (fuel line : Nat) (keys : List ℚ) (colors : List Color) :
    cptLoop file fuel ⟨[]⟩ line keys colors = Except.ok (keys, colors) := by
  cases fuel <;> simp [cptLoop, ValueSource.eof]

theorem defaultLoop_eof (file : String) (fuel line : Nat) (keys : List ℚ)
    (colors : List Color) :
    defaultLoop file fuel ⟨[]⟩ line keys colors = Except.ok (keys, colors) := by
  cases fuel <;> simp [defaultLoop, ValueSource.eof]

theorem cptLoop_record (file : String) (fuel line : Nat) (keys : List ℚ) (colors : List Color)
    (rec : Record) (rest : List Token) :
    cptLoop file (fuel + 1) ⟨rec.cptItems ++ rest⟩ line keys colors
      = cptLoop file fuel ⟨rest⟩ (line + 1) (keys ++ [rec.key]) (colors ++ [rec.cptColor]) := by
  simp [cptLoop, ValueSource.eof, ValueSource.readNumber, ValueSource.isLiteral,
    Record.cptItems, Record.cptFields, Record.cptColor, bind, Except.bind]

theorem defaultLoop_record (file : String) (fuel line : Nat) (keys : List ℚ)
    (colors : List Color) (rec : Record) (rest : List Token) :
    defaultLoop file (fuel + 1) ⟨rec.defaultItems ++ rest⟩ line keys colors
      = defaultLoop file fuel ⟨rest⟩ (line + 1) (keys ++ [rec.key])
          (colors ++ [rec.defaultColor]) := by
  simp [defaultLoop, ValueSource.eof, ValueSource.readNumber, ValueSource.isLiteral,
    Record.defaultItems, Record.defaultFields, Record.defaultColor, bind, Except.bind]

theorem cptLoop_records (file : String) (recs : List Record) :
    ∀ (fuel line : Nat) (keys : List ℚ) (colors : List Color) (rest : List Token),
      recs.length ≤ fuel →
      cptLoop file fuel ⟨recs.flatMap Record.cptItems ++ rest⟩ line keys colors
        = cptLoop file (fuel - recs.length) ⟨rest⟩ (line + recs.length)
            (keys ++ recs.map Record.key) (colors ++ recs.map Record.cptColor) := by
  induction recs with
  | nil => intro fuel line keys colors rest _; simp
  | cons rec recs ih =>
    intro fuel line keys colors rest hfuel
    obtain ⟨f, rfl⟩ : ∃ f, fuel = f + 1 := ⟨fuel - 1, by simp at hfuel; omega⟩
    simp only [List.flatMap_cons, List.append_assoc]
    rw [cptLoop_record, ih f _ _ _ _ (by simp at hfuel; omega)]
    simp only [List.length_cons, List.map_cons, List.append_assoc, List.singleton_append]
    congr 1
    · omega
    · omega

theorem defaultLoop_records (file : String) (recs : List Record) :
    ∀ (fuel line : Nat) (keys : List ℚ) (colors : List Color) (rest : List Token),
      recs.length ≤ fuel →
      defaultLoop file fuel ⟨recs.flatMap Record.defaultItems ++ rest⟩ line keys colors
        = defaultLoop file (fuel - recs.length) ⟨rest⟩ (line + recs.length)
            (keys ++ recs.map Record.key) (colors ++ recs.map Record.defaultColor) := by
  induction recs with
  | nil => intro fuel line keys colors rest _; simp
  | cons rec recs ih =>
    intro fuel line keys colors rest hfuel
    obtain ⟨f, rfl⟩ : ∃ f, fuel = f + 1 := ⟨fuel - 1, by simp at hfuel; omega⟩
    simp only [List.flatMap_cons, List.append_assoc]
    rw [defaultLoop_record, ih f _ _ _ _ (by simp at hfuel; omega)]
    simp only [List.length_cons, List.map_cons, List.append_assoc, List.singleton_append]
    congr 1
    · omega
    · omega

theorem length_flatMap_cptItems (recs : List Record) :
    (recs.flatMap Record.cptItems).length = recs.length * 5 := by
  induction recs with
  | nil => rfl
  | cons rec recs ih =>
    rw [List.flatMap_cons, List.length_append, ih]
    simp only [Record.cptItems, Record.cptFields, List.length_append, List.length_cons,
      List.length_nil]
    omega

theorem length_flatMap_defaultItems (recs : List Record) :
    (recs.flatMap Record.defaultItems).length = recs.length * 6 := by
  induction recs with
  | nil => rfl
  | cons rec recs ih =>
    rw [List.flatMap_cons, List.length_append, ih]
    simp only [Record.defaultItems, Record.defaultFields, List.length_append, List.length_cons,
      List.length_nil]
    omega

theorem parseCpt_records (file : String) (recs : List Record) :
    parseCpt file ⟨recs.flatMap Record.cptItems⟩
      = Except.ok (recs.map Record.key, recs.map Record.cptColor) := by
  unfold parseCpt
  have := cptLoop_records file recs ((recs.flatMap Record.cptItems).length + 1) 1 [] [] []
    (by rw [length_flatMap_cptItems]; omega)
  simp only [List.append_nil, List.nil_append] at this
  rw [this, cptLoop_eof]

theorem parseDefault_records (file : String) (recs : List Record) :
    parseDefault file ⟨recs.flatMap Record.defaultItems⟩
      = Except.ok (recs.map Record.key, recs.map Record.defaultColor) := by
  unfold parseDefault
  have := defaultLoop_records file recs ((recs.flatMap Record.defaultItems).length + 1) 1 [] [] []
    (by rw [length_flatMap_defaultItems]; omega)
  simp only [List.append_nil, List.nil_append] at this
  rw [this, defaultLoop_eof]

theorem isLiteral_absent (rest : List Token) (c : Char)
    (h : rest.head? ≠ some (Token.punct c)) :
    (ValueSource.mk rest).isLiteral c = (false, ValueSource.mk rest) := by
  unfold ValueSource.isLiteral
  cases rest with
  | nil => rfl
  | cons t ts =>
    cases t with
    | number q => rfl
    | other d => rfl
    | punct d =>
      have : d ≠ c := by
        intro hd; apply h; simp [hd]
      simp [this]

theorem parseCpt_missing_newline (file : String) (recs : List Record) (last : Record)
    (rest : List Token) (h : rest.head? ≠ some (Token.punct '\n')) :
    parseCpt file ⟨recs.flatMap Record.cptItems ++ (last.cptFields ++ rest)⟩
      = Except.error (LoadError.formatError (recs.length + 1) file) := by
  unfold parseCpt
  rw [cptLoop_records file recs _ 1 [] [] _
    (by simp only [List.length_append, length_flatMap_cptItems]; omega)]
  obtain ⟨f, hf⟩ : ∃ f, (recs.flatMap Record.cptItems ++ (last.cptFields ++ rest)).length + 1
      - recs.length = f + 1 := by
    refine ⟨(recs.flatMap Record.cptItems ++ (last.cptFields ++ rest)).length - recs.length, ?_⟩
    simp only [List.length_append, length_flatMap_cptItems]; omega
  simp only [hf]
  simp [cptLoop, ValueSource.eof, ValueSource.readNumber, Record.cptFields, bind, Except.bind,
    isLiteral_absent rest '\n' h, throw, throwThe, MonadExceptOf.throw, Nat.add_comm]

theorem parseDefault_missing_newline (file : String) (recs : List Record) (last : Record)
    (rest : List Token) (h : rest.head? ≠ some (Token.punct '\n')) :
    parseDefault file ⟨recs.flatMap Record.defaultItems ++ (last.defaultFields ++ rest)⟩
      = Except.error (LoadError.formatError (recs.length + 1) file) := by
  unfold parseDefault
  rw [defaultLoop_records file recs _ 1 [] [] _
    (by simp only [List.length_append, length_flatMap_defaultItems]; omega)]
  obtain ⟨f, hf⟩ : ∃ f, (recs.flatMap Record.defaultItems ++ (last.defaultFields ++ rest)).length + 1
      - recs.length = f + 1 := by
    refine ⟨(recs.flatMap Record.defaultItems ++ (last.defaultFields ++ rest)).length
      - recs.length, ?_⟩
    simp only [List.length_append, length_flatMap_defaultItems]; omega
  simp only [hf]
  have hcomma : ∀ ts : List Token, (ValueSource.mk (Token.punct ',' :: ts)).isLiteral ','
      = (true, ValueSource.mk ts) := fun ts => by simp [ValueSource.isLiteral]
  simp [defaultLoop, ValueSource.eof, ValueSource.readNumber, hcomma,
    Record.defaultFields, bind, Except.bind,
    isLiteral_absent rest '\n' h, throw, throwThe, MonadExceptOf.throw, Nat.add_comm]

theorem load_error_of_parse (m : ElevationColorMap) (env : Env) (name : String)
    (text : List Char) (e : LoadError)
    (hopen : env.openFile (fullName env name) = some text)
    (hparse : (if hasCaseExtension name ".cpt" then
        parseCpt (fullName env name) ⟨scan ['\n'] text⟩
      else parseDefault (fullName env name) ⟨scan [',', '\n'] text⟩) = Except.error e) :
    (m.load env name).2 = some e := by
  unfold ElevationColorMap.load
  simp only [hopen, hparse]

/-- C9, as stated, fails: the text `"0,1,0,0\n1,0,1,0\n"`, whose records have
commas between all four fields, is not parsed by the default branch of `load`.
After the key and its comma the first colour component is read, and the next
read of a number meets the second comma: `load` leaves with the exception of
`readNumber`. The conversion of the components to `GLfloat` does not change
that: the branch with the conversions of the source leaves the same way. -/
theorem C9_all_commas_is_rejected :
    scan [',', '\n'] "0,1,0,0\n1,0,1,0\n".toList
        = [(⟨0, 1, 0, 0⟩ : Record), ⟨1, 0, 1, 0⟩].flatMap Record.commaItems ∧
    parseDefault "/etc/SARndbox/ramp.txt" ⟨scan [',', '\n'] "0,1,0,0\n1,0,1,0\n".toList⟩
        = Except.error LoadError.numberError ∧
    (sampleMap.load (sampleEnv "0,1,0,0\n1,0,1,0\n") "ramp.txt").2
        = some LoadError.numberError ∧
    parseDefaultF32 "/etc/SARndbox/ramp.txt" ⟨scan [',', '\n'] "0,1,0,0\n1,0,1,0\n".toList⟩
        = Except.error LoadError.numberError := by
  have hs : scan [',', '\n'] "0,1,0,0\n1,0,1,0\n".toList
      = [(⟨0, 1, 0, 0⟩ : Record), ⟨1, 0, 1, 0⟩].flatMap Record.commaItems := by decide!
  have hp : parseDefault "/etc/SARndbox/ramp.txt"
      ⟨scan [',', '\n'] "0,1,0,0\n1,0,1,0\n".toList⟩ = Except.error LoadError.numberError := by
    rw [hs]
    simp [parseDefault, defaultLoop, Record.commaItems, ValueSource.eof,
      ValueSource.readNumber, ValueSource.isLiteral, bind, Except.bind]
  have hp32 : parseDefaultF32 "/etc/SARndbox/ramp.txt"
      ⟨scan [',', '\n'] "0,1,0,0\n1,0,1,0\n".toList⟩ = Except.error LoadError.numberError := by
    rw [hs]
    simp [parseDefaultF32, defaultLoopF32, Record.commaItems, ValueSource.eof,
      ValueSource.readNumber, ValueSource.isLiteral, bind, Except.bind]
  refine ⟨hs, hp, ?_, hp32⟩
  apply load_error_of_parse sampleMap (sampleEnv "0,1,0,0\n1,0,1,0\n") "ramp.txt"
    "0,1,0,0\n1,0,1,0\n".toList LoadError.numberError rfl
  have hx : hasCaseExtension "ramp.txt" ".cpt" = false := by decide!
  have hn : fullName (sampleEnv "0,1,0,0\n1,0,1,0\n") "ramp.txt" = "/etc/SARndbox/ramp.txt" := by
    decide!
  rw [hx, hn]
  simpa using hp

/-- C10: let the file `load` opens deliver `k` complete records followed by
the fields of one more record and then anything but a newline (another item,
or the end of the file). Then `load` leaves with the format error that carries
the line number `k + 1` and the name of the file that was opened; this holds
in the `.cpt` format and in the default format. The `k` complete records by
themselves are read without error. -/
theorem C10_missing_newline_reports_line (m : ElevationColorMap) (env : Env) (name : String)
    (text : List Char) (recs : List Record) (last : Record) (rest : List Token)
    (hopen : env.openFile (fullName env name) = some text)
    (hrest : rest.head? ≠ some (Token.punct '\n')) :
    (hasCaseExtension name ".cpt" = true →
      scan ['\n'] text = recs.flatMap Record.cptItems ++ (last.cptFields ++ rest) →
      (m.load env name).2
        = some (LoadError.formatError (recs.length + 1) (fullName env name))) ∧
    (hasCaseExtension name ".cpt" = false →
      scan [',', '\n'] text = recs.flatMap Record.defaultItems ++ (last.defaultFields ++ rest) →
      (m.load env name).2
        = some (LoadError.formatError (recs.length + 1) (fullName env name))) ∧
    parseCpt (fullName env name) ⟨recs.flatMap Record.cptItems⟩
      = Except.ok (recs.map Record.key, recs.map Record.cptColor) ∧
    parseDefault (fullName env name) ⟨recs.flatMap Record.defaultItems⟩
      = Except.ok (recs.map Record.key, recs.map Record.defaultColor) := by
  refine ⟨?_, ?_, parseCpt_records _ recs, parseDefault_records _ recs⟩
  · intro hx hs
    apply load_error_of_parse m env name text _ hopen
    rw [hx, hs]
    simp only [if_true]
    exact parseCpt_missing_newline _ recs last rest hrest
  · intro hx hs
    apply load_error_of_parse m env name text _ hopen
    rw [hx, hs]
    simp only [Bool.false_eq_true, if_false]
    exact parseDefault_missing_newline _ recs last rest hrest

/-- A `.cpt` file and a file of the default format, each with one complete
record and a second record that ends the file without newline: both loads
report line 2 of the file below the configuration directory. -/
theorem C10_missing_newline_reports_line_witness :
    (sampleMap.load (sampleEnv "0 255 0 0\n1 0 255 0") "ramp.cpt").2
        = some (LoadError.formatError 2 "/etc/SARndbox/ramp.cpt") ∧
    (sampleMap.load (sampleEnv "0,1 0 0\n1,0 1 0") "ramp.txt").2
        = some (LoadError.formatError 2 "/etc/SARndbox/ramp.txt") :=
  ⟨(C10_missing_newline_reports_line sampleMap (sampleEnv "0 255 0 0\n1 0 255 0") "ramp.cpt"
      "0 255 0 0\n1 0 255 0".toList [⟨0, 255, 0, 0⟩] ⟨1, 0, 255, 0⟩ [] rfl (by decide)).1
      (by decide!) (by decide!),
    (C10_missing_newline_reports_line sampleMap (sampleEnv "0,1 0 0\n1,0 1 0") "ramp.txt"
      "0,1 0 0\n1,0 1 0".toList [⟨0, 1, 0, 0⟩] ⟨1, 0, 1, 0⟩ [] rfl (by decide)).2.1
      (by decide!) (by decide!)⟩

/-! ## The iteration bound of the parse loops is never reached -/

theorem readNumber_length (src src2 : ValueSource) (q : ℚ)
    (h : src.readNumber = Except.ok (q, src2)) : src2.items.length + 1 = src.items.length := by
  unfold ValueSource.readNumber at h
  split at h
  · rename_i q2 rest hitems
    simp only [Except.ok.injEq, Prod.mk.injEq] at h
    rw [hitems, ← h.2]
    rfl
  · simp at h

theorem isLiteral_length (src : ValueSource) (c : Char) :
    (src.isLiteral c).2.items.length ≤ src.items.length := by
  unfold ValueSource.isLiteral
  split
  · rename_i d rest hitems
    split
    · rw [hitems]; simp
    · exact le_rfl
  · exact le_rfl

theorem cptLoop_fuel (file : String) :
    ∀ (f1 f2 : Nat) (src : ValueSource) (line : Nat) (keys : List ℚ) (colors : List Color),
      src.items.length < f1 → src.items.length < f2 →
      cptLoop file f1 src line keys colors = cptLoop file f2 src line keys colors := by
  intro f1
  induction f1 with
  | zero => intro f2 src line keys colors h1; omega
  | succ a ih =>
    intro f2 src line keys colors h1 h2
    cases f2 with
    | zero => omega
    | succ b =>
      simp only [cptLoop]
      split
      · rfl
      · cases hr0 : src.readNumber with
        | error e => rfl
        | ok p0 =>
          obtain ⟨key, s0⟩ := p0
          have l0 := readNumber_length src s0 key hr0
          cases hr1 : s0.readNumber with
          | error e => simp [bind, Except.bind, hr1]
          | ok p1 =>
            obtain ⟨c0, s1⟩ := p1
            have l1 := readNumber_length s0 s1 c0 hr1
            cases hr2 : s1.readNumber with
            | error e => simp [bind, Except.bind, hr1, hr2]
            | ok p2 =>
              obtain ⟨c1, s2⟩ := p2
              have l2 := readNumber_length s1 s2 c1 hr2
              cases hr3 : s2.readNumber with
              | error e => simp [bind, Except.bind, hr1, hr2, hr3]
              | ok p3 =>
                obtain ⟨c2, s3⟩ := p3
                have l3 := readNumber_length s2 s3 c2 hr3
                have l4 := isLiteral_length s3 '\n'
                simp only [bind, Except.bind, hr1, hr2, hr3]
                split
                · rfl
                · exact ih b _ _ _ _ (by omega) (by omega)

theorem defaultLoop_fuel (file : String) :
    ∀ (f1 f2 : Nat) (src : ValueSource) (line : Nat) (keys : List ℚ) (colors : List Color),
      src.items.length < f1 → src.items.length < f2 →
      defaultLoop file f1 src line keys colors = defaultLoop file f2 src line keys colors := by
  intro f1
  induction f1 with
  | zero => intro f2 src line keys colors h1; omega
  | succ a ih =>
    intro f2 src line keys colors h1 h2
    cases f2 with
    | zero => omega
    | succ b =>
      simp only [defaultLoop]
      split
      · rfl
      · cases hr0 : src.readNumber with
        | error e => rfl
        | ok p0 =>
          obtain ⟨key, s0⟩ := p0
          have l0 := readNumber_length src s0 key hr0
          have lc := isLiteral_length s0 ','
          simp only [bind, Except.bind]
          split
          · rfl
          · cases hr1 : (s0.isLiteral ',').2.readNumber with
            | error e => simp [bind, Except.bind, hr1]
            | ok p1 =>
              obtain ⟨c0, s1⟩ := p1
              have l1 := readNumber_length _ s1 c0 hr1
              cases hr2 : s1.readNumber with
              | error e => simp [bind, Except.bind, hr1, hr2]
              | ok p2 =>
                obtain ⟨c1, s2⟩ := p2
                have l2 := readNumber_length s1 s2 c1 hr2
                cases hr3 : s2.readNumber with
                | error e => simp [bind, Except.bind, hr1, hr2, hr3]
                | ok p3 =>
                  obtain ⟨c2, s3⟩ := p3
                  have l3 := readNumber_length s2 s3 c2 hr3
                  have l4 := isLiteral_length s3 '\n'
                  simp only [bind, Except.bind, hr1, hr2, hr3]
                  split
                  · rfl
                  · exact ih b _ _ _ _ (by omega) (by omega)

/-! ## No-op update, state invariant, repeated enable -/

/-- C15: when cycling is off or there is no backup, `updateColorCycle(t)`
returns at once: the object after the call is the object before it, so the
live colour buffer, the backup, the phase, the speed, the enabled flag and
`textureVersion` are all unchanged. -/
theorem C15_update_idle_is_noop (m : ElevationColorMap) (t : ℚ)
    (h : m.colorCyclingEnabled = false ∨ m.originalColors = none) :
    m.updateColorCycle t = m ∧
    (m.updateColorCycle t).entries = m.entries ∧
    (m.updateColorCycle t).originalColors = m.originalColors ∧
    (m.updateColorCycle t).colorCyclePhase = m.colorCyclePhase ∧
    (m.updateColorCycle t).colorCycleSpeed = m.colorCycleSpeed ∧
    (m.updateColorCycle t).colorCyclingEnabled = m.colorCyclingEnabled ∧
    (m.updateColorCycle t).textureVersion = m.textureVersion := by
  rw [updateColorCycle_idle m t h]
  exact ⟨rfl, rfl, rfl, rfl, rfl, rfl, rfl⟩

/-- The idle sample object, and the sample cycling object with its backup
taken away, are both left as they are by an update at time 1/5. -/
theorem C15_update_idle_is_noop_witness :
    sampleMap.updateColorCycle (1 / 5) = sampleMap ∧
    ({ sampleCycling with originalColors := none } : ElevationColorMap).updateColorCycle (1 / 5)
      = { sampleCycling with originalColors := none } :=
  ⟨(C15_update_idle_is_noop sampleMap (1 / 5) (Or.inl rfl)).1,
    (C15_update_idle_is_noop { sampleCycling with originalColors := none } (1 / 5)
      (Or.inr rfl)).1⟩

/-- C18: in every state reachable through the constructor, `load` (returning
or throwing), `setColorCycling` and `updateColorCycle`: (i) cycling enabled
implies that a backup exists; (ii) a backup has exactly four floats per entry
of the current map; (iii) while cycling is off, a backup equals the live
colour buffer. -/
theorem C18_cycling_state_invariant (m : ElevationColorMap) (h : Reachable m) :
    (m.colorCyclingEnabled = true → m.originalColors ≠ none) ∧
    (∀ backup, m.originalColors = some backup → backup.length = 4 * m.getNumEntries) ∧
    (∀ backup, m.colorCyclingEnabled = false → m.originalColors = some backup →
      backup = colorDataList m.entries) := by
  have hinv := cycleInv_of_reachable m h
  unfold CycleInv at hinv
  cases ho : m.originalColors with
  | none =>
    rw [ho] at hinv
    refine ⟨fun hc => ?_, fun b hb => by simp at hb, fun b _ hb => by simp at hb⟩
    rw [hinv] at hc
    simp at hc
  | some b =>
    rw [ho] at hinv
    refine ⟨fun _ => by simp, fun b2 hb => ?_, fun b2 hc hb => ?_⟩
    · simp only [Option.some.injEq] at hb
      rw [← hb, hinv.1]; omega
    · simp only [Option.some.injEq] at hb
      rw [← hb]; exact hinv.2 hc

/-- The object built by the constructor from a three line `.cpt` file, then
enabled, updated and disabled, is reachable; it is idle with a backup of
twelve floats, four for each of its three entries. -/
theorem C18_cycling_state_invariant_witness :
    ([1, 0, 0, 1, 0, 1, 0, 1, 0, 0, 1, 1] : List ℚ).length
      = 4 * ((sampleEnabled.updateColorCycle (1 / 5)).setColorCycling false 1).getNumEntries :=
  (C18_cycling_state_invariant ((sampleEnabled.updateColorCycle (1 / 5)).setColorCycling false 1)
    (Reachable.setColorCycling _ false 1
      (Reachable.updateColorCycle _ (1 / 5)
        (Reachable.setColorCycling _ true 2
          (Reachable.construct _ _ _ _ _ _ sample_construct))))).2.1
    [1, 0, 0, 1, 0, 1, 0, 1, 0, 0, 1, 1] (by decide!)

/-- C14, as stated, fails: the sample cycling object after an update has
phase 2/5, and `setColorCycling(true, 3)` on it, the enabled flag being
already true, leaves it with phase 0. -/
theorem C14_enable_while_cycling_resets_phase :
    sampleShifted.colorCyclingEnabled = true ∧
    sampleShifted.colorCyclePhase = 2 / 5 ∧
    (sampleShifted.setColorCycling true 3).colorCyclePhase = 0 ∧
    (sampleShifted.setColorCycling true 3).colorCyclePhase ≠ sampleShifted.colorCyclePhase := by
  decide!

/-- C14, amended: `setColorCycling(e, s)` with `e` the current enabled flag
sets the speed to `s` and leaves the enabled flag, the backup, the live colour
buffer and `textureVersion` unchanged; the phase is unchanged when `e` is
false and is reset to 0 when `e` is true. -/
theorem C14_same_flag_frame (m : ElevationColorMap) (s : ℚ) :
    (m.setColorCycling m.colorCyclingEnabled s).colorCycleSpeed = s ∧
    (m.setColorCycling m.colorCyclingEnabled s).colorCyclingEnabled = m.colorCyclingEnabled ∧
    (m.setColorCycling m.colorCyclingEnabled s).originalColors = m.originalColors ∧
    (m.setColorCycling m.colorCyclingEnabled s).entries = m.entries ∧
    (m.setColorCycling m.colorCyclingEnabled s).textureVersion = m.textureVersion ∧
    (m.colorCyclingEnabled = false →
      (m.setColorCycling m.colorCyclingEnabled s).colorCyclePhase = m.colorCyclePhase) ∧
    (m.colorCyclingEnabled = true →
      (m.setColorCycling m.colorCyclingEnabled s).colorCyclePhase = 0) := by
  rcases Bool.eq_false_or_eq_true m.colorCyclingEnabled with hc | hc
  · rw [hc, setColorCycling_enable_cycling m s hc]
    exact ⟨rfl, rfl, rfl, rfl, rfl, fun hf => by simp at hf, fun _ => rfl⟩
  · rw [hc, setColorCycling_disable_idle m s hc]
    exact ⟨rfl, rfl, rfl, rfl, rfl, fun _ => rfl, fun hf => by simp at hf⟩

/-- On the idle sample object a disable at speed 3 keeps the phase; on the
shifted sample object an enable at speed 3 sets the phase to 0. -/
theorem C14_same_flag_frame_witness :
    (sampleMap.setColorCycling sampleMap.colorCyclingEnabled 3).colorCyclePhase
        = sampleMap.colorCyclePhase ∧
    (sampleShifted.setColorCycling sampleShifted.colorCyclingEnabled 3).colorCyclePhase = 0 :=
  ⟨(C14_same_flag_frame sampleMap 3).2.2.2.2.2.1 rfl,
    (C14_same_flag_frame sampleShifted 3).2.2.2.2.2.2 (by decide!)⟩

/-! ## Empty files and truncated records -/

theorem load_ok_of_parse (m : ElevationColorMap) (env : Env) (name : String)
    (text : List Char) (keys : List ℚ) (colors : List Color)
    (hopen : env.openFile (fullName env name) = some text)
    (hparse : (if hasCaseExtension name ".cpt" then
        parseCpt (fullName env name) ⟨scan ['\n'] text⟩
      else parseDefault (fullName env name) ⟨scan [',', '\n'] text⟩)
        = Except.ok (keys, colors)) :
    (m.load env name).2 = none ∧
    ((m.load env name).1.toGLColorMap = env.setColors keys.length colors keys 256) := by
  have h2 : (m.load env name).2 = none := by
    unfold ElevationColorMap.load
    simp only [hopen, hparse]
  refine ⟨h2, ?_⟩
  unfold ElevationColorMap.load
  simp only [hopen, hparse]
  rcases Bool.eq_false_or_eq_true m.colorCyclingEnabled with hc | hc
  · rw [if_pos hc, setColorCycling_enable_idle_none _ _ rfl rfl]
  · rw [if_neg (by simp [hc])]

/-- C11: evaluation of the parsing stage on an empty file and on a file of
blanks and tabs, in both formats: the loop is not entered and the stage ends
without exception with no key and no colour. `load` then returns normally for
the empty file, having handed `setColors` zero keys. -/
theorem C11_empty_file_yields_no_pairs :
    parseCpt "/etc/SARndbox/ramp.cpt" ⟨scan ['\n'] "".toList⟩ = Except.ok ([], []) ∧
    parseCpt "/etc/SARndbox/ramp.cpt" ⟨scan ['\n'] " \t ".toList⟩ = Except.ok ([], []) ∧
    parseDefault "/etc/SARndbox/ramp.txt" ⟨scan [',', '\n'] "".toList⟩ = Except.ok ([], []) ∧
    parseDefault "/etc/SARndbox/ramp.txt" ⟨scan [',', '\n'] " \t ".toList⟩
      = Except.ok ([], []) ∧
    (sampleMap.load (sampleEnv "") "ramp.cpt").2 = none ∧
    (sampleMap.load (sampleEnv "") "ramp.cpt").1.toGLColorMap
      = (sampleEnv "").setColors 0 [] [] 256 ∧
    (sampleMap.load (sampleEnv "") "ramp.cpt").1.getNumEntries = 0 := by
  have h1 : scan ['\n'] "".toList = [] := by decide!
  have h2 : scan ['\n'] " \t ".toList = [] := by decide!
  have h3 : scan [',', '\n'] "".toList = [] := by decide!
  have h4 : scan [',', '\n'] " \t ".toList = [] := by decide!
  refine ⟨?_, ?_, ?_, ?_, by decide!, by decide!, by decide!⟩
  · rw [h1]; exact cptLoop_eof _ _ _ _ _
  · rw [h2]; exact cptLoop_eof _ _ _ _ _
  · rw [h3]; exact defaultLoop_eof _ _ _ _ _
  · rw [h4]; exact defaultLoop_eof _ _ _ _ _

theorem parseCpt_truncated (file : String) (recs : List Record) (last : Record) (n : Nat)
    (h0 : 0 < n) (h4 : n ≤ 4) :
    ∃ e, parseCpt file ⟨recs.flatMap Record.cptItems ++ last.cptFields.take n⟩
      = Except.error e := by
  unfold parseCpt
  rw [cptLoop_records file recs _ 1 [] [] _
    (by simp only [List.length_append, length_flatMap_cptItems]; omega)]
  obtain ⟨f, hf⟩ : ∃ f, (recs.flatMap Record.cptItems ++ last.cptFields.take n).length + 1
      - recs.length = f + 1 := by
    refine ⟨(recs.flatMap Record.cptItems ++ last.cptFields.take n).length - recs.length, ?_⟩
    simp only [List.length_append, length_flatMap_cptItems]; omega
  simp only [hf]
  interval_cases n <;>
    simp [cptLoop, ValueSource.eof, ValueSource.readNumber, ValueSource.isLiteral,
      Record.cptFields, bind, Except.bind, throw, throwThe, MonadExceptOf.throw]

theorem parseDefault_truncated (file : String) (recs : List Record) (last : Record) (n : Nat)
    (h0 : 0 < n) (h5 : n ≤ 5) :
    ∃ e, parseDefault file ⟨recs.flatMap Record.defaultItems ++ last.defaultFields.take n⟩
      = Except.error e := by
  unfold parseDefault
  rw [defaultLoop_records file recs _ 1 [] [] _
    (by simp only [List.length_append, length_flatMap_defaultItems]; omega)]
  obtain ⟨f, hf⟩ : ∃ f,
      (recs.flatMap Record.defaultItems ++ last.defaultFields.take n).length + 1
        - recs.length = f + 1 := by
    refine ⟨(recs.flatMap Record.defaultItems ++ last.defaultFields.take n).length
      - recs.length, ?_⟩
    simp only [List.length_append, length_flatMap_defaultItems]; omega
  simp only [hf]
  interval_cases n <;>
    simp [defaultLoop, ValueSource.eof, ValueSource.readNumber, ValueSource.isLiteral,
      Record.defaultFields, bind, Except.bind, throw, throwThe, MonadExceptOf.throw]

theorem cptLoop_ok_records (file : String) :
    ∀ (fuel : Nat) (src : ValueSource) (line : Nat) (keys : List ℚ) (colors : List Color)
      (ks : List ℚ) (cs : List Color),
      src.items.length < fuel →
      cptLoop file fuel src line keys colors = Except.ok (ks, cs) →
      ∃ recs : List Record, src.items = recs.flatMap Record.cptItems ∧
        ks = keys ++ recs.map Record.key ∧ cs = colors ++ recs.map Record.cptColor := by
  intro fuel
  induction fuel with
  | zero => intro src line keys colors ks cs hlen; omega
  | succ f ih =>
    intro src line keys colors ks cs hlen h
    obtain ⟨items⟩ := src
    match items, hlen, h with
    | [], _, h =>
      simp [cptLoop, ValueSource.eof] at h
      exact ⟨[], rfl, by simp [h.1], by simp [h.2]⟩
    | Token.number key :: Token.number c0 :: Token.number c1 :: Token.number c2 ::
        Token.punct d :: rest, hlen, h =>
      by_cases hd : d = '\n'
      · subst hd
        simp [cptLoop, ValueSource.eof, ValueSource.readNumber, ValueSource.isLiteral,
          bind, Except.bind] at h
        obtain ⟨recs, hitems, hk, hc⟩ := ih ⟨rest⟩ _ _ _ ks cs
          (by simp at hlen ⊢; omega) h
        refine ⟨⟨key, c0, c1, c2⟩ :: recs, ?_, ?_, ?_⟩
        · simp only at hitems
          simp [Record.cptItems, Record.cptFields, hitems]
        · simp [hk]
        · simp [hc, Record.cptColor]
      · simp [cptLoop, ValueSource.eof, ValueSource.readNumber, ValueSource.isLiteral,
          bind, Except.bind, hd, throw, throwThe, MonadExceptOf.throw] at h
    | Token.number key :: Token.number c0 :: Token.number c1 :: Token.number c2 :: [], _, h
    | Token.number key :: Token.number c0 :: Token.number c1 :: Token.number c2 ::
        Token.number _ :: _, _, h
    | Token.number key :: Token.number c0 :: Token.number c1 :: Token.number c2 ::
        Token.other _ :: _, _, h
    | Token.number key :: Token.number c0 :: Token.number c1 :: [], _, h
    | Token.number key :: Token.number c0 :: Token.number c1 :: Token.punct _ :: _, _, h
    | Token.number key :: Token.number c0 :: Token.number c1 :: Token.other _ :: _, _, h
    | Token.number key :: Token.number c0 :: [], _, h
    | Token.number key :: Token.number c0 :: Token.punct _ :: _, _, h
    | Token.number key :: Token.number c0 :: Token.other _ :: _, _, h
    | Token.number key :: [], _, h
    | Token.number key :: Token.punct _ :: _, _, h
    | Token.number key :: Token.other _ :: _, _, h
    | Token.punct _ :: _, _, h
    | Token.other _ :: _, _, h =>
      simp [cptLoop, ValueSource.eof, ValueSource.readNumber, ValueSource.isLiteral,
        bind, Except.bind, throw, throwThe, MonadExceptOf.throw] at h

theorem readNumber_ok_items (src src2 : ValueSource) (q : ℚ)
    (h : src.readNumber = Except.ok (q, src2)) : src.items = Token.number q :: src2.items := by
  unfold ValueSource.readNumber at h
  split at h
  · rename_i q2 rest hitems
    simp only [Except.ok.injEq, Prod.mk.injEq] at h
    rw [hitems, ← h.1, ← h.2]
  · simp at h

theorem isLiteral_true_items (src : ValueSource) (c : Char)
    (h : (src.isLiteral c).1 = true) :
    src.items = Token.punct c :: (src.isLiteral c).2.items := by
  unfold ValueSource.isLiteral at h ⊢
  split
  · rename_i d rest hitems
    by_cases hd : d = c
    · simp [hd, hitems]
    · rw [hitems] at h; simp [hd] at h
  · rename_i hne
    split at h
    · rename_i d rest hitems
      exact absurd hitems (hne d rest)
    · simp at h

theorem defaultLoop_ok_records (file : String) :
    ∀ (fuel : Nat) (src : ValueSource) (line : Nat) (keys : List ℚ) (colors : List Color)
      (ks : List ℚ) (cs : List Color),
      src.items.length < fuel →
      defaultLoop file fuel src line keys colors = Except.ok (ks, cs) →
      ∃ recs : List Record, src.items = recs.flatMap Record.defaultItems ∧
        ks = keys ++ recs.map Record.key ∧ cs = colors ++ recs.map Record.defaultColor := by
  intro fuel
  induction fuel with
  | zero => intro src line keys colors ks cs hlen; omega
  | succ f ih =>
    intro src line keys colors ks cs hlen h
    simp only [defaultLoop] at h
    split at h
    · rename_i heof
      simp only [Except.ok.injEq, Prod.mk.injEq] at h
      refine ⟨[], ?_, by simp [h.1], by simp [h.2]⟩
      simpa [ValueSource.eof] using heof
    · cases hr0 : src.readNumber with
      | error e => simp [hr0, bind, Except.bind] at h
      | ok p0 =>
        obtain ⟨key, s0⟩ := p0
        have i0 := readNumber_ok_items src s0 key hr0
        simp only [hr0, bind, Except.bind] at h
        split at h
        · simp [throw, throwThe, MonadExceptOf.throw] at h
        · rename_i hcomma
          have ic := isLiteral_true_items s0 ',' (by simpa using hcomma)
          cases hr1 : (s0.isLiteral ',').2.readNumber with
          | error e => simp [hr1] at h
          | ok p1 =>
            obtain ⟨c0, s1⟩ := p1
            have i1 := readNumber_ok_items _ s1 c0 hr1
            cases hr2 : s1.readNumber with
            | error e => simp [hr1, hr2] at h
            | ok p2 =>
              obtain ⟨c1, s2⟩ := p2
              have i2 := readNumber_ok_items s1 s2 c1 hr2
              cases hr3 : s2.readNumber with
              | error e => simp [hr1, hr2, hr3] at h
              | ok p3 =>
                obtain ⟨c2, s3⟩ := p3
                have i3 := readNumber_ok_items s2 s3 c2 hr3
                simp only [hr1, hr2, hr3] at h
                split at h
                · simp [throw, throwThe, MonadExceptOf.throw] at h
                · rename_i hnl
                  have inl := isLiteral_true_items s3 '\n' (by simpa using hnl)
                  have hlen2 : (s3.isLiteral '\n').2.items.length < f := by
                    rw [i0, ic, i1, i2, i3, inl] at hlen
                    simp at hlen
                    omega
                  obtain ⟨recs, hitems, hk, hc⟩ := ih _ _ _ _ ks cs hlen2 h
                  refine ⟨⟨key, c0, c1, c2⟩ :: recs, ?_, ?_, ?_⟩
                  · rw [i0, ic, i1, i2, i3, inl, hitems]
                    simp [Record.defaultItems, Record.defaultFields]
                  · simp [hk]
                  · simp [hc, Record.defaultColor]

theorem parseCpt_ok_records (file : String) (src : ValueSource) (ks : List ℚ)
    (cs : List Color) (h : parseCpt file src = Except.ok (ks, cs)) :
    ∃ recs : List Record, src.items = recs.flatMap Record.cptItems ∧
      ks = recs.map Record.key ∧ cs = recs.map Record.cptColor := by
  obtain ⟨recs, h1, h2, h3⟩ := cptLoop_ok_records file _ src 1 [] [] ks cs (by omega) h
  exact ⟨recs, h1, by simpa using h2, by simpa using h3⟩

theorem parseDefault_ok_records (file : String) (src : ValueSource) (ks : List ℚ)
    (cs : List Color) (h : parseDefault file src = Except.ok (ks, cs)) :
    ∃ recs : List Record, src.items = recs.flatMap Record.defaultItems ∧
      ks = recs.map Record.key ∧ cs = recs.map Record.defaultColor := by
  obtain ⟨recs, h1, h2, h3⟩ := defaultLoop_ok_records file _ src 1 [] [] ks cs (by omega) h
  exact ⟨recs, h1, by simpa using h2, by simpa using h3⟩

theorem load_ok_parsed (m : ElevationColorMap) (env : Env) (name : String)
    (h : (m.load env name).2 = none) :
    ∃ text keys colors, env.openFile (fullName env name) = some text ∧
      (if hasCaseExtension name ".cpt" then
        parseCpt (fullName env name) ⟨scan ['\n'] text⟩
      else parseDefault (fullName env name) ⟨scan [',', '\n'] text⟩)
        = Except.ok (keys, colors) := by
  unfold ElevationColorMap.load at h
  cases hf : env.openFile (fullName env name) with
  | none => simp [hf] at h
  | some text =>
    simp only [hf] at h
    split at h
    · simp at h
    · rename_i keys colors hp
      exact ⟨text, keys, colors, rfl, hp⟩

/-- C16: let `load` open a file. If the file ends inside a record, that is
if what it delivers is a number of complete records followed by a non-empty
part of the fields of one more record (the key; in the default format the key
and its comma; then one, two or all three colour components) and nothing
else, `load` throws. And if `load` returns normally, what the file delivers
is a sequence of complete records, each ended by its newline. This holds in
the `.cpt` format and in the default format. -/
theorem C16_eof_only_at_record_boundary (m : ElevationColorMap) (env : Env) (name : String)
    (text : List Char) (hopen : env.openFile (fullName env name) = some text) :
    (hasCaseExtension name ".cpt" = true →
      (∀ (recs : List Record) (last : Record) (n : Nat), 0 < n → n ≤ 4 →
        scan ['\n'] text = recs.flatMap Record.cptItems ++ last.cptFields.take n →
        (m.load env name).2 ≠ none) ∧
      ((m.load env name).2 = none →
        ∃ recs : List Record, scan ['\n'] text = recs.flatMap Record.cptItems)) ∧
    (hasCaseExtension name ".cpt" = false →
      (∀ (recs : List Record) (last : Record) (n : Nat), 0 < n → n ≤ 5 →
        scan [',', '\n'] text = recs.flatMap Record.defaultItems ++ last.defaultFields.take n →
        (m.load env name).2 ≠ none) ∧
      ((m.load env name).2 = none →
        ∃ recs : List Record, scan [',', '\n'] text = recs.flatMap Record.defaultItems)) := by
  constructor
  · intro hx
    constructor
    · intro recs last n h0 h4 hs
      obtain ⟨e, he⟩ := parseCpt_truncated (fullName env name) recs last n h0 h4
      have := load_error_of_parse m env name text e hopen (by rw [hx, hs]; simpa using he)
      rw [this]; simp
    · intro hok
      obtain ⟨text2, keys, colors, hopen2, hp⟩ := load_ok_parsed m env name hok
      rw [hopen] at hopen2
      simp only [Option.some.injEq] at hopen2
      subst hopen2
      rw [hx] at hp
      simp only [if_true] at hp
      obtain ⟨recs, hitems, _, _⟩ := parseCpt_ok_records _ _ keys colors hp
      exact ⟨recs, hitems⟩
  · intro hx
    constructor
    · intro recs last n h0 h5 hs
      obtain ⟨e, he⟩ := parseDefault_truncated (fullName env name) recs last n h0 h5
      have := load_error_of_parse m env name text e hopen (by rw [hx, hs]; simpa using he)
      rw [this]; simp
    · intro hok
      obtain ⟨text2, keys, colors, hopen2, hp⟩ := load_ok_parsed m env name hok
      rw [hopen] at hopen2
      simp only [Option.some.injEq] at hopen2
      subst hopen2
      rw [hx] at hp
      simp only [Bool.false_eq_true, if_false] at hp
      obtain ⟨recs, hitems, _, _⟩ := parseDefault_ok_records _ _ keys colors hp
      exact ⟨recs, hitems⟩

/-- A `.cpt` file that ends after the first colour component of its second
record, and a file of the default format that ends after the comma of its
second record: both loads throw. -/
theorem C16_eof_only_at_record_boundary_witness :
    (sampleMap.load (sampleEnv "0 255 0 0\n1 0") "ramp.cpt").2 ≠ none ∧
    (sampleMap.load (sampleEnv "0,1 0 0\n1,") "ramp.txt").2 ≠ none :=
  ⟨((C16_eof_only_at_record_boundary sampleMap (sampleEnv "0 255 0 0\n1 0") "ramp.cpt"
      "0 255 0 0\n1 0".toList rfl).1 (by decide!)).1 [⟨0, 255, 0, 0⟩] ⟨1, 0, 0, 0⟩ 2
      (by decide) (by decide) (by decide!),
    ((C16_eof_only_at_record_boundary sampleMap (sampleEnv "0,1 0 0\n1,") "ramp.txt"
      "0,1 0 0\n1,".toList rfl).2 (by decide!)).1 [⟨0, 1, 0, 0⟩] ⟨1, 0, 0, 0⟩ 2
      (by decide) (by decide) (by decide!)⟩

/-! ## History independence and rotation -/

theorem length_backupColors (buf : List ℚ) : (backupColors buf).length = buf.length / 4 := by
  simp [backupColors]

theorem colorDataRead_backupColors (buf : List ℚ) (i j : Nat) (hi : i < buf.length / 4)
    (hj : j < 4) :
    ((backupColors buf).getD i default).get j = buf.getD (i * 4 + j) 0 := by
  have : (backupColors buf).getD i default
      = ⟨buf.getD (i * 4) 0, buf.getD (i * 4 + 1) 0, buf.getD (i * 4 + 2) 0,
          buf.getD (i * 4 + 3) 0⟩ := by
    simp [backupColors, List.getD_eq_getElem?_getD, List.getElem?_map, List.getElem?_range, hi]
  rw [this]
  interval_cases j <;> simp [Color.get]

theorem updateColorCycle_entries_read (m : ElevationColorMap) (t : ℚ) (backup : List ℚ)
    (hc : m.colorCyclingEnabled = true) (ho : m.originalColors = some backup) (k : Nat)
    (hk : k < m.getNumEntries * 4) :
    colorDataRead (m.updateColorCycle t).entries k
      = arrayRead backup
          (srcIndex (k / 4)
            (truncToInt (cyclePhase t m.colorCycleSpeed * (m.getNumEntries : ℚ)))
            m.getNumEntries * 4 + ((k % 4 : Nat) : Int)) := by
  rw [updateColorCycle_cycling m t backup hc ho]
  simp only
  have hspec := (cycleLoop_spec
    (fun i j => arrayRead backup
      (srcIndex i (truncToInt (cyclePhase t m.colorCycleSpeed * (m.getNumEntries : ℚ)))
        m.getNumEntries * 4 + (j : Int))) m.entries m.getNumEntries le_rfl).2 k
  simp only [hk, if_true] at hspec
  exact hspec

theorem updateColorCycle_twice (m : ElevationColorMap) (t1 t2 : ℚ) (backup : List ℚ)
    (hc : m.colorCyclingEnabled = true) (ho : m.originalColors = some backup) :
    (m.updateColorCycle t1).updateColorCycle t2 =
      { m.updateColorCycle t2 with
        textureVersion := (m.updateColorCycle t2).textureVersion + 1 } := by
  obtain ⟨ho1, hc1, hs1, hl1⟩ := updateColorCycle_frame m t1
  obtain ⟨ho2, hc2, hs2, hl2⟩ := updateColorCycle_frame m t2
  obtain ⟨ho12, hc12, hs12, hl12⟩ := updateColorCycle_frame (m.updateColorCycle t1) t2
  have hN1 : (m.updateColorCycle t1).getNumEntries = m.getNumEntries := hl1
  have hentries : ((m.updateColorCycle t1).updateColorCycle t2).entries
      = (m.updateColorCycle t2).entries := by
    apply colorData_ext _ _ (by rw [hl12, hl1, hl2])
    intro k hk
    rw [hl12, hl1] at hk
    rw [updateColorCycle_entries_read (m.updateColorCycle t1) t2 backup (by rw [hc1, hc])
        (by rw [ho1, ho]) k (by rw [hN1]; exact hk),
      updateColorCycle_entries_read m t2 backup hc ho k hk, hs1, hN1]
  have e1 := updateColorCycle_cycling (m.updateColorCycle t1) t2 backup (by rw [hc1, hc])
    (by rw [ho1, ho])
  have e2 := updateColorCycle_cycling m t2 backup hc ho
  have e3 := updateColorCycle_cycling m t1 backup hc ho
  have hrest : (m.updateColorCycle t1).texturePlaneEq = m.texturePlaneEq := by rw [e3]
  have hmin : (m.updateColorCycle t1).scalarRangeMin = m.scalarRangeMin := by rw [e3]
  have hmax : (m.updateColorCycle t1).scalarRangeMax = m.scalarRangeMax := by rw [e3]
  have hv : (m.updateColorCycle t1).textureVersion = m.textureVersion + 1 := by rw [e3]
  have hfield : ∀ a b : ElevationColorMap, a.entries = b.entries →
      a.scalarRangeMin = b.scalarRangeMin → a.scalarRangeMax = b.scalarRangeMax →
      a.textureVersion = b.textureVersion → a.texturePlaneEq = b.texturePlaneEq →
      a.colorCyclingEnabled = b.colorCyclingEnabled → a.colorCycleSpeed = b.colorCycleSpeed →
      a.colorCyclePhase = b.colorCyclePhase → a.originalColors = b.originalColors → a = b := by
    intro a b h1 h2 h3 h4 h5 h6 h7 h8 h9
    obtain ⟨⟨ae, amin, amax⟩, ⟨av⟩, _, _, _, _, _⟩ := a
    obtain ⟨⟨be, bmin, bmax⟩, ⟨bv⟩, _, _, _, _, _⟩ := b
    simp only at h1 h2 h3 h4 h5 h6 h7 h8 h9
    subst h1 h2 h3 h4 h5 h6 h7 h8 h9
    rfl
  apply hfield
  · exact hentries
  · show ((m.updateColorCycle t1).updateColorCycle t2).scalarRangeMin
      = (m.updateColorCycle t2).scalarRangeMin
    rw [e1, e2]; exact hmin
  · show ((m.updateColorCycle t1).updateColorCycle t2).scalarRangeMax
      = (m.updateColorCycle t2).scalarRangeMax
    rw [e1, e2]; exact hmax
  · show ((m.updateColorCycle t1).updateColorCycle t2).textureVersion
      = (m.updateColorCycle t2).textureVersion + 1
    rw [e1, e2]; show (m.updateColorCycle t1).textureVersion + 1 = m.textureVersion + 1 + 1
    rw [hv]
  · show ((m.updateColorCycle t1).updateColorCycle t2).texturePlaneEq
      = (m.updateColorCycle t2).texturePlaneEq
    rw [e1, e2]; exact hrest
  · show ((m.updateColorCycle t1).updateColorCycle t2).colorCyclingEnabled
      = (m.updateColorCycle t2).colorCyclingEnabled
    rw [hc12, hc1, hc2]
  · show ((m.updateColorCycle t1).updateColorCycle t2).colorCycleSpeed
      = (m.updateColorCycle t2).colorCycleSpeed
    rw [hs12, hs1, hs2]
  · show ((m.updateColorCycle t1).updateColorCycle t2).colorCyclePhase
      = (m.updateColorCycle t2).colorCyclePhase
    rw [e1, e2]; show cyclePhase t2 (m.updateColorCycle t1).colorCycleSpeed = _
    rw [hs1]
  · show ((m.updateColorCycle t1).updateColorCycle t2).originalColors
      = (m.updateColorCycle t2).originalColors
    rw [ho12, ho1, ho2]

theorem arrayRead_natCast (buf : List ℚ) (n : Nat) : arrayRead buf (n : Int) = buf.getD n 0 := by
  unfold arrayRead
  simp

theorem updateColorCycle_rotate (m : ElevationColorMap) (t : ℚ) (backup : List ℚ)
    (hc : m.colorCyclingEnabled = true) (ho : m.originalColors = some backup)
    (hlen : backup.length = m.getNumEntries * 4) :
    (m.updateColorCycle t).entries
      = (backupColors backup).rotate
          ⌊cyclePhase t m.colorCycleSpeed * (m.getNumEntries : ℚ)⌋.toNat := by
  obtain ⟨_, _, _, hl⟩ := updateColorCycle_frame m t
  have hN : m.entries.length = m.getNumEntries := rfl
  have hbl : (backupColors backup).length = m.getNumEntries := by
    rw [length_backupColors, hlen]; omega
  refine colorData_ext _ _ (by rw [hl, List.length_rotate, hbl]; rfl) ?_
  intro k hk
  rw [hl, hN] at hk
  rw [updateColorCycle_entries_read m t backup hc ho k hk, shift_eq_floor,
    srcIndex_eq_emod _ _ _ (shift_nonneg _ _ _)]
  set sh : Int := ⌊cyclePhase t m.colorCycleSpeed * (m.getNumEntries : ℚ)⌋ with hsh
  have hsh0 : 0 ≤ sh := shift_nonneg _ _ _
  have hcast : ((sh.toNat : Nat) : Int) = sh := Int.toNat_of_nonneg hsh0
  have hi : k / 4 < m.getNumEntries := by omega
  have hj : k % 4 < 4 := Nat.mod_lt _ (by omega)
  have hNpos : 0 < m.getNumEntries := by omega
  have hmod : (((k / 4 : Nat) : Int) + sh) % (m.getNumEntries : Int)
      = (((k / 4 + sh.toNat) % m.getNumEntries : Nat) : Int) := by
    rw [Int.ofNat_emod]
    push_cast
    rw [hcast]
  have hr : (k / 4 + sh.toNat) % m.getNumEntries < m.getNumEntries := Nat.mod_lt _ hNpos
  rw [hmod]
  have hidx : (((k / 4 + sh.toNat) % m.getNumEntries : Nat) : Int) * 4 + ((k % 4 : Nat) : Int)
      = (((k / 4 + sh.toNat) % m.getNumEntries * 4 + k % 4 : Nat) : Int) := by
    push_cast; rfl
  rw [hidx]
  rw [arrayRead_natCast]
  unfold colorDataRead
  have hrot : ((backupColors backup).rotate sh.toNat).getD (k / 4) default
      = (backupColors backup).getD ((k / 4 + sh.toNat) % m.getNumEntries) default := by
    have h1 : k / 4 < ((backupColors backup).rotate sh.toNat).length := by
      rw [List.length_rotate, hbl]; exact hi
    have h2 : (k / 4 + sh.toNat) % m.getNumEntries < (backupColors backup).length := by
      rw [hbl]; exact hr
    rw [List.getD_eq_getElem?_getD, List.getD_eq_getElem?_getD,
      List.getElem?_eq_getElem h1, List.getElem?_eq_getElem h2, List.getElem_rotate]
    simp only [hbl, Option.getD_some]
  rw [hrot, colorDataRead_backupColors backup _ _ (by rw [hlen]; omega) hj]

/-! ## Index safety -/

theorem truncToInt_nonneg (x : ℚ) (h : 0 ≤ x) : 0 ≤ truncToInt x := by
  unfold truncToInt
  simp only [h, if_true]
  exact Int.floor_nonneg.mpr h

theorem srcIndex_bounds (i : Nat) (shift : Int) (N : Nat) (hs : 0 ≤ shift) (hi : i < N) :
    0 ≤ srcIndex i shift N ∧ srcIndex i shift N < (N : Int) := by
  rw [srcIndex_eq_emod i shift N hs]
  have hN : (0 : Int) < (N : Int) := by omega
  exact ⟨Int.emod_nonneg _ (by omega), Int.emod_lt_of_pos _ hN⟩

/-- C20: in a reachable state with a backup present (cycling enabled or not),
for every animation time whose phase `p` is not negative, in particular when
it lies in `[0,1)`: the shift `int(p*N)` is not negative; the backup and the
live buffer both hold `N*4` floats; for
every entry `i < N` and channel `j < 4` the source index
`((i+shift)%N)*4+j` and the destination index `i*4+j` of `updateColorCycle`
lie in `[0, N*4)`; and every index `i < N*4` of the copy loops of
`setColorCycling` lies within the backup (the existing one and a newly
allocated one) and within the live buffer. -/
theorem C20_cycle_indices_in_bounds (m : ElevationColorMap) (backup : List ℚ) (t : ℚ)
    (hreach : Reachable m) (ho : m.originalColors = some backup)
    (h0 : 0 ≤ cyclePhase t m.colorCycleSpeed) :
    0 ≤ truncToInt (cyclePhase t m.colorCycleSpeed * (m.getNumEntries : ℚ)) ∧
    backup.length = m.getNumEntries * 4 ∧
    (colorDataList m.entries).length = m.getNumEntries * 4 ∧
    (∀ i j : Nat, i < m.getNumEntries → j < 4 →
      0 ≤ srcIndex i (truncToInt (cyclePhase t m.colorCycleSpeed * (m.getNumEntries : ℚ)))
            m.getNumEntries * 4 + (j : Int) ∧
      srcIndex i (truncToInt (cyclePhase t m.colorCycleSpeed * (m.getNumEntries : ℚ)))
            m.getNumEntries * 4 + (j : Int) < (backup.length : Int) ∧
      i * 4 + j < (colorDataList m.entries).length) ∧
    (∀ i : Nat, i < m.getNumEntries * 4 →
      i < backup.length ∧ i < (List.replicate (m.getNumEntries * 4) (0 : ℚ)).length ∧
      i < (colorDataList m.entries).length) := by
  have hinv := cycleInv_of_reachable m hreach
  unfold CycleInv at hinv
  rw [ho] at hinv
  have hlen := hinv.1
  have hlive : (colorDataList m.entries).length = m.getNumEntries * 4 :=
    length_colorDataList m.entries
  have hshift : 0 ≤ truncToInt (cyclePhase t m.colorCycleSpeed * (m.getNumEntries : ℚ)) :=
    truncToInt_nonneg _ (mul_nonneg h0 (by positivity))
  refine ⟨hshift, hlen, hlive, ?_, ?_⟩
  · intro i j hi hj
    obtain ⟨hs0, hs1⟩ := srcIndex_bounds i _ m.getNumEntries hshift hi
    rw [hlen, hlive]
    refine ⟨by omega, ?_, by omega⟩
    push_cast
    omega
  · intro i hi
    rw [hlen, hlive, List.length_replicate]
    exact ⟨hi, hi, hi⟩

theorem sampleEnabled_reachable : Reachable sampleEnabled :=
  Reachable.setColorCycling _ true 2 (Reachable.construct _ _ _ _ _ _ sample_construct)

/-- The object built by the constructor from a three line `.cpt` file and
then enabled at speed 2 is reachable and has a backup of twelve floats; at
time 1/5 (phase 2/5, shift 1) the indices used for entry 2, channel 3 are
within bounds. -/
theorem C20_cycle_indices_in_bounds_witness :
    0 ≤ srcIndex 2
          (truncToInt (cyclePhase (1 / 5) sampleEnabled.colorCycleSpeed *
            (sampleEnabled.getNumEntries : ℚ)))
          sampleEnabled.getNumEntries * 4 + ((3 : Nat) : Int) ∧
    srcIndex 2
          (truncToInt (cyclePhase (1 / 5) sampleEnabled.colorCycleSpeed *
            (sampleEnabled.getNumEntries : ℚ)))
          sampleEnabled.getNumEntries * 4 + ((3 : Nat) : Int)
        < (([1, 0, 0, 1, 0, 1, 0, 1, 0, 0, 1, 1] : List ℚ).length : Int) ∧
    2 * 4 + 3 < (colorDataList sampleEnabled.entries).length :=
  (C20_cycle_indices_in_bounds sampleEnabled [1, 0, 0, 1, 0, 1, 0, 1, 0, 0, 1, 1] (1 / 5)
    sampleEnabled_reachable (by decide!) (cyclePhase_nonneg _ _)).2.2.2.1 2 3
    (by decide) (by decide)

/-! ## The cached texture image -/

theorem entries_load_of_version_eq (m : ElevationColorMap) (env : Env) (name : String)
    (h : (m.load env name).1.textureVersion = m.textureVersion) :
    (m.load env name).1.entries = m.entries := by
  cases hr : (m.load env name).2 with
  | none =>
    have := version_load_ok m env name hr
    omega
  | some e => rw [load_fails m env name e hr]

theorem entries_setColorCycling_of_version_eq (m : ElevationColorMap) (enabled : Bool)
    (speed : ℚ)
    (h : (m.setColorCycling enabled speed).textureVersion = m.textureVersion) :
    (m.setColorCycling enabled speed).entries = m.entries := by
  cases enabled
  · by_cases hr : m.colorCyclingEnabled = true ∧ m.originalColors ≠ none
    · have := version_setColorCycling_disable_restore m speed hr.1 hr.2
      omega
    · rw [setColorCycling_disable_noRestore m speed]
      by_cases hc : m.colorCyclingEnabled = true
      · right
        by_contra ho
        exact hr ⟨hc, ho⟩
      · left
        simpa using hc
  · cases hc : m.colorCyclingEnabled
    · cases ho : m.originalColors with
      | none => rw [setColorCycling_enable_idle_none m speed hc ho]
      | some backup => rw [setColorCycling_enable_some m speed backup ho]
    · rw [setColorCycling_enable_cycling m speed hc]

theorem entries_updateColorCycle_of_version_eq (m : ElevationColorMap) (t : ℚ)
    (h : (m.updateColorCycle t).textureVersion = m.textureVersion) :
    (m.updateColorCycle t).entries = m.entries := by
  by_cases hr : m.colorCyclingEnabled = true ∧ m.originalColors ≠ none
  · have := version_updateColorCycle_cycling m t hr.1 hr.2
    omega
  · rw [updateColorCycle_idle m t]
    by_cases hc : m.colorCyclingEnabled = true
    · right
      by_contra ho
      exact hr ⟨hc, ho⟩
    · left
      simpa using hc

theorem cache_step (stamp0 : Nat) (m m2 : ElevationColorMap) (d : DataItem)
    (hinv : (d.textureObjectVersion = stamp0 ∨ d.textureObjectVersion ≤ m.textureVersion) ∧
      stamp0 ≠ m.textureVersion ∧
      (d.textureObjectVersion = m.textureVersion → d.texImage = m.entries))
    (hle : m.textureVersion ≤ m2.textureVersion)
    (hsame : m2.textureVersion = m.textureVersion → m2.entries = m.entries)
    (hne : stamp0 ≠ m2.textureVersion) :
    (d.textureObjectVersion = stamp0 ∨ d.textureObjectVersion ≤ m2.textureVersion) ∧
      stamp0 ≠ m2.textureVersion ∧
      (d.textureObjectVersion = m2.textureVersion → d.texImage = m2.entries) := by
  obtain ⟨h1, _, h3⟩ := hinv
  refine ⟨?_, hne, ?_⟩
  · rcases h1 with h1 | h1
    · exact Or.inl h1
    · exact Or.inr (le_trans h1 hle)
  · intro heq
    rcases h1 with h1 | h1
    · exact absurd (h1.symm.trans heq) hne
    · have hv : m2.textureVersion = m.textureVersion := by omega
      rw [hsame hv]
      exact h3 (by omega)

theorem cache_inv_of_reachable (stamp0 : Nat) (w : World) (h : WorldReachable stamp0 w) :
    (w.dataItem.textureObjectVersion = stamp0 ∨
        w.dataItem.textureObjectVersion ≤ w.map.textureVersion) ∧
      stamp0 ≠ w.map.textureVersion ∧
      (w.dataItem.textureObjectVersion = w.map.textureVersion →
        w.dataItem.texImage = w.map.entries) := by
  induction h with
  | construct colorMap textureObject texturePlaneEq env name m dataItem h hstamp hne =>
    refine ⟨Or.inl hstamp, hne, fun heq => ?_⟩
    exact absurd (hstamp.symm.trans heq) hne
  | load w env name _ hne ih =>
    exact cache_step stamp0 w.map _ w.dataItem ih (version_le_load _ _ _)
      (entries_load_of_version_eq _ _ _) hne
  | setColorCycling w enabled speed _ hne ih =>
    exact cache_step stamp0 w.map _ w.dataItem ih (version_le_setColorCycling _ _ _)
      (entries_setColorCycling_of_version_eq _ _ _) hne
  | updateColorCycle w t _ hne ih =>
    exact cache_step stamp0 w.map _ w.dataItem ih (version_le_updateColorCycle _ _)
      (entries_updateColorCycle_of_version_eq _ _) hne
  | bindTexture w _ ih =>
    obtain ⟨h1, h2, h3⟩ := ih
    unfold World.bindTexture
    by_cases hs : w.dataItem.textureObjectVersion = w.map.textureVersion
    · rw [bindTexture_current _ _ hs]
      exact ⟨h1, h2, h3⟩
    · rw [bindTexture_stale _ _ hs]
      exact ⟨Or.inr le_rfl, h2, fun _ => rfl⟩

/-- C17: in every world reachable through the constructor, `load`,
`setColorCycling`, `updateColorCycle` and `bindTexture`, for a context whose
initial stamp differs from every live version: when the context's stamp
equals the live `textureVersion`, the texture image of the context equals the
live colour buffer. Equivalently, a `load`, `setColorCycling` or
`updateColorCycle` that leaves `textureVersion` as it was leaves the live
colour buffer as it was. -/
theorem C17_cached_texture_is_current (stamp0 : Nat) (w : World)
    (h : WorldReachable stamp0 w) :
    (w.dataItem.textureObjectVersion = w.map.textureVersion →
      w.dataItem.texImage = w.map.entries) ∧
    (∀ env name, (w.map.load env name).1.textureVersion = w.map.textureVersion →
      (w.map.load env name).1.entries = w.map.entries) ∧
    (∀ enabled speed,
      (w.map.setColorCycling enabled speed).textureVersion = w.map.textureVersion →
      (w.map.setColorCycling enabled speed).entries = w.map.entries) ∧
    (∀ t, (w.map.updateColorCycle t).textureVersion = w.map.textureVersion →
      (w.map.updateColorCycle t).entries = w.map.entries) :=
  ⟨(cache_inv_of_reachable stamp0 w h).2.2,
    fun env name => entries_load_of_version_eq w.map env name,
    fun enabled speed => entries_setColorCycling_of_version_eq w.map enabled speed,
    fun t => entries_updateColorCycle_of_version_eq w.map t⟩

theorem sampleWorld_reachable : WorldReachable 0 sampleWorld := by
  apply WorldReachable.bindTexture
  have h0 : WorldReachable 0 ⟨sampleLoaded, freshItem⟩ :=
    WorldReachable.construct _ _ _ _ _ _ freshItem sample_construct rfl (by decide)
  have h1 := WorldReachable.bindTexture _ h0
  have h2 := WorldReachable.setColorCycling _ true 2 h1 (by decide!)
  exact WorldReachable.updateColorCycle _ (1 / 5) h2 (by decide!)

/-- In the sample world the stamp equals the live version, and the texture
image is the live (rotated) colour buffer. -/
theorem C17_cached_texture_is_current_witness :
    sampleWorld.dataItem.textureObjectVersion = sampleWorld.map.textureVersion ∧
    sampleWorld.dataItem.texImage = sampleWorld.map.entries :=
  ⟨by decide!, (C17_cached_texture_is_current 0 sampleWorld sampleWorld_reachable).1
    (by decide!)⟩

/-! ## Binary32 arithmetic: phase and texture plane -/

theorem updateColorCycleWith_id (m : ElevationColorMap) (t : ℚ) :
    m.updateColorCycleWith id t = m.updateColorCycle t := rfl

theorem calcTexturePlaneWith_id (m : ElevationColorMap) (basePlane : Plane) :
    m.calcTexturePlaneWith id basePlane = m.calcTexturePlane basePlane := rfl

/-- C12: evaluation of `updateColorCycle` in binary32 arithmetic on a cycling
object with 256 entries and speed 2 at the animation time `-2^-31`. Time and
speed are binary32 values; their product is `-2^-30`, its floor is `-1`, and
the difference `1 - 2^-30` is not a binary32 value: the phase stored is `1`,
not `t*s - floor(t*s)` and not below 1, and the shift is 256, the entry
count. In exact arithmetic the phase would be `1 - 2^-30`. -/
theorem C12_phase_rounds_up_to_one :
    sampleCycling256.colorCyclingEnabled = true ∧
    sampleCycling256.originalColors ≠ none ∧
    sampleCycling256.getNumEntries = 256 ∧
    roundF32 (-(1 / 2 ^ 31)) = -(1 / 2 ^ 31) ∧
    roundF32 sampleCycling256.colorCycleSpeed = sampleCycling256.colorCycleSpeed ∧
    -(1 / 2 ^ 31 : ℚ) * sampleCycling256.colorCycleSpeed
        - ((⌊-(1 / 2 ^ 31 : ℚ) * sampleCycling256.colorCycleSpeed⌋ : Int) : ℚ)
      = 1 - 1 / 2 ^ 30 ∧
    (sampleCycling256.updateColorCycleWith roundF32 (-(1 / 2 ^ 31))).colorCyclePhase = 1 ∧
    ¬ (sampleCycling256.updateColorCycleWith roundF32 (-(1 / 2 ^ 31))).colorCyclePhase < 1 ∧
    truncToInt
        (roundF32
          ((sampleCycling256.updateColorCycleWith roundF32 (-(1 / 2 ^ 31))).colorCyclePhase
            * roundF32 (sampleCycling256.getNumEntries : ℚ)))
      = 256 ∧
    (sampleCycling256.updateColorCycle (-(1 / 2 ^ 31))).colorCyclePhase = 1 - 1 / 2 ^ 30 := by
  refine ⟨by decide!, by decide!, by decide!, by decide!, by decide!, by decide!, by decide!,
    by decide!, by decide!, by decide!⟩

theorem roundHalfEven_nonneg (q : ℚ) (h : 0 ≤ q) : 0 ≤ roundHalfEven q := by
  have hf : 0 ≤ ⌊q⌋ := Int.floor_nonneg.mpr h
  unfold roundHalfEven
  split
  · exact hf
  · split
    · omega
    · split <;> omega

theorem roundHalfEven_le (q : ℚ) (M : Int) (h : q < (M : ℚ)) : roundHalfEven q ≤ M := by
  have hf : ⌊q⌋ < M := Int.floor_lt.mpr h
  unfold roundHalfEven
  split
  · omega
  · split
    · omega
    · split <;> omega

theorem binadeDown_pos (fuel : Nat) (x : ℚ) (h : x < 1) : 1 ≤ binadeDown (fuel + 1) x := by
  unfold binadeDown
  have : ¬ (1 ≤ x) := not_le.mpr h
  simp [this]

theorem roundF32_unit_interval (x : ℚ) (h0 : 0 ≤ x) (h1 : x < 1) :
    0 ≤ roundF32 x ∧ roundF32 x ≤ 1 := by
  unfold roundF32
  by_cases hx : x = 0
  · simp [hx]
  · simp only [hx, if_false]
    have hb : binade32 x = -((binadeDown 126 x : Nat) : Int) := by
      unfold binade32
      have : ¬ (1 ≤ |x|) := by rw [abs_of_nonneg h0]; exact not_le.mpr h1
      rw [if_neg this, abs_of_nonneg h0]
    have hk : 1 ≤ binadeDown 126 x := binadeDown_pos 125 x h1
    set k := binadeDown 126 x with hkdef
    rw [hb]
    have hu : (2 : ℚ) ^ (-(k : Int) - 23) = ((2 : ℚ) ^ (k + 23))⁻¹ := by
      have : (-(k : Int) - 23) = -((k + 23 : Nat) : Int) := by push_cast; ring
      rw [this, zpow_neg, zpow_natCast]
    rw [hu]
    have hpos : (0 : ℚ) < (2 : ℚ) ^ (k + 23) := by positivity
    have hq0 : 0 ≤ x / ((2 : ℚ) ^ (k + 23))⁻¹ := by positivity
    have hqM : x / ((2 : ℚ) ^ (k + 23))⁻¹ < (((2 : Int) ^ (k + 23) : Int) : ℚ) := by
      rw [div_inv_eq_mul]
      push_cast
      calc x * 2 ^ (k + 23) < 1 * 2 ^ (k + 23) := mul_lt_mul_of_pos_right h1 hpos
        _ = 2 ^ (k + 23) := one_mul _
    have hr0 := roundHalfEven_nonneg _ hq0
    have hrM := roundHalfEven_le _ _ hqM
    constructor
    · have : (0 : ℚ) ≤ (roundHalfEven (x / ((2 : ℚ) ^ (k + 23))⁻¹) : ℚ) := by exact_mod_cast hr0
      positivity
    · have hle : (roundHalfEven (x / ((2 : ℚ) ^ (k + 23))⁻¹) : ℚ) ≤ (2 : ℚ) ^ (k + 23) := by
        have : ((roundHalfEven (x / ((2 : ℚ) ^ (k + 23))⁻¹) : Int) : ℚ)
            ≤ (((2 : Int) ^ (k + 23) : Int) : ℚ) := by exact_mod_cast hrM
        simpa using this
      calc (roundHalfEven (x / ((2 : ℚ) ^ (k + 23))⁻¹) : ℚ) * ((2 : ℚ) ^ (k + 23))⁻¹
          ≤ (2 : ℚ) ^ (k + 23) * ((2 : ℚ) ^ (k + 23))⁻¹ :=
            mul_le_mul_of_nonneg_right hle (by positivity)
        _ = 1 := mul_inv_cancel₀ (ne_of_gt hpos)

theorem updateColorCycleWith_phase (fl : ℚ → ℚ) (m : ElevationColorMap) (t : ℚ)
    (backup : List ℚ) (hc : m.colorCyclingEnabled = true)
    (ho : m.originalColors = some backup) :
    (m.updateColorCycleWith fl t).colorCyclePhase
      = fl (fl (t * m.colorCycleSpeed) - ((⌊fl (t * m.colorCycleSpeed)⌋ : Int) : ℚ)) := by
  unfold ElevationColorMap.updateColorCycleWith
  simp [hc, ho]

theorem phaseF32_bounds (m : ElevationColorMap) (t : ℚ) (backup : List ℚ)
    (hc : m.colorCyclingEnabled = true) (ho : m.originalColors = some backup) :
    0 ≤ (m.updateColorCycleWith roundF32 t).colorCyclePhase ∧
    (m.updateColorCycleWith roundF32 t).colorCyclePhase ≤ 1 := by
  rw [updateColorCycleWith_phase roundF32 m t backup hc ho]
  exact roundF32_unit_interval _ (Int.fract_nonneg _) (Int.fract_lt_one _)

/-! ## The cycle update in binary32 arithmetic -/

theorem roundF32_nonneg (x : ℚ) (h : 0 ≤ x) : 0 ≤ roundF32 x := by
  unfold roundF32
  split
  · exact le_refl 0
  · have hq : 0 ≤ x / (2 : ℚ) ^ (binade32 x - 23) := by positivity
    have hr : (0 : ℚ) ≤ (roundHalfEven (x / (2 : ℚ) ^ (binade32 x - 23)) : ℚ) := by
      exact_mod_cast roundHalfEven_nonneg _ hq
    positivity

theorem cyclePhaseF32_bounds (t s : ℚ) : 0 ≤ cyclePhaseF32 t s ∧ cyclePhaseF32 t s ≤ 1 :=
  roundF32_unit_interval _ (Int.fract_nonneg _) (Int.fract_lt_one _)

theorem shiftF32_nonneg (p : ℚ) (N : Nat) (hp : 0 ≤ p) : 0 ≤ shiftF32 p N := by
  unfold shiftF32
  apply truncToInt_nonneg
  apply roundF32_nonneg
  exact mul_nonneg hp (roundF32_nonneg _ (by positivity))

theorem updateColorCycleF32_idle (m : ElevationColorMap) (t : ℚ)
    (h : m.colorCyclingEnabled = false ∨ m.originalColors = none) :
    m.updateColorCycleF32 t = some m := by
  unfold ElevationColorMap.updateColorCycleF32
  rcases h with h | h
  · cases ho : m.originalColors <;> simp [h]
  · simp [h]

theorem updateColorCycleF32_overflow (m : ElevationColorMap) (t : ℚ) (backup : List ℚ)
    (hc : m.colorCyclingEnabled = true) (ho : m.originalColors = some backup)
    (hfin : ¬ finiteF32 (t * m.colorCycleSpeed)) :
    m.updateColorCycleF32 t = none := by
  unfold ElevationColorMap.updateColorCycleF32
  simp [hc, ho, F32.ofRat, hfin]

theorem updateColorCycleF32_finite (m : ElevationColorMap) (t : ℚ) (backup : List ℚ)
    (hc : m.colorCyclingEnabled = true) (ho : m.originalColors = some backup)
    (hfin : finiteF32 (t * m.colorCycleSpeed)) :
    m.updateColorCycleF32 t = some (m.updateColorCycleWith roundF32 t) := by
  unfold ElevationColorMap.updateColorCycleF32 ElevationColorMap.updateColorCycleWith
  simp [hc, ho, F32.ofRat, hfin]

theorem updateColorCycleWith_cycling (fl : ℚ → ℚ) (m : ElevationColorMap) (t : ℚ)
    (backup : List ℚ) (hc : m.colorCyclingEnabled = true)
    (ho : m.originalColors = some backup) :
    m.updateColorCycleWith fl t =
      { m with
        colorCyclePhase :=
          fl (fl (t * m.colorCycleSpeed) - ((⌊fl (t * m.colorCycleSpeed)⌋ : Int) : ℚ))
        entries :=
          forLoop m.getNumEntries
            (fun i colorData =>
              forLoop 4
                (fun j colorData =>
                  colorDataWrite colorData (i * 4 + j)
                    (arrayRead backup
                      (srcIndex i
                        (truncToInt
                          (fl (fl (fl (t * m.colorCycleSpeed)
                              - ((⌊fl (t * m.colorCycleSpeed)⌋ : Int) : ℚ))
                            * fl (m.getNumEntries : ℚ))))
                        m.getNumEntries * 4 + (j : Int))))
                colorData)
            m.entries
        textureVersion := m.textureVersion + 1 } := by
  unfold ElevationColorMap.updateColorCycleWith
  simp [hc, ho]

theorem updateColorCycleWith_frame (fl : ℚ → ℚ) (m : ElevationColorMap) (t : ℚ)
    (backup : List ℚ) (hc : m.colorCyclingEnabled = true)
    (ho : m.originalColors = some backup) :
    (m.updateColorCycleWith fl t).originalColors = some backup ∧
    (m.updateColorCycleWith fl t).colorCyclingEnabled = true ∧
    (m.updateColorCycleWith fl t).colorCycleSpeed = m.colorCycleSpeed ∧
    (m.updateColorCycleWith fl t).entries.length = m.entries.length ∧
    (m.updateColorCycleWith fl t).textureVersion = m.textureVersion + 1 ∧
    (m.updateColorCycleWith fl t).texturePlaneEq = m.texturePlaneEq ∧
    (m.updateColorCycleWith fl t).scalarRangeMin = m.scalarRangeMin ∧
    (m.updateColorCycleWith fl t).scalarRangeMax = m.scalarRangeMax := by
  rw [updateColorCycleWith_cycling fl m t backup hc ho]
  refine ⟨ho, hc, rfl, ?_, rfl, rfl, rfl, rfl⟩
  exact (cycleLoop_spec _ m.entries m.getNumEntries le_rfl).1

theorem updateColorCycleF32_phase (m : ElevationColorMap) (t : ℚ) (backup : List ℚ)
    (hc : m.colorCyclingEnabled = true) (ho : m.originalColors = some backup) :
    (m.updateColorCycleWith roundF32 t).colorCyclePhase = cyclePhaseF32 t m.colorCycleSpeed := by
  rw [updateColorCycleWith_cycling roundF32 m t backup hc ho]
  rfl

theorem updateColorCycleF32_entries_read (m : ElevationColorMap) (t : ℚ) (backup : List ℚ)
    (hc : m.colorCyclingEnabled = true) (ho : m.originalColors = some backup) (k : Nat)
    (hk : k < m.getNumEntries * 4) :
    colorDataRead (m.updateColorCycleWith roundF32 t).entries k
      = arrayRead backup
          (srcIndex (k / 4) (shiftF32 (cyclePhaseF32 t m.colorCycleSpeed) m.getNumEntries)
            m.getNumEntries * 4 + ((k % 4 : Nat) : Int)) := by
  rw [updateColorCycleWith_cycling roundF32 m t backup hc ho]
  simp only
  have hspec := (cycleLoop_spec
    (fun i j => arrayRead backup
      (srcIndex i (shiftF32 (cyclePhaseF32 t m.colorCycleSpeed) m.getNumEntries)
        m.getNumEntries * 4 + (j : Int))) m.entries m.getNumEntries le_rfl).2 k
  simp only [hk, if_true] at hspec
  exact hspec

theorem updateColorCycleF32_twice (m : ElevationColorMap) (t1 t2 : ℚ) (backup : List ℚ)
    (hc : m.colorCyclingEnabled = true) (ho : m.originalColors = some backup) :
    (m.updateColorCycleWith roundF32 t1).updateColorCycleWith roundF32 t2 =
      { m.updateColorCycleWith roundF32 t2 with
        textureVersion := (m.updateColorCycleWith roundF32 t2).textureVersion + 1 } := by
  obtain ⟨ho1, hc1, hs1, hl1, hv1, hp1, hmin1, hmax1⟩ :=
    updateColorCycleWith_frame roundF32 m t1 backup hc ho
  obtain ⟨ho2, hc2, hs2, hl2, hv2, hp2, hmin2, hmax2⟩ :=
    updateColorCycleWith_frame roundF32 m t2 backup hc ho
  obtain ⟨ho12, hc12, hs12, hl12, hv12, hp12, hmin12, hmax12⟩ :=
    updateColorCycleWith_frame roundF32 (m.updateColorCycleWith roundF32 t1) t2 backup hc1 ho1
  have hN1 : (m.updateColorCycleWith roundF32 t1).getNumEntries = m.getNumEntries := hl1
  have hentries : ((m.updateColorCycleWith roundF32 t1).updateColorCycleWith roundF32 t2).entries
      = (m.updateColorCycleWith roundF32 t2).entries := by
    apply colorData_ext _ _ (by rw [hl12, hl1, hl2])
    intro k hk
    rw [hl12, hl1] at hk
    rw [updateColorCycleF32_entries_read (m.updateColorCycleWith roundF32 t1) t2 backup hc1 ho1
        k (by rw [hN1]; exact hk),
      updateColorCycleF32_entries_read m t2 backup hc ho k hk, hs1, hN1]
  have hphase : ((m.updateColorCycleWith roundF32 t1).updateColorCycleWith roundF32 t2).colorCyclePhase
      = (m.updateColorCycleWith roundF32 t2).colorCyclePhase := by
    rw [updateColorCycleF32_phase _ t2 backup hc1 ho1, updateColorCycleF32_phase m t2 backup hc ho,
      hs1]
  have hfield : ∀ a b : ElevationColorMap, a.entries = b.entries →
      a.scalarRangeMin = b.scalarRangeMin → a.scalarRangeMax = b.scalarRangeMax →
      a.textureVersion = b.textureVersion → a.texturePlaneEq = b.texturePlaneEq →
      a.colorCyclingEnabled = b.colorCyclingEnabled → a.colorCycleSpeed = b.colorCycleSpeed →
      a.colorCyclePhase = b.colorCyclePhase → a.originalColors = b.originalColors → a = b := by
    intro a b h1 h2 h3 h4 h5 h6 h7 h8 h9
    obtain ⟨⟨ae, amin, amax⟩, ⟨av⟩, _, _, _, _, _⟩ := a
    obtain ⟨⟨be, bmin, bmax⟩, ⟨bv⟩, _, _, _, _, _⟩ := b
    simp only at h1 h2 h3 h4 h5 h6 h7 h8 h9
    subst h1 h2 h3 h4 h5 h6 h7 h8 h9
    rfl
  apply hfield
  · exact hentries
  · exact hmin12.trans (hmin1.trans hmin2.symm)
  · exact hmax12.trans (hmax1.trans hmax2.symm)
  · show _ = (m.updateColorCycleWith roundF32 t2).textureVersion + 1
    rw [hv12, hv1, hv2]
  · exact hp12.trans (hp1.trans hp2.symm)
  · exact hc12.trans hc2.symm
  · exact hs12.trans (hs1.trans hs2.symm)
  · exact hphase
  · exact ho12.trans ho2.symm

theorem updateColorCycleF32_rotate (m : ElevationColorMap) (t : ℚ) (backup : List ℚ)
    (hc : m.colorCyclingEnabled = true) (ho : m.originalColors = some backup)
    (hlen : backup.length = m.getNumEntries * 4) :
    (m.updateColorCycleWith roundF32 t).entries
      = (backupColors backup).rotate
          (shiftF32 (cyclePhaseF32 t m.colorCycleSpeed) m.getNumEntries).toNat := by
  obtain ⟨_, _, _, hl, _⟩ := updateColorCycleWith_frame roundF32 m t backup hc ho
  have hN : m.entries.length = m.getNumEntries := rfl
  have hbl : (backupColors backup).length = m.getNumEntries := by
    rw [length_backupColors, hlen]; omega
  refine colorData_ext _ _ (by rw [hl, List.length_rotate, hbl]; rfl) ?_
  intro k hk
  rw [hl, hN] at hk
  have hsh0 : 0 ≤ shiftF32 (cyclePhaseF32 t m.colorCycleSpeed) m.getNumEntries :=
    shiftF32_nonneg _ _ (cyclePhaseF32_bounds _ _).1
  rw [updateColorCycleF32_entries_read m t backup hc ho k hk, srcIndex_eq_emod _ _ _ hsh0]
  set sh : Int := shiftF32 (cyclePhaseF32 t m.colorCycleSpeed) m.getNumEntries with hsh
  have hcast : ((sh.toNat : Nat) : Int) = sh := Int.toNat_of_nonneg hsh0
  have hi : k / 4 < m.getNumEntries := by omega
  have hj : k % 4 < 4 := Nat.mod_lt _ (by omega)
  have hNpos : 0 < m.getNumEntries := by omega
  have hmod : (((k / 4 : Nat) : Int) + sh) % (m.getNumEntries : Int)
      = (((k / 4 + sh.toNat) % m.getNumEntries : Nat) : Int) := by
    rw [Int.ofNat_emod]
    push_cast
    rw [hcast]
  have hr : (k / 4 + sh.toNat) % m.getNumEntries < m.getNumEntries := Nat.mod_lt _ hNpos
  rw [hmod]
  have hidx : (((k / 4 + sh.toNat) % m.getNumEntries : Nat) : Int) * 4 + ((k % 4 : Nat) : Int)
      = (((k / 4 + sh.toNat) % m.getNumEntries * 4 + k % 4 : Nat) : Int) := by
    push_cast; rfl
  rw [hidx]
  rw [arrayRead_natCast]
  unfold colorDataRead
  have hrot : ((backupColors backup).rotate sh.toNat).getD (k / 4) default
      = (backupColors backup).getD ((k / 4 + sh.toNat) % m.getNumEntries) default := by
    have h1 : k / 4 < ((backupColors backup).rotate sh.toNat).length := by
      rw [List.length_rotate, hbl]; exact hi
    have h2 : (k / 4 + sh.toNat) % m.getNumEntries < (backupColors backup).length := by
      rw [hbl]; exact hr
    rw [List.getD_eq_getElem?_getD, List.getD_eq_getElem?_getD,
      List.getElem?_eq_getElem h1, List.getElem?_eq_getElem h2, List.getElem_rotate]
    simp only [hbl, Option.getD_some]
  rw [hrot, colorDataRead_backupColors backup _ _ (by rw [hlen]; omega) hj]

/-! ## Scaling a binary32 phase by 256 is exact -/

theorem roundHalfEven_intCast (n : Int) : roundHalfEven (n : ℚ) = n := by
  unfold roundHalfEven
  simp

theorem binadeDown_lt_one (fuel : Nat) :
    ∀ (y : ℚ), 0 ≤ y → 1 ≤ binadeDown fuel y → y * 2 ^ (binadeDown fuel y - 1) < 1 := by
  induction fuel with
  | zero => intro y _ h; simp [binadeDown] at h
  | succ f ih =>
    intro y hy h
    unfold binadeDown at h ⊢
    by_cases h1 : 1 ≤ y
    · simp [h1] at h
    · simp only [h1, if_false] at h ⊢
      simp only [Nat.add_sub_cancel]
      have hy1 : y < 1 := not_le.mp h1
      by_cases hk : 1 ≤ binadeDown f (2 * y)
      · have := ih (2 * y) (by linarith) hk
        have e : binadeDown f (2 * y) = (binadeDown f (2 * y) - 1) + 1 := by omega
        rw [e, pow_succ]
        linarith
      · have e : binadeDown f (2 * y) = 0 := by omega
        rw [e]
        simpa using hy1

theorem binadeUp_le (fuel : Nat) :
    ∀ (z : ℚ) (j : Nat), z < 2 ^ (j + 1) → binadeUp fuel z ≤ j := by
  induction fuel with
  | zero => intro z j _; simp [binadeUp]
  | succ f ih =>
    intro z j hz
    unfold binadeUp
    by_cases h2 : z < 2
    · simp [h2]
    · simp only [h2, if_false]
      have hz2 : 2 ≤ z := not_lt.mp h2
      cases j with
      | zero => simp at hz; linarith
      | succ j =>
        have := ih (z / 2) j (by rw [div_lt_iff₀ (by norm_num)]; rw [pow_succ] at hz; linarith)
        omega

theorem binadeDown_ge (fuel : Nat) :
    ∀ (z : ℚ) (j : Nat), j < fuel → z * 2 ^ j < 1 → j + 1 ≤ binadeDown fuel z := by
  induction fuel with
  | zero => intro z j h _; omega
  | succ f ih =>
    intro z j hj hz
    unfold binadeDown
    have hz1 : ¬ (1 ≤ z) := by
      intro h1
      have : (1 : ℚ) ≤ 2 ^ j := one_le_pow₀ (by norm_num)
      have : 1 * 1 ≤ z * 2 ^ j := mul_le_mul h1 this (by norm_num) (by linarith)
      linarith
    simp only [hz1, if_false]
    cases j with
    | zero => omega
    | succ j =>
      have := ih (2 * z) j (by omega) (by rw [pow_succ] at hz; linarith)
      omega

theorem binadeDown_le_fuel (fuel : Nat) : ∀ (y : ℚ), binadeDown fuel y ≤ fuel := by
  induction fuel with
  | zero => intro y; simp [binadeDown]
  | succ f ih =>
    intro y
    unfold binadeDown
    split
    · omega
    · have := ih (2 * y); omega

theorem binade32_le (x : ℚ) (j : Int) (hj : -126 ≤ j) (hx : |x| < (2 : ℚ) ^ (j + 1)) :
    binade32 x ≤ j := by
  unfold binade32
  by_cases h1 : 1 ≤ |x|
  · rw [if_pos h1]
    have hj0 : 0 ≤ j := by
      by_contra hneg
      have hjn : j + 1 ≤ 0 := by omega
      have : (2 : ℚ) ^ (j + 1) ≤ 1 := zpow_le_one_of_nonpos₀ (by norm_num) hjn
      linarith
    obtain ⟨jn, rfl⟩ := Int.eq_ofNat_of_zero_le hj0
    have hx2 : |x| < (2 : ℚ) ^ (jn + 1) := by
      have : ((jn : Int) + 1) = ((jn + 1 : Nat) : Int) := by push_cast; rfl
      rw [this, zpow_natCast] at hx
      exact hx
    have := binadeUp_le 127 |x| jn hx2
    exact_mod_cast this
  · rw [if_neg h1]
    by_cases hj0 : 0 ≤ j
    · have : (0 : Int) ≤ (binadeDown 126 |x| : Int) := Int.natCast_nonneg _
      omega
    · obtain ⟨i, hi⟩ : ∃ i : Nat, j = -((i : Int) + 1) := ⟨(-j - 1).toNat, by omega⟩
      subst hi
      have hi126 : i < 126 := by omega
      have hx2 : |x| * 2 ^ i < 1 := by
        have e : (-((i : Int) + 1) + 1) = -((i : Nat) : Int) := by ring
        rw [e, zpow_neg, zpow_natCast] at hx
        have hpos : (0 : ℚ) < 2 ^ i := by positivity
        calc |x| * 2 ^ i < (2 ^ i)⁻¹ * 2 ^ i := mul_lt_mul_of_pos_right hx hpos
          _ = 1 := inv_mul_cancel₀ (ne_of_gt hpos)
      have := binadeDown_ge 126 |x| i hi126 hx2
      have h2 : ((i : Int) + 1) ≤ (binadeDown 126 |x| : Int) := by exact_mod_cast this
      omega

/-- A multiple `n * 2^a` of a power of two that has at most 24 significant
bits and is not below the subnormal unit `2^-149` is a binary32 value: the
rounding leaves it as it is. -/
theorem roundF32_exact (x : ℚ) (n a : Int) (hx : x = (n : ℚ) * (2 : ℚ) ^ a) (ha : -149 ≤ a)
    (hlt : |x| < (2 : ℚ) ^ (a + 24)) : roundF32 x = x := by
  unfold roundF32
  by_cases h0 : x = 0
  · rw [if_pos h0, h0]
  · rw [if_neg h0]
    have he : binade32 x ≤ a + 23 := binade32_le x (a + 23) (by omega) (by
      have : a + 23 + 1 = a + 24 := by ring
      rw [this]; exact hlt)
    generalize binade32 x = e at he ⊢
    obtain ⟨d, hd⟩ : ∃ d : Nat, a - (e - 23) = (d : Int) := ⟨(a - (e - 23)).toNat, by omega⟩
    have h2 : (2 : ℚ) ≠ 0 := by norm_num
    have hq : x / (2 : ℚ) ^ (e - 23) = ((n * 2 ^ d : Int) : ℚ) := by
      rw [hx, mul_div_assoc, ← zpow_sub₀ h2, hd, zpow_natCast]
      push_cast
      rfl
    rw [hq, roundHalfEven_intCast]
    push_cast
    rw [mul_assoc, ← zpow_natCast, ← hd, ← zpow_add₀ h2]
    have : a - (e - 23) + (e - 23) = a := by ring
    rw [this, hx]

theorem roundF32_unit_scaled (y : ℚ) (h0 : 0 ≤ y) (h1 : y < 1) :
    roundF32 (roundF32 y * 256) = roundF32 y * 256 := by
  by_cases hy : y = 0
  · subst hy
    have : roundF32 0 = 0 := by simp [roundF32]
    rw [this]; simp [roundF32]
  · have hb : binade32 y = -((binadeDown 126 y : Nat) : Int) := by
      unfold binade32
      have : ¬ (1 ≤ |y|) := by rw [abs_of_nonneg h0]; exact not_le.mpr h1
      rw [if_neg this, abs_of_nonneg h0]
    have hk1 : 1 ≤ binadeDown 126 y := binadeDown_pos 125 y h1
    have hk2 : binadeDown 126 y ≤ 126 := binadeDown_le_fuel 126 y
    have hlt := binadeDown_lt_one 126 y h0 hk1
    set k := binadeDown 126 y with hkdef
    have h2 : (2 : ℚ) ≠ 0 := by norm_num
    have hp : roundF32 y
        = (roundHalfEven (y / (2 : ℚ) ^ (-(k : Int) - 23)) : ℚ) * (2 : ℚ) ^ (-(k : Int) - 23) := by
      unfold roundF32
      rw [if_neg hy, hb]
    set n := roundHalfEven (y / (2 : ℚ) ^ (-(k : Int) - 23)) with hn
    have hq : y / (2 : ℚ) ^ (-(k : Int) - 23) = y * 2 ^ (k - 1) * 2 ^ 24 := by
      have e : (-(k : Int) - 23) = -(((k - 1 + 24 : Nat) : Int)) := by
        have : ((k - 1 + 24 : Nat) : Int) = (k : Int) + 23 := by omega
        rw [this]; ring
      rw [e, zpow_neg, zpow_natCast, div_inv_eq_mul, pow_add, mul_assoc]
    have hn0 : 0 ≤ n := roundHalfEven_nonneg _ (by rw [hq]; positivity)
    have hnle : n ≤ 2 ^ 24 := by
      apply roundHalfEven_le
      rw [hq]
      push_cast
      calc y * 2 ^ (k - 1) * 2 ^ 24 < 1 * 2 ^ 24 :=
            mul_lt_mul_of_pos_right hlt (by positivity)
        _ = 2 ^ 24 := one_mul _
    have hz : roundF32 y * 256 = (n : ℚ) * (2 : ℚ) ^ (-(k : Int) - 15) := by
      rw [hp]
      have e : (-(k : Int) - 15) = (-(k : Int) - 23) + 8 := by ring
      rw [e, zpow_add₀ h2]
      norm_num
      ring
    have hupos : (0 : ℚ) < (2 : ℚ) ^ (-(k : Int) - 15) := by positivity
    have hzabs : |roundF32 y * 256| = (n : ℚ) * (2 : ℚ) ^ (-(k : Int) - 15) := by
      rw [hz, abs_of_nonneg]
      have : (0 : ℚ) ≤ (n : ℚ) := by exact_mod_cast hn0
      positivity
    rcases lt_or_eq_of_le hnle with hlt24 | heq24
    · apply roundF32_exact _ n (-(k : Int) - 15) hz (by omega)
      rw [hzabs]
      have e : (-(k : Int) - 15 + 24) = 24 + (-(k : Int) - 15) := by ring
      rw [e, zpow_add₀ h2]
      have : (n : ℚ) < (2 : ℚ) ^ (24 : Int) := by
        have h : (n : ℚ) < ((2 ^ 24 : Int) : ℚ) := by exact_mod_cast hlt24
        norm_num at h ⊢
        exact h
      exact mul_lt_mul_of_pos_right this hupos
    · have hz2 : roundF32 y * 256 = ((2 ^ 23 : Int) : ℚ) * (2 : ℚ) ^ (-(k : Int) - 15 + 1) := by
        rw [hz, heq24, zpow_add₀ h2]
        push_cast
        ring
      apply roundF32_exact _ (2 ^ 23) (-(k : Int) - 15 + 1) hz2 (by omega)
      rw [hzabs, heq24]
      have e : (-(k : Int) - 15 + 1 + 24) = 25 + (-(k : Int) - 15) := by ring
      rw [e, zpow_add₀ h2]
      apply mul_lt_mul_of_pos_right _ hupos
      push_cast
      norm_num

/-- For products within the finite range the cycle update in binary32
arithmetic does not depend on earlier updates: `updateColorCycle(t1)`
followed by `updateColorCycle(t2)` leaves the object of `updateColorCycle(t2)`
alone but for one more step of `textureVersion`, a repeated update leaves the
same colours, and the live buffer is the backup, read as entries, rotated by
the shift, so every colour occurs in it as often as in the backup. -/
theorem updateColorCycleF32_history (m : ElevationColorMap) (backup : List ℚ) (t1 t2 : ℚ)
    (hc : m.colorCyclingEnabled = true) (ho : m.originalColors = some backup)
    (hlen : backup.length = m.getNumEntries * 4)
    (h1 : finiteF32 (t1 * m.colorCycleSpeed)) (h2 : finiteF32 (t2 * m.colorCycleSpeed)) :
    ∃ a b : ElevationColorMap,
      m.updateColorCycleF32 t1 = some a ∧ m.updateColorCycleF32 t2 = some b ∧
      a.updateColorCycleF32 t2 = some { b with textureVersion := b.textureVersion + 1 } ∧
      a.updateColorCycleF32 t1 = some { a with textureVersion := a.textureVersion + 1 } ∧
      a.entries
        = (backupColors backup).rotate (shiftF32 a.colorCyclePhase m.getNumEntries).toNat ∧
      ∀ c : Color, a.entries.count c = (backupColors backup).count c := by
  obtain ⟨ho1, hc1, hs1, _⟩ := updateColorCycleWith_frame roundF32 m t1 backup hc ho
  have hrot := updateColorCycleF32_rotate m t1 backup hc ho hlen
  refine ⟨m.updateColorCycleWith roundF32 t1, m.updateColorCycleWith roundF32 t2,
    updateColorCycleF32_finite m t1 backup hc ho h1,
    updateColorCycleF32_finite m t2 backup hc ho h2, ?_, ?_, ?_, ?_⟩
  · rw [updateColorCycleF32_finite _ t2 backup hc1 ho1 (by rw [hs1]; exact h2),
      updateColorCycleF32_twice m t1 t2 backup hc ho]
  · rw [updateColorCycleF32_finite _ t1 backup hc1 ho1 (by rw [hs1]; exact h1),
      updateColorCycleF32_twice m t1 t1 backup hc ho]
  · rw [updateColorCycleF32_phase m t1 backup hc ho]
    exact hrot
  · intro c
    rw [hrot]
    exact (List.rotate_perm _ _).count_eq c

/-- C2, as stated, fails: on the cycling object with eleven entries and speed
1, at the animation time `13726813/2^24`, a binary32 value, the update stores
that time as the phase. The exact product of the phase with 11 is
`9 - 2^-24`, so the floor of phase times `N` is 8; the binary32 product is 9,
the shift of the code is 9, and live entry 0 holds the colour of backup entry
9, red `9/16`, where backup entry `(0 + 8) mod 11` has red `8/16`. -/
theorem C2_shift_is_rounded_product :
    sampleCycling11.colorCyclingEnabled = true ∧
    sampleCycling11.originalColors = some (colorDataList sampleRamp11.entries) ∧
    sampleCycling11.getNumEntries = 11 ∧
    sampleCycling11.colorCycleSpeed = 1 ∧
    roundF32 (13726813 / 2 ^ 24) = 13726813 / 2 ^ 24 ∧
    sampleCycling11.updateColorCycleF32 (13726813 / 2 ^ 24)
      = some (sampleCycling11.updateColorCycleWith roundF32 (13726813 / 2 ^ 24)) ∧
    (sampleCycling11.updateColorCycleWith roundF32 (13726813 / 2 ^ 24)).colorCyclePhase
      = 13726813 / 2 ^ 24 ∧
    (13726813 / 2 ^ 24 : ℚ) * 11 = 9 - 1 / 2 ^ 24 ∧
    ⌊(sampleCycling11.updateColorCycleWith roundF32 (13726813 / 2 ^ 24)).colorCyclePhase
        * (sampleCycling11.getNumEntries : ℚ)⌋ = 8 ∧
    shiftF32 (13726813 / 2 ^ 24) 11 = 9 ∧
    colorDataRead
        (sampleCycling11.updateColorCycleWith roundF32 (13726813 / 2 ^ 24)).entries (0 * 4 + 0)
      = 9 / 16 ∧
    (colorDataList sampleRamp11.entries)[(((0 : Int) + 8) % 11).toNat * 4 + 0]? = some (8 / 16) ∧
    (colorDataList sampleRamp11.entries)[(((0 : Int) + 9) % 11).toNat * 4 + 0]? = some (9 / 16) ∧
    (colorDataList sampleRamp11.entries)[(((0 : Int) +
          ⌊(sampleCycling11.updateColorCycleWith roundF32 (13726813 / 2 ^ 24)).colorCyclePhase
            * (sampleCycling11.getNumEntries : ℚ)⌋) %
            (sampleCycling11.getNumEntries : Int)).toNat * 4 + 0]?
      ≠ some (colorDataRead
          (sampleCycling11.updateColorCycleWith roundF32 (13726813 / 2 ^ 24)).entries
          (0 * 4 + 0)) := by
  refine ⟨by decide!, by decide!, by decide!, by decide!, by decide!, by decide!, by decide!,
    by decide!, by decide!, by decide!, by decide!, by decide!, by decide!, by decide!⟩

/-- C2, amended: with cycling enabled, a backup of `N*4` floats present,
`N ≥ 1` entries and an animation time whose product with the speed is within
the finite range of binary32, `updateColorCycle(t)` returns, and with
`shift = int(phase*float(N))` computed from the new phase as the code does,
in binary32 arithmetic, the shift is not negative and every live entry `i`
equals, in all four channels, the backup entry `(i + shift) mod N`; the backup
and the entry count are unchanged. The shift is the floor of phase times `N`
whenever the binary32 product is the exact one, and so for every phase when
`N` is 256, the entry count `load` asks for. -/
theorem C2_update_is_shifted_backup_binary32 (m : ElevationColorMap) (backup : List ℚ) (t : ℚ)
    (hc : m.colorCyclingEnabled = true) (ho : m.originalColors = some backup)
    (hlen : backup.length = m.getNumEntries * 4) (hN : 1 ≤ m.getNumEntries)
    (hfin : finiteF32 (t * m.colorCycleSpeed)) :
    ∃ m2 : ElevationColorMap,
      m.updateColorCycleF32 t = some m2 ∧
      m2.originalColors = some backup ∧
      m2.getNumEntries = m.getNumEntries ∧
      0 ≤ shiftF32 m2.colorCyclePhase m.getNumEntries ∧
      (∀ i j, i < m.getNumEntries → j < 4 →
        backup[(((i : Int) + shiftF32 m2.colorCyclePhase m.getNumEntries) %
              (m.getNumEntries : Int)).toNat * 4 + j]?
          = some (colorDataRead m2.entries (i * 4 + j))) ∧
      (roundF32 (m2.colorCyclePhase * roundF32 (m.getNumEntries : ℚ))
          = m2.colorCyclePhase * (m.getNumEntries : ℚ) →
        shiftF32 m2.colorCyclePhase m.getNumEntries
          = ⌊m2.colorCyclePhase * (m.getNumEntries : ℚ)⌋) ∧
      (m.getNumEntries = 256 →
        shiftF32 m2.colorCyclePhase m.getNumEntries
          = ⌊m2.colorCyclePhase * (m.getNumEntries : ℚ)⌋) := by
  obtain ⟨ho1, _, _, hl1, _⟩ := updateColorCycleWith_frame roundF32 m t backup hc ho
  have hph := updateColorCycleF32_phase m t backup hc ho
  have hp0 : 0 ≤ cyclePhaseF32 t m.colorCycleSpeed := (cyclePhaseF32_bounds _ _).1
  have hsh0 : 0 ≤ shiftF32 (cyclePhaseF32 t m.colorCycleSpeed) m.getNumEntries :=
    shiftF32_nonneg _ _ hp0
  refine ⟨m.updateColorCycleWith roundF32 t, updateColorCycleF32_finite m t backup hc ho hfin,
    ho1, hl1, ?_, ?_, ?_, ?_⟩
  · rw [hph]; exact hsh0
  · intro i j hi hj
    rw [hph]
    have e1 : (i * 4 + j) / 4 = i := by omega
    have e2 : (i * 4 + j) % 4 = j := by omega
    have e3 : i * 4 + j < m.getNumEntries * 4 := by omega
    rw [updateColorCycleF32_entries_read m t backup hc ho (i * 4 + j) e3, e1, e2,
      srcIndex_eq_emod _ _ _ hsh0]
    set sh : Int := shiftF32 (cyclePhaseF32 t m.colorCycleSpeed) m.getNumEntries with hsh
    have hNpos : (0 : Int) < (m.getNumEntries : Int) := by omega
    have hm0 : 0 ≤ ((i : Int) + sh) % (m.getNumEntries : Int) := Int.emod_nonneg _ (by omega)
    have hm1 : ((i : Int) + sh) % (m.getNumEntries : Int) < (m.getNumEntries : Int) :=
      Int.emod_lt_of_pos _ hNpos
    have hk : ((((i : Int) + sh) % (m.getNumEntries : Int)).toNat : Int)
        = ((i : Int) + sh) % (m.getNumEntries : Int) := Int.toNat_of_nonneg hm0
    have hb : (((i : Int) + sh) % (m.getNumEntries : Int)).toNat * 4 + j < backup.length := by
      rw [hlen]; omega
    rw [arrayRead_in_range backup _ j hb, hk]
  · intro hexact
    rw [hph] at hexact ⊢
    unfold shiftF32 truncToInt
    rw [hexact, if_pos (mul_nonneg hp0 (by positivity))]
  · intro h256
    rw [hph, h256]
    have hr : roundF32 ((256 : Nat) : ℚ) = 256 := by decide!
    have hc256 : ((256 : Nat) : ℚ) = 256 := by norm_num
    have hex : roundF32 (cyclePhaseF32 t m.colorCycleSpeed * 256)
        = cyclePhaseF32 t m.colorCycleSpeed * 256 :=
      roundF32_unit_scaled _ (Int.fract_nonneg _) (Int.fract_lt_one _)
    unfold shiftF32 truncToInt
    rw [hr, hc256, hex, if_pos (mul_nonneg hp0 (by norm_num))]

/-- The cycling object with eleven entries at time 1/5: the product with the
speed 1 is within the finite range, the update returns, and every live entry
`i` is the backup entry `(i + shift) mod 11` for the shift of the code. The
object with 256 entries after `setColorCycling(true, 2)` at time 1/3: the
update returns and the shift is the floor of phase times 256. -/
theorem C2_update_is_shifted_backup_binary32_witness :
    (∃ m2 : ElevationColorMap,
      sampleCycling11.updateColorCycleF32 (1 / 5) = some m2 ∧
      m2.originalColors = some (colorDataList sampleRamp11.entries) ∧
      m2.getNumEntries = sampleCycling11.getNumEntries ∧
      0 ≤ shiftF32 m2.colorCyclePhase sampleCycling11.getNumEntries ∧
      (∀ i j, i < sampleCycling11.getNumEntries → j < 4 →
        (colorDataList sampleRamp11.entries)[(((i : Int) +
              shiftF32 m2.colorCyclePhase sampleCycling11.getNumEntries) %
              (sampleCycling11.getNumEntries : Int)).toNat * 4 + j]?
          = some (colorDataRead m2.entries (i * 4 + j))) ∧
      (roundF32 (m2.colorCyclePhase * roundF32 (sampleCycling11.getNumEntries : ℚ))
          = m2.colorCyclePhase * (sampleCycling11.getNumEntries : ℚ) →
        shiftF32 m2.colorCyclePhase sampleCycling11.getNumEntries
          = ⌊m2.colorCyclePhase * (sampleCycling11.getNumEntries : ℚ)⌋) ∧
      (sampleCycling11.getNumEntries = 256 →
        shiftF32 m2.colorCyclePhase sampleCycling11.getNumEntries
          = ⌊m2.colorCyclePhase * (sampleCycling11.getNumEntries : ℚ)⌋)) ∧
    (∃ m2 : ElevationColorMap,
      sampleEnabled256.updateColorCycleF32 (1 / 3) = some m2 ∧
      shiftF32 m2.colorCyclePhase sampleEnabled256.getNumEntries
        = ⌊m2.colorCyclePhase * (sampleEnabled256.getNumEntries : ℚ)⌋) :=
  ⟨C2_update_is_shifted_backup_binary32 sampleCycling11 (colorDataList sampleRamp11.entries)
      (1 / 5) (by decide!) (by decide!) (by decide!) (by decide!) (by decide!),
    (C2_update_is_shifted_backup_binary32 sampleEnabled256
      (colorDataList sampleRamp256.entries) (1 / 3) (by decide!)
      (enable_from_idle sampleRamp256 2 (by decide!) (by decide!)).2.1
      (by rw [length_colorDataList]; decide!) (by decide!) (by decide!)).imp
      (fun _ h => ⟨h.1, h.2.2.2.2.2.2 (by decide!)⟩)⟩

/-- C19: evaluation of `updateColorCycle` in binary32 arithmetic on the
object with 256 entries after `setColorCycling(true, 2)`, at the animation
time `2^127`. Time and speed are binary32 values; their product `2^128` is
beyond the finite range, so the product held in `colorCyclePhase` is an
infinity, the phase is NaN and the conversion `int(NaN)` that gives the shift
is undefined: the call leaves no defined phase and no defined live buffer, so
none that is a rotation of the backup. An update at the time 1/4 returns; the
update at `2^127` after it is undefined all the same. -/
theorem C19_update_overflow_is_undefined :
    sampleEnabled256.colorCyclingEnabled = true ∧
    sampleEnabled256.originalColors = some (colorDataList sampleRamp256.entries) ∧
    sampleEnabled256.getNumEntries = 256 ∧
    sampleEnabled256.colorCycleSpeed = 2 ∧
    roundF32 (2 ^ 127) = 2 ^ 127 ∧
    roundF32 sampleEnabled256.colorCycleSpeed = sampleEnabled256.colorCycleSpeed ∧
    (2 : ℚ) ^ 127 * sampleEnabled256.colorCycleSpeed = 2 ^ 128 ∧
    ¬ finiteF32 ((2 : ℚ) ^ 127 * sampleEnabled256.colorCycleSpeed) ∧
    F32.ofRat ((2 : ℚ) ^ 127 * sampleEnabled256.colorCycleSpeed) = F32.infinity false ∧
    sampleEnabled256.updateColorCycleF32 (2 ^ 127) = none ∧
    (sampleEnabled256.updateColorCycleF32 (1 / 4)).isSome = true ∧
    ((sampleEnabled256.updateColorCycleF32 (1 / 4)).bind
      (fun a => a.updateColorCycleF32 (2 ^ 127))) = none := by
  refine ⟨by decide!, (enable_from_idle sampleRamp256 2 (by decide!) (by decide!)).2.1,
    by decide!, by decide!, by decide!, by decide!, by decide!, by decide!, by decide!,
    by decide!, by decide!, by decide!⟩

/-! ## The parse loops with the conversions of the source -/

theorem ofRat_one : F32.ofRat 1 = F32.finite 1 := by decide!

theorem ofRat_zero : F32.ofRat 0 = F32.finite 0 := by decide!

theorem ofRat_finite (x : ℚ) (h : finiteF32 x) : F32.ofRat x = F32.finite (roundF32 x) := by
  unfold F32.ofRat
  rw [if_pos h]

theorem cptLoopF32_eof (file : String) (fuel line : Nat) (keys : List ℚ)
    (colors : List Color32) :
    cptLoopF32 file fuel ⟨[]⟩ line keys colors = Except.ok (keys, colors) := by
  cases fuel <;> simp [cptLoopF32, ValueSource.eof]

theorem defaultLoopF32_eof (file : String) (fuel line : Nat) (keys : List ℚ)
    (colors : List Color32) :
    defaultLoopF32 file fuel ⟨[]⟩ line keys colors = Except.ok (keys, colors) := by
  cases fuel <;> simp [defaultLoopF32, ValueSource.eof]

theorem cptLoopF32_record (file : String) (fuel line : Nat) (keys : List ℚ)
    (colors : List Color32) (rec : Record) (rest : List Token) :
    cptLoopF32 file (fuel + 1) ⟨rec.cptItems ++ rest⟩ line keys colors
      = cptLoopF32 file fuel ⟨rest⟩ (line + 1) (keys ++ [rec.key])
          (colors ++ [rec.cptColorF32]) := by
  simp [cptLoopF32, ValueSource.eof, ValueSource.readNumber, ValueSource.isLiteral,
    Record.cptItems, Record.cptFields, Record.cptColorF32, bind, Except.bind, ofRat_one]

theorem defaultLoopF32_record (file : String) (fuel line : Nat) (keys : List ℚ)
    (colors : List Color32) (rec : Record) (rest : List Token) :
    defaultLoopF32 file (fuel + 1) ⟨rec.defaultItems ++ rest⟩ line keys colors
      = defaultLoopF32 file fuel ⟨rest⟩ (line + 1) (keys ++ [rec.key])
          (colors ++ [rec.defaultColorF32]) := by
  simp [defaultLoopF32, ValueSource.eof, ValueSource.readNumber, ValueSource.isLiteral,
    Record.defaultItems, Record.defaultFields, Record.defaultColorF32, bind, Except.bind,
    ofRat_one]

theorem cptLoopF32_records (file : String) (recs : List Record) :
    ∀ (fuel line : Nat) (keys : List ℚ) (colors : List Color32) (rest : List Token),
      recs.length ≤ fuel →
      cptLoopF32 file fuel ⟨recs.flatMap Record.cptItems ++ rest⟩ line keys colors
        = cptLoopF32 file (fuel - recs.length) ⟨rest⟩ (line + recs.length)
            (keys ++ recs.map Record.key) (colors ++ recs.map Record.cptColorF32) := by
  induction recs with
  | nil => intro fuel line keys colors rest _; simp
  | cons rec recs ih =>
    intro fuel line keys colors rest hfuel
    obtain ⟨f, rfl⟩ : ∃ f, fuel = f + 1 := ⟨fuel - 1, by simp at hfuel; omega⟩
    simp only [List.flatMap_cons, List.append_assoc]
    rw [cptLoopF32_record, ih f _ _ _ _ (by simp at hfuel; omega)]
    simp only [List.length_cons, List.map_cons, List.append_assoc, List.singleton_append]
    congr 1
    · omega
    · omega

theorem defaultLoopF32_records (file : String) (recs : List Record) :
    ∀ (fuel line : Nat) (keys : List ℚ) (colors : List Color32) (rest : List Token),
      recs.length ≤ fuel →
      defaultLoopF32 file fuel ⟨recs.flatMap Record.defaultItems ++ rest⟩ line keys colors
        = defaultLoopF32 file (fuel - recs.length) ⟨rest⟩ (line + recs.length)
            (keys ++ recs.map Record.key) (colors ++ recs.map Record.defaultColorF32) := by
  induction recs with
  | nil => intro fuel line keys colors rest _; simp
  | cons rec recs ih =>
    intro fuel line keys colors rest hfuel
    obtain ⟨f, rfl⟩ : ∃ f, fuel = f + 1 := ⟨fuel - 1, by simp at hfuel; omega⟩
    simp only [List.flatMap_cons, List.append_assoc]
    rw [defaultLoopF32_record, ih f _ _ _ _ (by simp at hfuel; omega)]
    simp only [List.length_cons, List.map_cons, List.append_assoc, List.singleton_append]
    congr 1
    · omega
    · omega

theorem parseCptF32_records (file : String) (recs : List Record) :
    parseCptF32 file ⟨recs.flatMap Record.cptItems⟩
      = Except.ok (recs.map Record.key, recs.map Record.cptColorF32) := by
  unfold parseCptF32
  have := cptLoopF32_records file recs ((recs.flatMap Record.cptItems).length + 1) 1 [] [] []
    (by rw [length_flatMap_cptItems]; omega)
  simp only [List.append_nil, List.nil_append] at this
  rw [this, cptLoopF32_eof]

theorem parseDefaultF32_records (file : String) (recs : List Record) :
    parseDefaultF32 file ⟨recs.flatMap Record.defaultItems⟩
      = Except.ok (recs.map Record.key, recs.map Record.defaultColorF32) := by
  unfold parseDefaultF32
  have := defaultLoopF32_records file recs ((recs.flatMap Record.defaultItems).length + 1) 1
    [] [] [] (by rw [length_flatMap_defaultItems]; omega)
  simp only [List.append_nil, List.nil_append] at this
  rw [this, defaultLoopF32_eof]

theorem roundF64_unit_interval (x : ℚ) (h0 : 0 ≤ x) (h1 : x < 1) :
    0 ≤ roundF64 x ∧ roundF64 x ≤ 1 := by
  unfold roundF64
  by_cases hx : x = 0
  · simp [hx]
  · simp only [hx, if_false]
    have hb : binade64 x = -((binadeDown 1022 x : Nat) : Int) := by
      unfold binade64
      have : ¬ (1 ≤ |x|) := by rw [abs_of_nonneg h0]; exact not_le.mpr h1
      rw [if_neg this, abs_of_nonneg h0]
    set k := binadeDown 1022 x with hkdef
    rw [hb]
    have hu : (2 : ℚ) ^ (-(k : Int) - 52) = ((2 : ℚ) ^ (k + 52))⁻¹ := by
      have : (-(k : Int) - 52) = -((k + 52 : Nat) : Int) := by push_cast; ring
      rw [this, zpow_neg, zpow_natCast]
    rw [hu]
    have hpos : (0 : ℚ) < (2 : ℚ) ^ (k + 52) := by positivity
    have hq0 : 0 ≤ x / ((2 : ℚ) ^ (k + 52))⁻¹ := by positivity
    have hqM : x / ((2 : ℚ) ^ (k + 52))⁻¹ < (((2 : Int) ^ (k + 52) : Int) : ℚ) := by
      rw [div_inv_eq_mul]
      push_cast
      calc x * 2 ^ (k + 52) < 1 * 2 ^ (k + 52) := mul_lt_mul_of_pos_right h1 hpos
        _ = 2 ^ (k + 52) := one_mul _
    have hr0 := roundHalfEven_nonneg _ hq0
    have hrM := roundHalfEven_le _ _ hqM
    constructor
    · have : (0 : ℚ) ≤ (roundHalfEven (x / ((2 : ℚ) ^ (k + 52))⁻¹) : ℚ) := by exact_mod_cast hr0
      positivity
    · have hle : (roundHalfEven (x / ((2 : ℚ) ^ (k + 52))⁻¹) : ℚ) ≤ (2 : ℚ) ^ (k + 52) := by
        have : ((roundHalfEven (x / ((2 : ℚ) ^ (k + 52))⁻¹) : Int) : ℚ)
            ≤ (((2 : Int) ^ (k + 52) : Int) : ℚ) := by exact_mod_cast hrM
        simpa using this
      calc (roundHalfEven (x / ((2 : ℚ) ^ (k + 52))⁻¹) : ℚ) * ((2 : ℚ) ^ (k + 52))⁻¹
          ≤ (2 : ℚ) ^ (k + 52) * ((2 : ℚ) ^ (k + 52))⁻¹ :=
            mul_le_mul_of_nonneg_right hle (by positivity)
        _ = 1 := mul_inv_cancel₀ (ne_of_gt hpos)

theorem finiteF32_of_unit (x : ℚ) (h0 : 0 ≤ x) (h1 : x ≤ 1) : finiteF32 x := by
  unfold finiteF32
  rw [abs_of_nonneg h0]
  have : (1 : ℚ) < 2 ^ 128 - 2 ^ 103 := by norm_num
  linarith

theorem cptComponent_finite (c : ℚ) (h0 : 0 ≤ c) (h1 : c ≤ 255) :
    F32.ofRat (roundF64 (c / 255)) = F32.finite (roundF32 (roundF64 (c / 255))) := by
  apply ofRat_finite
  rcases eq_or_lt_of_le h1 with h | h
  · rw [h]
    have : roundF64 (255 / 255) = 1 := by decide!
    rw [this]
    exact finiteF32_of_unit 1 (by norm_num) le_rfl
  · have hq0 : 0 ≤ c / 255 := by positivity
    have hq1 : c / 255 < 1 := by rw [div_lt_one (by norm_num)]; exact h
    obtain ⟨ha, hb⟩ := roundF64_unit_interval _ hq0 hq1
    exact finiteF32_of_unit _ ha hb

/-- C8, as stated, fails: the text `"0 100 0 0\n"` is one record `key r g b`;
the `.cpt` branch of `load` reads it and stores for the component 100 the
quotient `100/255` as a `double`, `7064470003718425/2^54`, converted to
`GLfloat`, `13158601/2^25`, which is not `100/255`. -/
theorem C8_component_is_rounded :
    scan ['\n'] "0 100 0 0\n".toList = [(⟨0, 100, 0, 0⟩ : Record)].flatMap Record.cptItems ∧
    roundF64 (100 / 255) = 7064470003718425 / 2 ^ 54 ∧
    roundF32 (7064470003718425 / 2 ^ 54) = 13158601 / 2 ^ 25 ∧
    parseCptF32 "/etc/SARndbox/ramp.cpt" ⟨scan ['\n'] "0 100 0 0\n".toList⟩
      = Except.ok ([0],
          [⟨F32.finite (13158601 / 2 ^ 25), F32.finite 0, F32.finite 0, F32.finite 1⟩]) ∧
    (13158601 / 2 ^ 25 : ℚ) ≠ 100 / 255 ∧
    parseCptF32 "/etc/SARndbox/ramp.cpt" ⟨scan ['\n'] "0 100 0 0\n".toList⟩
      ≠ Except.ok ([0],
          [⟨F32.finite (100 / 255), F32.finite (0 / 255), F32.finite (0 / 255),
            F32.finite 1⟩]) := by
  have hs : scan ['\n'] "0 100 0 0\n".toList
      = [(⟨0, 100, 0, 0⟩ : Record)].flatMap Record.cptItems := by decide!
  have hp : parseCptF32 "/etc/SARndbox/ramp.cpt" ⟨scan ['\n'] "0 100 0 0\n".toList⟩
      = Except.ok ([0],
          [⟨F32.finite (13158601 / 2 ^ 25), F32.finite 0, F32.finite 0, F32.finite 1⟩]) := by
    rw [hs, parseCptF32_records]
    exact congrArg Except.ok (by decide!)
  refine ⟨hs, by decide!, by decide!, hp, by decide!, ?_⟩
  rw [hp]
  intro h
  exact absurd (Except.ok.inj h) (by decide!)

/-- C8, amended: for every list of records, the `.cpt` branch of `load`,
reading the items `key r g b` newline of each record in turn, succeeds and
returns one key and one colour per record, in file order; the key is the
number read, and each colour component is the quotient by 255 computed as a
`double` and converted to `GLfloat`, alpha 1. For a component `c` in
`[0,255]` that is the finite binary32 value nearest to the `double` quotient,
and it is `c/255` itself where `c/255` is a binary32 value. The text
`"0 255 0 0\n1 0 255 0\n"` is such an input and yields keys 0 and 1 with
colours `(1,0,0,1)` and `(0,1,0,1)`. -/
theorem C8_cpt_records_parse_binary32 (file : String) (recs : List Record) :
    parseCptF32 file ⟨recs.flatMap Record.cptItems⟩
        = Except.ok (recs.map Record.key, recs.map Record.cptColorF32) ∧
    (recs.map Record.key).length = recs.length ∧
    (recs.map Record.cptColorF32).length = recs.length ∧
    (∀ rec : Record, rec.cptColorF32
        = ⟨F32.ofRat (roundF64 (rec.r / 255)), F32.ofRat (roundF64 (rec.g / 255)),
            F32.ofRat (roundF64 (rec.b / 255)), F32.finite 1⟩) ∧
    (∀ c : ℚ, 0 ≤ c → c ≤ 255 →
      F32.ofRat (roundF64 (c / 255)) = F32.finite (roundF32 (roundF64 (c / 255))) ∧
      (roundF32 (roundF64 (c / 255)) = c / 255 →
        F32.ofRat (roundF64 (c / 255)) = F32.finite (c / 255))) ∧
    scan ['\n'] "0 255 0 0\n1 0 255 0\n".toList
        = [(⟨0, 255, 0, 0⟩ : Record), ⟨1, 0, 255, 0⟩].flatMap Record.cptItems ∧
    parseCptF32 file ⟨scan ['\n'] "0 255 0 0\n1 0 255 0\n".toList⟩
        = Except.ok ([0, 1],
            [⟨F32.finite 1, F32.finite 0, F32.finite 0, F32.finite 1⟩,
              ⟨F32.finite 0, F32.finite 1, F32.finite 0, F32.finite 1⟩]) := by
  have hs : scan ['\n'] "0 255 0 0\n1 0 255 0\n".toList
      = [(⟨0, 255, 0, 0⟩ : Record), ⟨1, 0, 255, 0⟩].flatMap Record.cptItems := by decide!
  refine ⟨parseCptF32_records file recs, by simp, by simp, fun _ => rfl, ?_, hs, ?_⟩
  · intro c h0 h1
    refine ⟨cptComponent_finite c h0 h1, fun h => ?_⟩
    rw [cptComponent_finite c h0 h1, h]
  · rw [hs, parseCptF32_records]
    exact congrArg Except.ok (by decide!)

/-- The one record file `"0 128 0 0\n"` read under any name; the component
128 lies in `[0,255]` and is stored as a finite binary32 value. -/
theorem C8_cpt_records_parse_binary32_witness :
    parseCptF32 "/etc/SARndbox/ramp.cpt" ⟨[(⟨0, 128, 0, 0⟩ : Record)].flatMap Record.cptItems⟩
        = Except.ok ([(⟨0, 128, 0, 0⟩ : Record)].map Record.key,
            [(⟨0, 128, 0, 0⟩ : Record)].map Record.cptColorF32) ∧
    F32.ofRat (roundF64 (128 / 255)) = F32.finite (roundF32 (roundF64 (128 / 255))) :=
  ⟨(C8_cpt_records_parse_binary32 "/etc/SARndbox/ramp.cpt" [⟨0, 128, 0, 0⟩]).1,
    ((C8_cpt_records_parse_binary32 "/etc/SARndbox/ramp.cpt" [⟨0, 128, 0, 0⟩]).2.2.2.2.1
      128 (by norm_num) (by norm_num)).1⟩

/-- C9, amended: for every list of records, the default branch of `load`,
reading the items `key , r g b` newline of each record in turn (a comma after
the key, none between the colour components), succeeds and returns one key
and one colour per record, in file order; the key is the number read, and
each colour component is the number read, unscaled, converted to `GLfloat`,
alpha 1. For a component within the finite range of binary32, as every
component in `[0,1]` is, that is the nearest binary32 value, the component
itself where it is a binary32 value; `0.1` is stored as `13421773/2^27`. The
text `"0,1 0 0\n1,0 1 0\n"` is such an input and yields keys 0 and 1 with
colours `(1,0,0,1)` and `(0,1,0,1)`. -/
theorem C9_default_records_parse_binary32 (file : String) (recs : List Record) :
    parseDefaultF32 file ⟨recs.flatMap Record.defaultItems⟩
        = Except.ok (recs.map Record.key, recs.map Record.defaultColorF32) ∧
    (recs.map Record.key).length = recs.length ∧
    (recs.map Record.defaultColorF32).length = recs.length ∧
    (∀ rec : Record, rec.defaultColorF32
        = ⟨F32.ofRat rec.r, F32.ofRat rec.g, F32.ofRat rec.b, F32.finite 1⟩) ∧
    (∀ c : ℚ, finiteF32 c →
      F32.ofRat c = F32.finite (roundF32 c) ∧
      (roundF32 c = c → F32.ofRat c = F32.finite c)) ∧
    (∀ c : ℚ, 0 ≤ c → c ≤ 1 → finiteF32 c) ∧
    F32.ofRat (1 / 10) = F32.finite (13421773 / 2 ^ 27) ∧
    scan [',', '\n'] "0,1 0 0\n1,0 1 0\n".toList
        = [(⟨0, 1, 0, 0⟩ : Record), ⟨1, 0, 1, 0⟩].flatMap Record.defaultItems ∧
    parseDefaultF32 file ⟨scan [',', '\n'] "0,1 0 0\n1,0 1 0\n".toList⟩
        = Except.ok ([0, 1],
            [⟨F32.finite 1, F32.finite 0, F32.finite 0, F32.finite 1⟩,
              ⟨F32.finite 0, F32.finite 1, F32.finite 0, F32.finite 1⟩]) := by
  have hs : scan [',', '\n'] "0,1 0 0\n1,0 1 0\n".toList
      = [(⟨0, 1, 0, 0⟩ : Record), ⟨1, 0, 1, 0⟩].flatMap Record.defaultItems := by decide!
  refine ⟨parseDefaultF32_records file recs, by simp, by simp, fun _ => rfl, ?_,
    finiteF32_of_unit, by decide!, hs, ?_⟩
  · intro c hc
    refine ⟨ofRat_finite c hc, fun h => ?_⟩
    rw [ofRat_finite c hc, h]
  · rw [hs, parseDefaultF32_records]
    exact congrArg Except.ok (by decide!)

/-- The one record file `"0,0.5 0 0\n"` read under any name; the component
`1/2` lies within the finite range and is stored as it is. -/
theorem C9_default_records_parse_binary32_witness :
    parseDefaultF32 "/etc/SARndbox/ramp.txt"
        ⟨[(⟨0, 1 / 2, 0, 0⟩ : Record)].flatMap Record.defaultItems⟩
      = Except.ok ([(⟨0, 1 / 2, 0, 0⟩ : Record)].map Record.key,
          [(⟨0, 1 / 2, 0, 0⟩ : Record)].map Record.defaultColorF32) ∧
    finiteF32 (1 / 2) ∧
    F32.ofRat (1 / 2) = F32.finite (1 / 2) :=
  ⟨(C9_default_records_parse_binary32 "/etc/SARndbox/ramp.txt" [⟨0, 1 / 2, 0, 0⟩]).1,
    (C9_default_records_parse_binary32 "/etc/SARndbox/ramp.txt" [⟨0, 1 / 2, 0, 0⟩]).2.2.2.2.2.1
      (1 / 2) (by norm_num) (by norm_num),
    ((C9_default_records_parse_binary32 "/etc/SARndbox/ramp.txt" [⟨0, 1 / 2, 0, 0⟩]).2.2.2.2.1
      (1 / 2) (by decide!)).2 (by decide!)⟩

/-! ## The conversions do not change what is read -/

theorem cptLoopF32_keys (file : String) :
    ∀ (fuel : Nat) (src : ValueSource) (line : Nat) (keys : List ℚ) (colors : List Color)
      (colors32 : List Color32),
      (cptLoopF32 file fuel src line keys colors32).map Prod.fst
        = (cptLoop file fuel src line keys colors).map Prod.fst := by
  intro fuel
  induction fuel with
  | zero => intro src line keys colors colors32; simp [cptLoop, cptLoopF32, Except.map]
  | succ fuel ih =>
    intro src line keys colors colors32
    simp only [cptLoop, cptLoopF32]
    by_cases he : src.eof = true
    · simp [he, Except.map]
    · simp only [he, if_false, Bool.false_eq_true]
      cases h0 : src.readNumber with
      | error e => simp [bind, Except.bind, Except.map]
      | ok p0 =>
        obtain ⟨key, s0⟩ := p0
        cases h1 : s0.readNumber with
        | error e => simp [bind, Except.bind, Except.map, h1]
        | ok p1 =>
          obtain ⟨c0, s1⟩ := p1
          cases h2 : s1.readNumber with
          | error e => simp [bind, Except.bind, Except.map, h1, h2]
          | ok p2 =>
            obtain ⟨c1, s2⟩ := p2
            cases h3 : s2.readNumber with
            | error e => simp [bind, Except.bind, Except.map, h1, h2, h3]
            | ok p3 =>
              obtain ⟨c2, s3⟩ := p3
              cases h4 : (s3.isLiteral '\n').1 with
              | false =>
                simp [bind, Except.bind, Except.map, h1, h2, h3, h4, throw, throwThe,
                  MonadExceptOf.throw]
              | true =>
                simp only [bind, Except.bind, h1, h2, h3, h4]
                exact ih _ _ _ _ _

theorem defaultLoopF32_keys (file : String) :
    ∀ (fuel : Nat) (src : ValueSource) (line : Nat) (keys : List ℚ) (colors : List Color)
      (colors32 : List Color32),
      (defaultLoopF32 file fuel src line keys colors32).map Prod.fst
        = (defaultLoop file fuel src line keys colors).map Prod.fst := by
  intro fuel
  induction fuel with
  | zero => intro src line keys colors colors32; simp [defaultLoop, defaultLoopF32, Except.map]
  | succ fuel ih =>
    intro src line keys colors colors32
    simp only [defaultLoop, defaultLoopF32]
    by_cases he : src.eof = true
    · simp [he, Except.map]
    · simp only [he, if_false, Bool.false_eq_true]
      cases h0 : src.readNumber with
      | error e => simp [bind, Except.bind, Except.map]
      | ok p0 =>
        obtain ⟨key, s0⟩ := p0
        cases hcomma : (s0.isLiteral ',').1 with
        | false =>
          simp [bind, Except.bind, Except.map, hcomma, throw, throwThe, MonadExceptOf.throw]
        | true =>
          cases h1 : (s0.isLiteral ',').2.readNumber with
          | error e => simp [bind, Except.bind, Except.map, hcomma, h1]
          | ok p1 =>
            obtain ⟨c0, s1⟩ := p1
            cases h2 : s1.readNumber with
            | error e => simp [bind, Except.bind, Except.map, hcomma, h1, h2]
            | ok p2 =>
              obtain ⟨c1, s2⟩ := p2
              cases h3 : s2.readNumber with
              | error e => simp [bind, Except.bind, Except.map, hcomma, h1, h2, h3]
              | ok p3 =>
                obtain ⟨c2, s3⟩ := p3
                cases h4 : (s3.isLiteral '\n').1 with
                | false =>
                  simp [bind, Except.bind, Except.map, hcomma, h1, h2, h3, h4, throw, throwThe,
                    MonadExceptOf.throw]
                | true =>
                  simp only [bind, Except.bind, hcomma, h1, h2, h3, h4]
                  exact ih _ _ _ _ _

/-- The conversions of the colour components change neither whether the
`.cpt` branch of `load` returns, nor its exception, nor the keys it reads. -/
theorem parseCptF32_keys (file : String) (src : ValueSource) :
    (parseCptF32 file src).map Prod.fst = (parseCpt file src).map Prod.fst :=
  cptLoopF32_keys file _ src 1 [] [] []

/-- The conversions of the colour components change neither whether the
default branch of `load` returns, nor its exception, nor the keys it reads. -/
theorem parseDefaultF32_keys (file : String) (src : ValueSource) :
    (parseDefaultF32 file src).map Prod.fst = (parseDefault file src).map Prod.fst :=
  defaultLoopF32_keys file _ src 1 [] [] []

/-- Where the cycle update in binary32 arithmetic returns, it leaves the
backup, the cycling flag, the speed, the number of entries, the version
counter, the texture plane and the scalar range as the update in exact
arithmetic does; the two differ in the phase and in the colours only. -/
theorem updateColorCycleF32_frame (m m2 : ElevationColorMap) (t : ℚ)
    (h : m.updateColorCycleF32 t = some m2) :
    m2.originalColors = (m.updateColorCycle t).originalColors ∧
    m2.colorCyclingEnabled = (m.updateColorCycle t).colorCyclingEnabled ∧
    m2.colorCycleSpeed = (m.updateColorCycle t).colorCycleSpeed ∧
    m2.entries.length = (m.updateColorCycle t).entries.length ∧
    m2.textureVersion = (m.updateColorCycle t).textureVersion ∧
    m2.texturePlaneEq = (m.updateColorCycle t).texturePlaneEq ∧
    m2.scalarRangeMin = (m.updateColorCycle t).scalarRangeMin ∧
    m2.scalarRangeMax = (m.updateColorCycle t).scalarRangeMax := by
  rcases Bool.eq_false_or_eq_true m.colorCyclingEnabled with hc | hc
  · cases ho : m.originalColors with
    | none =>
      rw [updateColorCycleF32_idle m t (Or.inr ho)] at h
      rw [updateColorCycle_idle m t (Or.inr ho), ← Option.some.inj h]
      exact ⟨rfl, rfl, rfl, rfl, rfl, rfl, rfl, rfl⟩
    | some backup =>
      by_cases hfin : finiteF32 (t * m.colorCycleSpeed)
      · rw [updateColorCycleF32_finite m t backup hc ho hfin] at h
        rw [← Option.some.inj h]
        obtain ⟨a1, a2, a3, a4, a5, a6, a7, a8⟩ :=
          updateColorCycleWith_frame roundF32 m t backup hc ho
        obtain ⟨b1, b2, b3, b4, b5, b6, b7, b8⟩ :=
          updateColorCycleWith_frame id m t backup hc ho
        rw [updateColorCycleWith_id] at b1 b2 b3 b4 b5 b6 b7 b8
        exact ⟨a1.trans b1.symm, a2.trans b2.symm, a3.trans b3.symm, a4.trans b4.symm,
          a5.trans b5.symm, a6.trans b6.symm, a7.trans b7.symm, a8.trans b8.symm⟩
      · rw [updateColorCycleF32_overflow m t backup hc ho hfin] at h
        exact absurd h (by simp)
  · rw [updateColorCycleF32_idle m t (Or.inl hc)] at h
    rw [updateColorCycle_idle m t (Or.inl hc), ← Option.some.inj h]
    exact ⟨rfl, rfl, rfl, rfl, rfl, rfl, rfl, rfl⟩

end SARndbox
